import Mathlib

/-! The ctx command line tool: persistence, templates, prompts and work items.

A shallow embedding of `internal/agent/storage.go`, `internal/agent/templates.go`,
`internal/agent/prompt.go`, `internal/agent/intent.go` and `internal/agent/models.go`.

* Go strings are lists of runes (`Str`).
* The file system is the answer of the operating system at every path string
  (`none`: it reports that the path does not exist; `fault`: it rejects the
  path); reads and writes are explicit state passing; `os.ReadDir` is a listing
  function given beside the store. `linuxStore` gives the answers of Linux for a
  directory tree. `filepath.Join` cleans its result as `filepath.Clean` does.
* Go `int` is taken as 64 bits; the loop of `uniquePath` runs on fuel.
* Slices and maps are values, except in the section on references, where they
  are addresses into a heap.
* The order in which `range` visits a Go map is a parameter where the result
  depends on it (`ClassifyIntent`).
* `gopkg.in/yaml.v3` is an external library: every function that calls it takes
  the codec as a parameter (`Yaml α`).  A reference codec for the block-style
  documents yaml.v3 emits is given for evaluating the code on concrete files.
-/

namespace Ctx

/-! ## Go strings -/

/-- Go string, as its sequence of runes. -/
abbrev Str := List Char

/-- The function `strings.HasPrefix`. -/
def HasPrefix (s p : Str) : Bool := p.isPrefixOf s

/-- The function `strings.Index`: position of the first occurrence of `sep` in `s`
(`none` where Go returns `-1`). -/
def Index : Str → Str → Option Nat
  | [], sep => if sep.isEmpty then some 0 else none
  | c :: t, sep => if HasPrefix (c :: t) sep then some 0 else (Index t sep).map (· + 1)

/-- The function `strings.Contains`. -/
def Contains (s sub : Str) : Bool := (Index s sub).isSome

/-- Loop of `strings.explode`: one rune per element, the last element takes the rest. -/
def explodeLoop : Nat → Str → List Str
  | 0, _ => []
  | 1, s => [s]
  | _ + 2, [] => [[]]
  | k + 2, c :: t => [c] :: explodeLoop (k + 1) t

/-- The function `strings.explode` (used by `SplitN` for an empty separator). -/
def explode (s : Str) (n : Nat) : List Str := explodeLoop (min n s.length) s

/-- Loop of `strings.genSplit`: at most `k` cuts at the leftmost occurrences of
`sep`, then the remainder as last element. -/
def genSplitLoop (sep : Str) : Nat → Str → List Str
  | 0, s => [s]
  | k + 1, s =>
    match Index s sep with
    | none => [s]
    | some m => s.take m :: genSplitLoop sep k (s.drop (m + sep.length))

/-- The function `strings.SplitN` for a count `n ≥ 0` (the clamp of `n` to
`len(s)+1` in `genSplit` only bounds the allocation and is not observable). -/
def SplitN (s sep : Str) (n : Nat) : List Str :=
  if n = 0 then []
  else if sep.isEmpty then explode s n
  else genSplitLoop sep (n - 1) s

/-- The function `unicode.IsSpace`: the Latin-1 cases and the `White_Space` table. -/
def isSpace (c : Char) : Bool :=
  let n := c.toNat
  (0x09 ≤ n && n ≤ 0x0D) || n == 0x20 || n == 0x85 || n == 0xA0 || n == 0x1680
    || (0x2000 ≤ n && n ≤ 0x200A) || n == 0x2028 || n == 0x2029 || n == 0x202F
    || n == 0x205F || n == 0x3000

/-- The function `strings.TrimSpace`. -/
def TrimSpace (s : Str) : Str := (s.dropWhile isSpace).rdropWhile isSpace

/-- The function `strings.TrimLeft`: drops the leading runes that occur in `cutset`. -/
def TrimLeft (s cutset : Str) : Str := s.dropWhile (fun c => cutset.elem c)

/-- The function `strings.TrimRight`. -/
def TrimRight (s cutset : Str) : Str := s.rdropWhile (fun c => cutset.elem c)

/-- The function `strings.Join`. -/
def Join (items : List Str) (sep : Str) : Str := List.intercalate sep items

/-- Order of Go strings (`<=`): lexicographic on the code points. -/
def strLe : Str → Str → Bool
  | [], _ => true
  | _ :: _, [] => false
  | a :: s, b :: t => a.toNat < b.toNat || (a == b && strLe s t)

/-- Insertion of one string into an ascending list. -/
def insertString (x : Str) : List Str → List Str
  | [] => [x]
  | y :: ys => if strLe x y then x :: y :: ys else y :: insertString x ys

/-- The function `sort.Strings`, as the ascending list it leaves. -/
def sortStrings (xs : List Str) : List Str := xs.foldr insertString []

/-! ## Errors and the file system -/

/-- Error values the package returns. -/
inductive Error where
  /-- a path error that satisfies `errors.Is(err, fs.ErrNotExist)` -/
  | notExist (path : Str)
  /-- any other failure of an `os` call -/
  | io (path : Str)
  /-- an error returned by the yaml library -/
  | yaml (msg : Str)
  /-- an error built with `errors.New` or `fmt.Errorf` -/
  | text (msg : Str)
  deriving DecidableEq, Repr

/-- What the operating system answers at a path. -/
inductive Entry where
  /-- a regular file with its content -/
  | file (data : Str)
  | dir
  /-- an entry that exists but cannot be read or written -/
  | denied
  /-- a path the operating system rejects: no call on it succeeds, and the error
  is not a not-exist error (a name longer than the file system allows, a regular
  file as ancestor, an ancestor that cannot be searched, a loop of links) -/
  | fault
  deriving DecidableEq, Repr

/-- File system state, as the answer of the operating system at every path
string: `none` where it reports that the path does not exist. -/
abbrev FS := Str → Option Entry

/-- The function `os.ReadFile`: the content of a regular file, the not-exist error
where the system reports that the path does not exist, another error for every
other answer. -/
def ReadFile (fs : FS) (path : Str) : Except Error Str :=
  match fs path with
  | some (.file data) => .ok data
  | some _ => .error (.io path)
  | none => .error (.notExist path)

/-- The function `os.WriteFile`: fails on a directory, on an entry that cannot be
written and on a path the system rejects. A regular file of the store and a path
reported as absent can be written: files that can be read but not written, and
absent paths that cannot be created, are not states of this store. -/
def WriteFile (fs : FS) (path data : Str) : Except Error FS :=
  match fs path with
  | some .dir => .error (.io path)
  | some .denied => .error (.io path)
  | some .fault => .error (.io path)
  | _ => .ok (fun p => if p = path then some (.file data) else fs p)

/-- Loop of `pathElements`: the element read so far (reversed) and the rest. -/
def pathElementsLoop : Str → Str → List Str
  | acc, [] => [acc.reverse]
  | acc, c :: t =>
    if c = '/' then acc.reverse :: pathElementsLoop [] t else pathElementsLoop (c :: acc) t

/-- The elements of a path: the runs of runes between its separators (empty
runs included). -/
def pathElements (path : Str) : List Str := pathElementsLoop [] path

/-- One element of the path in `filepath.Clean`, `out` being the elements
written so far: an empty element and `.` are skipped; `..` removes the last
element written, unless there is none or it is `..` itself, in which case `..`
is written for a path that is not rooted and dropped for a rooted one. -/
def cleanStep (rooted : Bool) (out : List Str) (e : Str) : List Str :=
  if e = [] ∨ e = ['.'] then out
  else if e = ['.', '.'] then
    match out.getLast? with
    | none => if rooted then out else out ++ [e]
    | some top =>
      if top = ['.', '.'] then (if rooted then out else out ++ [e]) else out.dropLast
  else out ++ [e]

/-- The function `filepath.Clean` (separator `/`, no volume name). -/
def filepathClean (path : Str) : Str :=
  if path = [] then ['.']
  else
    let rooted := decide (path.head? = some '/')
    let out := (pathElements path).foldl (cleanStep rooted) []
    if rooted then '/' :: Join out ['/']
    else if out = [] then ['.'] else Join out ['/']

/-- The function `filepath.Join`: the elements from the first non-empty one on,
joined by the separator and cleaned; the empty string when all are empty. -/
def filepathJoin (parts : List Str) : Str :=
  match parts.dropWhile (fun p => p.isEmpty) with
  | [] => []
  | rest => filepathClean (Join rest ['/'])

def agentDir : Str := ".agent".toList
def contextFile : Str := "context.yaml".toList
def stateFile : Str := "state.yaml".toList
def promptProfilesFile : Str := "prompt_profiles.yaml".toList
def templatesDir : Str := "templates".toList
def workitemsDir : Str := "workitems".toList
def evidenceDir : Str := "evidence".toList
def exportsDir : Str := "exports".toList
def currentPromptFile : Str := "current.prompt.md".toList

/-- AgentPath builds a path relative to the .agent directory. -/
def AgentPath (parts : List Str) : Str := filepathJoin (agentDir :: parts)

/-! ## The yaml library -/

/-- The two entry points of `gopkg.in/yaml.v3` at one Go type: `yaml.Marshal`
and `yaml.Unmarshal` into a zero value (the error carries the library's message). -/
structure Yaml (α : Type) where
  marshal : α → Str
  unmarshal : Str → Except Str α

/-- Helper `saveYAML` of storage.go. -/
def saveYAML {α : Type} (Y : Yaml α) (path : Str) (data : α) (fs : FS) : Except Error FS :=
  WriteFile fs path (Y.marshal data)

/-- Helper `readYAML` of storage.go. -/
def readYAML {α : Type} (Y : Yaml α) (path : Str) (fs : FS) : Except Error α :=
  match ReadFile fs path with
  | .error e => .error e
  | .ok data =>
    match Y.unmarshal data with
    | .error msg => .error (.yaml msg)
    | .ok v => .ok v

/-! ## Data model (models.go) -/

/-- A `time.Time`, carried as its RFC 3339 rendering (the form yaml.v3 stores). -/
abbrev Time := Str

/-- The zero `time.Time`. -/
def Time.zero : Time := "0001-01-01T00:00:00Z".toList

/-- Architecture describes the project's structural style. -/
structure Architecture where
  Style : Str := []
  Version : Str := []
  Notes : Str := []
  deriving DecidableEq, Repr

/-- HealthSnapshot captures lightweight operational health. -/
structure HealthSnapshot where
  Status : Str := []
  Issues : List Str := []
  deriving DecidableEq, Repr

/-- The anonymous struct of the `Project` field of `Context`. -/
structure ProjectInfo where
  Name : Str := []
  Summary : Str := []
  Template : Str := []
  deriving DecidableEq, Repr

/-- Context represents slow-changing project context shared across work items.
The `Standards` map is carried as its list of key/value pairs. -/
structure Context where
  Project : ProjectInfo := {}
  Architecture : Architecture := {}
  Standards : List (Str × List Str) := []
  Constraints : List Str := []
  QualityGates : List Str := []
  deriving DecidableEq, Repr

/-- State represents fast-changing state that is easy to resume. -/
structure State where
  ActiveWorkItem : Str := []
  LastSummary : Str := []
  BranchSuggestion : Str := []
  Health : HealthSnapshot := {}
  deriving DecidableEq, Repr

/-- WorkItem metadata is stored in front matter, while Body preserves user edits. -/
structure WorkItem where
  ID : Str := []
  Title : Str := []
  Intent : List Str := []
  Status : Str := []
  CreatedAt : Time := Time.zero
  Evidence : List Str := []
  LastSummary : Str := []
  AcceptanceCriteria : List Str := []
  BranchSuggestion : Str := []
  deriving DecidableEq, Repr

/-- WorkItemFile combines metadata with free-form body text. -/
structure WorkItemFile where
  Meta : WorkItem := {}
  Body : Str := []
  deriving DecidableEq, Repr

/-! ## Work items (storage.go) -/

/-- The front matter delimiter. -/
def delimiter : Str := "---".toList

/-- WorkItemPath returns the path to a work item file. -/
def WorkItemPath (id : Str) : Str := AgentPath [workitemsDir, id ++ ".md".toList]

/-- Function `defaultWorkItemBody` of storage.go. -/
def defaultWorkItemBody (m : WorkItem) : Str :=
  "# Work Item ".toList ++ m.ID ++ "\n\n## Summary\n".toList ++ m.Title
    ++ "\n\n## Acceptance Criteria\n- Add criteria as you work.\n\n## Notes\n- Capture decisions, scope, and dependencies here.\n".toList

/-- The body `SaveWorkItem` writes: the default body when `Body` is blank. -/
def savedBody (wi : WorkItemFile) : Str :=
  if TrimSpace wi.Body = [] then defaultWorkItemBody wi.Meta else wi.Body

/-- The buffer `SaveWorkItem` builds: delimiter line, metadata, delimiter line,
a newline unless the body starts with one, the body. -/
def workItemDocument (Y : Yaml WorkItem) (wi : WorkItemFile) : Str :=
  let metaBytes := Y.marshal wi.Meta
  let body := savedBody wi
  "---\n".toList ++ metaBytes ++ "---\n".toList
    ++ (if HasPrefix body "\n".toList then [] else "\n".toList) ++ body

/-- SaveWorkItem writes a work item back to disk. -/
def SaveWorkItem (Y : Yaml WorkItem) (wi : WorkItemFile) (fs : FS) : Except Error FS :=
  WriteFile fs (WorkItemPath wi.Meta.ID) (workItemDocument Y wi)

/-- Function `parseWorkItem` of storage.go. -/
def parseWorkItem (Y : Yaml WorkItem) (data : Str) : Except Error WorkItemFile :=
  if !HasPrefix data delimiter then
    .error (.text "work item missing front matter".toList)
  else
    let parts := SplitN data delimiter 3
    if parts.length < 3 then
      .error (.text "invalid work item format".toList)
    else
      let front := TrimSpace (parts.getD 1 [])
      let body := TrimLeft (parts.getD 2 []) "\n".toList
      match Y.unmarshal front with
      | .error msg => .error (.yaml msg)
      | .ok m => .ok { Meta := m, Body := body }

/-- LoadWorkItem reads a work item file. -/
def LoadWorkItem (Y : Yaml WorkItem) (fs : FS) (id : Str) : Except Error WorkItemFile :=
  match ReadFile fs (WorkItemPath id) with
  | .error e => .error e
  | .ok data => parseWorkItem Y data

/-- UpdateWorkItemStatus updates the status field for a work item. -/
def UpdateWorkItemStatus (Y : Yaml WorkItem) (id status : Str) (fs : FS) : Except Error FS :=
  match LoadWorkItem Y fs id with
  | .error e => .error e
  | .ok wi => SaveWorkItem Y { wi with Meta := { wi.Meta with Status := status } } fs

/-! ## State (storage.go) -/

/-- DefaultState constructs starter state. -/
def DefaultState : State := { Health := { Status := "unknown".toList, Issues := [] } }

/-- SaveState writes state.yaml. -/
def SaveState (Y : Yaml State) (st : State) (fs : FS) : Except Error FS :=
  let st :=
    if st.Health.Status = [] ∧ st.Health.Issues.length = 0 then
      { st with Health := { st.Health with Status := "unknown".toList } }
    else st
  saveYAML Y (AgentPath [stateFile]) st fs

/-- LoadState reads state.yaml. -/
def LoadState (Y : Yaml State) (fs : FS) : Except Error State :=
  match readYAML Y (AgentPath [stateFile]) fs with
  | .error e => .error e
  | .ok st =>
    if st.Health.Status = [] ∧ st.Health.Issues.length = 0 then
      .ok { st with Health := { st.Health with Status := "unknown".toList } }
    else .ok st

/-! ## Templates (templates.go) -/

/-- The registry `builtInTemplates`. -/
def builtInTemplates : List (Str × Context) :=
  [ ("default".toList,
      { Project :=
          { Name := "default".toList
            Summary := "Project context placeholder. Capture architecture, standards, and risks here.".toList
            Template := "default".toList }
        Architecture :=
          { Style := "general".toList
            Version := "v1".toList
            Notes := "Update this section with your system's architecture overview.".toList }
        Standards :=
          [ ("process".toList,
              [ "Keep prompts token-cheap; prefer summaries over full dumps.".toList,
                "Reference evidence paths; do not inline logs.".toList ]),
            ("code".toList,
              [ "Maintain compatibility across supported platforms.".toList ]) ]
        Constraints :=
          [ "Keep prompts token-cheap; expand context only when profile requests.".toList,
            "Maintain portable state inside the repo for agent switching and parallel work.".toList ]
        QualityGates :=
          [ "All tests pass and lint is clean.".toList,
            "No breaking API changes.".toList,
            "Prompt written to .agent/exports/current.prompt.md.".toList ] }),
    ("react-spring".toList,
      { Project :=
          { Name := "react-spring".toList
            Summary := "Full-stack React + Spring Boot application.".toList
            Template := "react-spring".toList }
        Architecture :=
          { Style := "layered".toList
            Version := "v1".toList
            Notes := "React + TypeScript frontend talking to Spring Boot REST APIs; separate client/server modules with shared contracts.".toList }
        Standards :=
          [ ("frontend".toList,
              [ "React + TypeScript with functional components and hooks.".toList,
                "Feature-oriented folder structure with co-located tests and styles.".toList,
                "Use lint/format defaults; keep API clients typed and surface errors to users.".toList ]),
            ("backend".toList,
              [ "Spring Boot REST controllers -> services -> repositories with constructor injection.".toList,
                "DTOs decoupled from persistence models; validate inputs at boundaries.".toList,
                "JUnit/Mockito tests for services/controllers; consistent API error responses.".toList ]),
            ("shared".toList,
              [ "Document API contracts and align client/server versions.".toList ]) ]
        Constraints :=
          [ "Keep prompts token-cheap; expand context only when profile requests.".toList,
            "Maintain portable state inside the repo for agent switching and parallel work.".toList ]
        QualityGates :=
          [ "All tests pass and lint is clean.".toList,
            "No breaking API changes.".toList,
            "Prompt written to .agent/exports/current.prompt.md.".toList ] }) ]

/-- RepoTemplatePath resolves the path to a repo-local template. -/
def RepoTemplatePath (name : Str) : Str := AgentPath [templatesDir, name ++ ".yaml".toList]

/-- Function `loadRepoTemplate` of templates.go. -/
def loadRepoTemplate (Y : Yaml Context) (fs : FS) (name : Str) : Except Error Context :=
  match ReadFile fs (RepoTemplatePath name) with
  | .error e => .error e
  | .ok data =>
    match Y.unmarshal data with
    | .error msg => .error (.yaml msg)
    | .ok ctx => .ok ctx

/-- Function `cloneContext` of templates.go: fresh copies of the two lists and
of every rule list of the standards map. -/
def cloneContext (ctx : Context) : Context :=
  { ctx with
    Constraints := [] ++ ctx.Constraints
    QualityGates := [] ++ ctx.QualityGates
    Standards := ctx.Standards.map (fun kv => (kv.1, [] ++ kv.2)) }

/-- Function `builtInTemplate` of templates.go. -/
def builtInTemplate (name : Str) : Option Context :=
  match builtInTemplates.lookup name with
  | none => none
  | some ctx => some (cloneContext ctx)

/-- Function `finalizeTemplateMetadata` of templates.go. -/
def finalizeTemplateMetadata (ctx : Context) (resolvedTemplateName requestedName : Str) : Context :=
  let ctx :=
    if requestedName ≠ [] ∧ (ctx.Project.Name = [] ∨ resolvedTemplateName ≠ requestedName) then
      { ctx with Project := { ctx.Project with Name := requestedName } }
    else ctx
  if ctx.Project.Template = [] then
    { ctx with Project := { ctx.Project with Template := resolvedTemplateName } }
  else ctx

/-- Test `errors.Is(err, fs.ErrNotExist) || errors.Is(err, os.ErrNotExist)`. -/
def Error.isNotExist : Error → Bool
  | .notExist _ => true
  | _ => false

/-- First statement of `ResolveTemplate`: an empty request stands for `default`. -/
def requestedOrDefault (templateName : Str) : Str :=
  if templateName = [] then "default".toList else templateName

/-- ResolveTemplate loads a template by name, preferring repo templates, then
built-ins, falling back to default. -/
def ResolveTemplate (Y : Yaml Context) (fs : FS) (templateName : Str) :
    Except Error (Context × Str) :=
  let templateName := requestedOrDefault templateName
  match loadRepoTemplate Y fs templateName with
  | .ok ctx => .ok (finalizeTemplateMetadata ctx templateName templateName, templateName)
  | .error err =>
    if !err.isNotExist then .error err
    else
      match builtInTemplate templateName with
      | some ctx => .ok (finalizeTemplateMetadata ctx templateName templateName, templateName)
      | none =>
        match builtInTemplate "default".toList with
        | none => .error (.text "default template not available".toList)
        | some fallback =>
          .ok (finalizeTemplateMetadata fallback "default".toList templateName, "default".toList)

/-! ## More of the Go standard library -/

/-- The function `strings.HasSuffix`. -/
def HasSuffix (s suffix : Str) : Bool := suffix.reverse.isPrefixOf s.reverse

/-- The function `strings.TrimSuffix`. -/
def TrimSuffix (s suffix : Str) : Str :=
  if HasSuffix s suffix then s.take (s.length - suffix.length) else s

/-- Decimal digit `d < 10` as a rune. -/
def digitChar (d : Nat) : Char := Char.ofNat (48 + d)

/-- Loop of the decimal formatter: digits are produced from the least significant one. -/
def formatNatLoop : Nat → Nat → Str → Str
  | 0, _, acc => acc
  | fuel + 1, n, acc =>
    if n < 10 then digitChar n :: acc
    else formatNatLoop fuel (n / 10) (digitChar (n % 10) :: acc)

/-- The verb `%d` on a non-negative integer. -/
def formatNat (n : Nat) : Str := formatNatLoop (n + 1) n []

/-- Value of a string of decimal digits. -/
def parseDecimal (digits : Str) : Nat := digits.foldl (fun n c => 10 * n + (c.toNat - 48)) 0

/-- Functions of the Go standard library that rest on Unicode tables, taken as
parameters: `unicode.ToLower` and `strconv.Quote` (the verb `%q`). -/
structure GoLib where
  toLower : Char → Char
  quote : Str → Str

/-- The function `strings.ToLower`: `unicode.ToLower` on every rune. -/
def ToLower (L : GoLib) (s : Str) : Str := s.map L.toLower

/-! ## Prompt assembly (prompt.go) -/

/-- PromptProfile controls how much context is expanded when building a prompt. -/
structure PromptProfile where
  Description : Str := []
  IncludeArchitecture : Bool := false
  IncludeStandards : Bool := false
  Detail : Str := []
  deriving DecidableEq, Repr

/-- PromptProfileSet wraps configured profiles (the map as its key/value pairs). -/
structure PromptProfileSet where
  Profiles : List (Str × PromptProfile) := []
  deriving DecidableEq, Repr

/-- PromptData collects data for template execution. -/
structure PromptData where
  Profile : Str
  WorkItem : WorkItem
  State : State
  Context : Context
  Constraints : List Str
  LikelyFiles : List Str
  Evidence : List Str
  QualityGates : List Str
  TaskAcceptance : List Str
  HealthStatus : Str
  HealthIssues : List Str

/-- Function `bulletList` of prompt.go. -/
def bulletList (items : List Str) : Str :=
  if items.length = 0 then "- None".toList
  else
    let b := items.foldl
      (fun b item =>
        if TrimSpace item = [] then b else b ++ "- ".toList ++ item ++ "\n".toList) []
    if b.length = 0 then "- None".toList else TrimRight b "\n".toList

/-- One pass of the inner loop of `mergeUnique`: the `seen` set and the output. -/
def mergeUniqueStep (acc : List Str × List Str) (item : Str) : List Str × List Str :=
  let item := TrimSpace item
  if item = [] ∨ acc.1.elem item = true then acc else (item :: acc.1, acc.2 ++ [item])

/-- Function `mergeUnique` of prompt.go. -/
def mergeUnique (primary extras : List Str) : List Str :=
  ([primary, extras].foldl (fun acc list => list.foldl mergeUniqueStep acc) ([], [])).2

/-- The three baseline constraints `BuildPrompt` passes to `mergeUnique`. -/
def baselineConstraints : List Str :=
  [ "No network access; offline-only CLI.".toList,
    "Do not embed logs; reference evidence paths.".toList,
    "Keep prompts token-cheap; expand only by profile.".toList ]

/-- The function `filepath.ToSlash` where the separator is `/`. -/
def filepathToSlash (path : Str) : Str := path

/-- Function `evidenceList` of prompt.go. -/
def evidenceList (w : WorkItem) : List Str :=
  w.Evidence.foldl
    (fun items e => if TrimSpace e ≠ [] then items ++ [filepathToSlash e] else items) []

/-- Function `containsAny` of prompt.go. -/
def containsAny (text : Str) (terms : List Str) : Bool :=
  terms.any (fun t => Contains text t)

/-- One pass of the loop of `dedupe`: the `seen` set and the output. -/
def dedupeStep (acc : List Str × List Str) (item : Str) : List Str × List Str :=
  if acc.1.elem item = true then acc else (item :: acc.1, acc.2 ++ [item])

/-- Function `dedupe` of prompt.go. -/
def dedupe (items : List Str) : List Str := (items.foldl dedupeStep ([], [])).2

/-- Function `likelyFiles` of prompt.go. -/
def likelyFiles (L : GoLib) (w : WorkItem) : List Str :=
  let text := ToLower L (w.Title ++ " ".toList ++ Join w.Intent " ".toList)
  let files : List Str := []
  let files :=
    if containsAny text ["ui".toList, "react".toList, "component".toList, "css".toList,
        "html".toList, "frontend".toList] then
      files ++ ["src/ui/".toList, "web/".toList, "frontend/".toList, "components/".toList]
    else files
  let files :=
    if containsAny text ["api".toList, "server".toList, "backend".toList, "service".toList,
        "timeout".toList, "latency".toList] then
      files ++ ["cmd/".toList, "internal/".toList, "api/".toList, "server/".toList]
    else files
  let files :=
    if containsAny text ["test".toList, "bug".toList, "fix".toList, "regression".toList] then
      files ++ ["tests/".toList, "internal/".toList, "cmd/".toList]
    else files
  let files :=
    if files.length = 0 then files ++ ["cmd/".toList, "internal/".toList, "pkg/".toList]
    else files
  dedupe files

/-- Function `archSummary` of prompt.go. -/
def archSummary (a : Architecture) : Str :=
  let parts : List Str := []
  let parts := if TrimSpace a.Style ≠ [] then parts ++ [a.Style] else parts
  let parts := if TrimSpace a.Version ≠ [] then parts ++ [a.Version] else parts
  let summary := Join parts " ".toList
  let summary :=
    if TrimSpace a.Notes ≠ [] then
      if summary ≠ [] then summary ++ " — ".toList ++ a.Notes else a.Notes
    else summary
  if TrimSpace summary = [] then "Not documented.".toList else summary

/-- Function `scopedList` of prompt.go (the keys of a Go map are distinct). -/
def scopedList (scopes : List (Str × List Str)) : Str :=
  if scopes.length = 0 then "- None".toList
  else
    let keys := sortStrings (scopes.map (·.1))
    let b := keys.foldl
      (fun b scope =>
        let items := (scopes.lookup scope).getD []
        b ++ "- ".toList ++ scope ++ ": ".toList
          ++ (if items.length = 0 then "None".toList else Join items "; ".toList)
          ++ "\n".toList) []
    TrimRight b "\n".toList

/-- Template function `healthLine`. -/
def healthLine (status : Str) : Str :=
  if TrimSpace status = [] then "unknown".toList else status

/-- Template function `summaryLine`. -/
def summaryLine : List Str → Str
  | [] => "Not provided.".toList
  | p :: parts => if TrimSpace p ≠ [] then p else summaryLine parts

/-- Template function `includeArch` (a missing profile reads as the zero value). -/
def includeArch (profiles : PromptProfileSet) (profile : Str) : Bool :=
  ((profiles.Profiles.lookup profile).getD {}).IncludeArchitecture

/-- Template function `includeStandards`. -/
def includeStandards (profiles : PromptProfileSet) (profile : Str) : Bool :=
  ((profiles.Profiles.lookup profile).getD {}).IncludeStandards

/-- Template function `healthIssuesPresent`. -/
def healthIssuesPresent (issues : List Str) : Bool := decide (issues.length > 0)

/-- The template up to the first conditional block: header lines and the five
bulleted lists. -/
def promptFixedPart (d : PromptData) : Str :=
  "Task: ".toList ++ d.WorkItem.Title ++ " (".toList ++ d.WorkItem.ID ++ ")\n".toList
    ++ "Intent: ".toList ++ Join d.WorkItem.Intent ", ".toList ++ "\n".toList
    ++ "Status: ".toList ++ d.WorkItem.Status ++ "\n".toList
    ++ "Health: ".toList ++ healthLine d.HealthStatus ++ "\n".toList
    ++ "Last Summary: ".toList ++ summaryLine [d.State.LastSummary, d.WorkItem.LastSummary]
    ++ "\n\nConstraints:\n".toList ++ bulletList d.Constraints
    ++ "\n\nQuality Gates:\n".toList ++ bulletList d.QualityGates
    ++ "\n\nEvidence (paths only):\n".toList ++ bulletList d.Evidence
    ++ "\n\nLikely Files:\n".toList ++ bulletList d.LikelyFiles
    ++ "\n\nTask Acceptance:\n".toList ++ bulletList d.TaskAcceptance
    ++ "\n\n".toList

/-- The block `{{if .Context.Project.Summary}}…{{end}}`. -/
def projectContextSection (d : PromptData) : Str :=
  if d.Context.Project.Summary ≠ [] then
    "Project Context:\n- ".toList ++ d.Context.Project.Summary ++ "\n".toList
  else []

/-- The block `{{if includeArch .Profile}}…{{end}}`. -/
def architectureSection (profiles : PromptProfileSet) (d : PromptData) : Str :=
  if includeArch profiles d.Profile = true then
    "\nArchitecture:\n- ".toList ++ archSummary d.Context.Architecture
  else []

/-- The block `{{if includeStandards .Profile}}…{{end}}`. -/
def standardsSection (profiles : PromptProfileSet) (d : PromptData) : Str :=
  if includeStandards profiles d.Profile = true then
    "\nStandards:\n".toList ++ scopedList d.Context.Standards
  else []

/-- The block `{{if healthIssuesPresent .HealthIssues}}…{{end}}`. -/
def healthIssuesSection (d : PromptData) : Str :=
  if healthIssuesPresent d.HealthIssues = true then
    "\n\nHealth Issues:\n".toList ++ bulletList d.HealthIssues
  else []

/-- Execution of `promptTemplate` on the data: the literal text of the template
with every action replaced by its value. -/
def executePromptTemplate (profiles : PromptProfileSet) (d : PromptData) : Str :=
  promptFixedPart d ++ projectContextSection d ++ architectureSection profiles d
    ++ standardsSection profiles d ++ healthIssuesSection d ++ "\n".toList

/-- The data `BuildPrompt` hands to the template. -/
def promptData (L : GoLib) (profileName : Str) (state : State) (wiFile : WorkItemFile)
    (context : Context) : PromptData :=
  let constraints := mergeUnique context.Constraints baselineConstraints
  let taskAcceptance :=
    if wiFile.Meta.AcceptanceCriteria.length = 0 then
      ["Work item completes without expanding scope.".toList]
    else wiFile.Meta.AcceptanceCriteria
  let qualityGates :=
    if context.QualityGates.length = 0 then
      ["All tests pass.".toList, "No breaking API changes.".toList]
    else context.QualityGates
  { Profile := profileName
    WorkItem := wiFile.Meta
    State := state
    Context := context
    Constraints := constraints
    LikelyFiles := likelyFiles L wiFile.Meta
    Evidence := evidenceList wiFile.Meta
    QualityGates := qualityGates
    TaskAcceptance := taskAcceptance
    HealthStatus := state.Health.Status
    HealthIssues := state.Health.Issues }

/-- The buffer `BuildPrompt` writes: the template executed on the assembled data. -/
def promptDocument (L : GoLib) (profiles : PromptProfileSet) (profileName : Str)
    (state : State) (wiFile : WorkItemFile) (context : Context) : Str :=
  executePromptTemplate profiles (promptData L profileName state wiFile context)

/-! ## Reference definitions for the prompt functions -/

/-- Reference: the list with every later duplicate removed (first occurrences, in order). -/
def firstOccurrences : List Str → List Str
  | [] => []
  | x :: xs => x :: (firstOccurrences xs).filter (fun y => decide (y ≠ x))

/-- Trimmed entries of a list, blanks dropped. -/
def trimmedEntries (items : List Str) : List Str :=
  (items.map TrimSpace).filter (fun t => decide (t ≠ []))

/-! ## Directories: `os.Stat`, `os.MkdirAll`, `os.ReadDir`, path helpers -/

/-- Whether an entry is a directory (`FileInfo.IsDir`). -/
def Entry.isDir : Entry → Bool
  | .dir => true
  | _ => false

/-- The function `os.Stat`: the entry at the path, the not-exist error where the
system reports that the path does not exist, and another error at a path it
rejects. -/
def Stat (fs : FS) (path : Str) : Except Error Entry :=
  match fs path with
  | some .fault => .error (.io path)
  | some e => .ok e
  | none => .error (.notExist path)

/-- Loop of `pathAncestors`: the text read so far (reversed) and the rest. -/
def pathAncestorsLoop : Str → Str → List Str
  | acc, [] => [acc.reverse]
  | acc, c :: t =>
    if c = '/' then acc.reverse :: pathAncestorsLoop (c :: acc) t
    else pathAncestorsLoop (c :: acc) t

/-- A relative path and its parents, outermost first: `a`, `a/b`, `a/b/c`. -/
def pathAncestors (path : Str) : List Str := pathAncestorsLoop [] path

/-- The function `os.MkdirAll`: fails, creating nothing, when the path or a parent
exists and is not a directory; otherwise creates the missing directories. -/
def MkdirAll (fs : FS) (path : Str) : Except Error FS :=
  if (pathAncestors path).any
      (fun p => match fs p with
        | some .dir => false
        | none => false
        | _ => true) then
    .error (.io path)
  else
    .ok (fun q => if q ∈ pathAncestors path ∧ fs q = none then some .dir else fs q)

/-- An entry of a directory listing (`os.DirEntry`). -/
structure DirEntry where
  Name : Str
  IsDir : Bool := false
  deriving DecidableEq, Repr

/-- The function `os.ReadDir`, as the listing it returns for each directory. -/
abbrev Listing := Str → Except Error (List DirEntry)

/-- The function `filepath.Base`. -/
def filepathBase (path : Str) : Str :=
  if path = [] then ".".toList
  else
    let p := path.rdropWhile (fun c => decide (c = '/'))
    let b := (p.reverse.takeWhile (fun c => decide (c ≠ '/'))).reverse
    if b = [] then "/".toList else b

/-- Loop of `filepath.Ext`: the path read from its end. -/
def filepathExtLoop : Str → Str → Str
  | [], _ => []
  | c :: t, acc =>
    if c = '/' then [] else if c = '.' then '.' :: acc else filepathExtLoop t (c :: acc)

/-- The function `filepath.Ext`: the suffix from the last dot of the last element. -/
def filepathExt (path : Str) : Str := filepathExtLoop path.reverse []

/-- The function `filepath.Dir`: the path up to its last separator, cleaned. -/
def filepathDir (path : Str) : Str :=
  filepathClean (path.reverse.dropWhile (fun c => decide (c ≠ '/'))).reverse

/-- The function `filepath.Rel` for a target that lies below the base. -/
def filepathRel (base target : Str) : Except Error Str :=
  if target = base then .ok ".".toList
  else if HasPrefix target (base ++ "/".toList) then .ok (target.drop (base.length + 1))
  else .error (.text ("Rel: can't make ".toList ++ target ++ " relative to ".toList ++ base))

/-! ## Work item identifiers (storage.go) -/

/-- Decimal digit `0`–`9` (the class `\d` of Go regular expressions). -/
def isDigit (c : Char) : Bool := decide ('0' ≤ c ∧ c ≤ '9')

/-- The pattern `workItemPattern`, `^WI-(\d{3,})\.md$`: the digits of a matching
name (`FindStringSubmatch`), `none` when the name does not match. -/
def workItemMatch (name : Str) : Option Str :=
  if HasPrefix name "WI-".toList && HasSuffix name ".md".toList then
    let digits := (name.drop 3).take (name.length - 6)
    if decide (3 ≤ digits.length) && digits.all isDigit then some digits else none
  else none

/-- Largest value of a Go `int` (64 bits). -/
def maxInt : Nat := 2 ^ 63 - 1

/-- The call `fmt.Sscanf(digits, "%d", &num)` on a zero `num`, its error ignored:
a value that does not fit an `int` leaves `num` at zero. -/
def sscanInt (digits : Str) : Nat :=
  if parseDecimal digits ≤ maxInt then parseDecimal digits else 0

/-- Addition of Go `int` values, wrapping at 64 bits. -/
def intAdd (a b : Int) : Int := (a + b + 2 ^ 63) % 2 ^ 64 - 2 ^ 63

/-- Digits padded with leading zeros to the given width. -/
def padZeros (width : Nat) (digits : Str) : Str :=
  List.replicate (width - digits.length) '0' ++ digits

/-- The verb `%03d`: width three, zero padding after the sign. -/
def formatInt03 (v : Int) : Str :=
  if v < 0 then '-' :: padZeros 2 (formatNat v.natAbs) else padZeros 3 (formatNat v.toNat)

/-- One pass of the loop of `NextWorkItemID`. -/
def nextIDStep (max : Nat) (e : DirEntry) : Nat :=
  if e.IsDir then max
  else
    match workItemMatch e.Name with
    | some digits => if sscanInt digits > max then sscanInt digits else max
    | none => max

/-- NextWorkItemID computes the next sequential work item ID. -/
def NextWorkItemID (ls : Listing) : Except Error Str :=
  match ls (AgentPath [workitemsDir]) with
  | .error e => .error e
  | .ok entries =>
    let max := entries.foldl nextIDStep 0
    .ok ("WI-".toList ++ formatInt03 (intAdd max 1))

/-- ListWorkItems returns available work item IDs sorted ascending. -/
def ListWorkItems (ls : Listing) : Except Error (List Str) :=
  match ls (AgentPath [workitemsDir]) with
  | .error e => .error e
  | .ok entries =>
    let ids := entries.foldl
      (fun ids e =>
        if e.IsDir then ids
        else if (workItemMatch e.Name).isSome then ids ++ [TrimSuffix e.Name ".md".toList]
        else ids) []
    .ok (sortStrings ids)

/-! ## Evidence files (storage.go) -/

/-- Loop of `uniquePath` from the counter `i`, for at most `fuel` candidates. -/
def uniquePathLoop (fs : FS) (dir base ext : Str) : Nat → Nat → Option Str
  | 0, _ => none
  | fuel + 1, i =>
    let candidate := filepathJoin [dir, base ++ "-".toList ++ formatNat i ++ ext]
    match Stat fs candidate with
    | .error err =>
      if err.isNotExist then some candidate else uniquePathLoop fs dir base ext fuel (i + 1)
    | .ok _ => uniquePathLoop fs dir base ext fuel (i + 1)

/-- Function `uniquePath` of storage.go, run for at most `fuel` candidates
(`none`: the loop is still running). -/
def uniquePath (fs : FS) (fuel : Nat) (path : Str) : Option Str :=
  let dir := filepathDir path
  let ext := filepathExt path
  let base := TrimSuffix (filepathBase path) ext
  uniquePathLoop fs dir base ext fuel 1

/-- Function `copyFile` of storage.go: open the source, create (truncate) the
destination, copy. A directory opens but cannot be copied. -/
def copyFile (fs : FS) (src dest : Str) : Except Error Unit × FS :=
  match fs src with
  | none => (.error (.notExist src), fs)
  | some .denied => (.error (.io src), fs)
  | some .fault => (.error (.io src), fs)
  | some _ =>
    match WriteFile fs dest [] with
    | .error e => (.error e, fs)
    | .ok fs1 =>
      match fs1 src with
      | some (.file data) =>
        (.ok (), fun p => if p = dest then some (.file data) else fs1 p)
      | _ => (.error (.io src), fs1)

/-- CopyEvidence copies a file into the evidence directory and returns the
relative path used (`none`: `uniquePath` is still running after `fuel` candidates). -/
def CopyEvidence (fuel : Nat) (srcPath : Str) (fs : FS) : Option (Except Error Str × FS) :=
  match MkdirAll fs (AgentPath [evidenceDir]) with
  | .error e => some (.error e, fs)
  | .ok fs1 =>
    let base := filepathBase srcPath
    let dest := AgentPath [evidenceDir, base]
    let found :=
      match Stat fs1 dest with
      | .ok _ => uniquePath fs1 fuel dest
      | .error _ => some dest
    match found with
    | none => none
    | some dest =>
      match copyFile fs1 srcPath dest with
      | (.error e, fs2) => some (.error e, fs2)
      | (.ok _, fs2) =>
        match filepathRel agentDir dest with
        | .error e => some (.error e, fs2)
        | .ok rel => some (.ok rel, fs2)

/-! ## Layout and prompt export (storage.go, prompt.go) -/

/-- The codecs of the four persisted record types. -/
structure Codecs where
  context : Yaml Context
  state : Yaml State
  workItem : Yaml WorkItem
  profiles : Yaml PromptProfileSet

/-- DefaultPromptProfiles provides the required profiles. -/
def DefaultPromptProfiles : PromptProfileSet :=
  { Profiles :=
      [ ("cheap".toList,
          { Description := "Summaries only; minimal context and references.".toList
            IncludeArchitecture := false
            IncludeStandards := false
            Detail := "summary".toList }),
        ("standard".toList,
          { Description := "Include architecture and standards for balanced prompts.".toList
            IncludeArchitecture := true
            IncludeStandards := true
            Detail := "balanced".toList }),
        ("deep".toList,
          { Description :=
              "Full context disclosure; include architecture, standards, and constraints.".toList
            IncludeArchitecture := true
            IncludeStandards := true
            Detail := "full".toList }) ] }

/-- SaveContext writes context.yaml. -/
def SaveContext (Y : Yaml Context) (ctx : Context) (fs : FS) : Except Error FS :=
  saveYAML Y (AgentPath [contextFile]) ctx fs

/-- LoadContext reads context.yaml. -/
def LoadContext (Y : Yaml Context) (fs : FS) : Except Error Context :=
  readYAML Y (AgentPath [contextFile]) fs

/-- SavePromptProfiles writes prompt_profiles.yaml. -/
def SavePromptProfiles (Y : Yaml PromptProfileSet) (p : PromptProfileSet) (fs : FS) :
    Except Error FS :=
  saveYAML Y (AgentPath [promptProfilesFile]) p fs

/-- LoadPromptProfiles reads prompt_profiles.yaml. -/
def LoadPromptProfiles (Y : Yaml PromptProfileSet) (fs : FS) : Except Error PromptProfileSet :=
  readYAML Y (AgentPath [promptProfilesFile]) fs

/-- Loop of `ensureFreshAgentLayout` over the protected files. -/
def ensureFreshLoop (fs : FS) : List Str → Except Error Unit
  | [] => .ok ()
  | path :: rest =>
    match Stat fs path with
    | .ok _ => .error (.text ".agent already exists, refusing to overwrite".toList)
    | .error err => if !err.isNotExist then .error err else ensureFreshLoop fs rest

/-- Function `ensureFreshAgentLayout` avoids overwriting existing agent data. -/
def ensureFreshAgentLayout (fs : FS) : Except Error Unit :=
  match Stat fs agentDir with
  | .error err => if err.isNotExist then .ok () else .error err
  | .ok info =>
    if !info.isDir then
      .error (.text (agentDir ++ " exists and is not a directory".toList))
    else
      ensureFreshLoop fs
        [AgentPath [contextFile], AgentPath [stateFile], AgentPath [promptProfilesFile]]

/-- Loop of `EnsureAgentLayout` over the directories to create. -/
def mkdirEach : List Str → FS → Except Error Unit × FS
  | [], fs => (.ok (), fs)
  | d :: rest, fs =>
    match MkdirAll fs d with
    | .error e => (.error e, fs)
    | .ok fs1 => mkdirEach rest fs1

/-- EnsureAgentLayout creates the agent directory structure and default files. -/
def EnsureAgentLayout (Y : Codecs) (templateName : Str) (fs : FS) : Except Error Unit × FS :=
  match ensureFreshAgentLayout fs with
  | .error e => (.error e, fs)
  | .ok _ =>
    match ResolveTemplate Y.context fs templateName with
    | .error e => (.error e, fs)
    | .ok (ctx, _) =>
      match mkdirEach
          [AgentPath [], AgentPath [workitemsDir], AgentPath [evidenceDir],
            AgentPath [exportsDir], AgentPath [templatesDir]] fs with
      | (.error e, fs1) => (.error e, fs1)
      | (.ok _, fs1) =>
        match SaveContext Y.context ctx fs1 with
        | .error e => (.error e, fs1)
        | .ok fs2 =>
          match SaveState Y.state DefaultState fs2 with
          | .error e => (.error e, fs2)
          | .ok fs3 =>
            match SavePromptProfiles Y.profiles DefaultPromptProfiles fs3 with
            | .error e => (.error e, fs3)
            | .ok fs4 => (.ok (), fs4)

/-- TouchPromptFile ensures the exports directory exists. -/
def TouchPromptFile (fs : FS) : Except Error Str × FS :=
  match MkdirAll fs (AgentPath [exportsDir]) with
  | .error e => (.error e, fs)
  | .ok fs1 => (.ok (AgentPath [exportsDir, currentPromptFile]), fs1)

/-- BuildPrompt assembles the prompt and writes exports/current.prompt.md. -/
def BuildPrompt (L : GoLib) (Y : Codecs) (profileName : Str) (fs : FS) :
    Except Error Str × FS :=
  let profileName := if profileName = [] then "cheap".toList else profileName
  match LoadPromptProfiles Y.profiles fs with
  | .error e => (.error e, fs)
  | .ok profiles =>
    match profiles.Profiles.lookup profileName with
    | none =>
      (.error (.text ("prompt profile ".toList ++ L.quote profileName ++ " not found".toList)),
        fs)
    | some _ =>
      match LoadState Y.state fs with
      | .error e => (.error e, fs)
      | .ok state =>
        if state.ActiveWorkItem = [] then
          (.error (.text "no active work item; start one with ctx work start <WI-XXX>".toList),
            fs)
        else
          match LoadWorkItem Y.workItem fs state.ActiveWorkItem with
          | .error e => (.error e, fs)
          | .ok wiFile =>
            match LoadContext Y.context fs with
            | .error e => (.error e, fs)
            | .ok context =>
              let doc := promptDocument L profiles profileName state wiFile context
              match TouchPromptFile fs with
              | (.error e, fs1) => (.error e, fs1)
              | (.ok dest, fs1) =>
                match WriteFile fs1 dest doc with
                | .error e => (.error e, fs1)
                | .ok fs2 => (.ok dest, fs2)

/-! ## Slices and maps as references (templates.go, `cloneContext`)

The records above carry lists by value. To speak of one caller's edits being
seen by another, this section carries the `[]string` and `map[string][]string`
fields of a `Context` as references into a heap, and translates `cloneContext`,
`builtInTemplate`, `finalizeTemplateMetadata` and `ResolveTemplate` again on
that representation. -/

/-- A heap address. -/
abbrev Addr := Nat

/-- A `[]string` value: `nil`, or the address of its backing array. -/
abbrev Slice := Option Addr

/-- What an address holds: the backing array of a `[]string`, or a
`map[string][]string` with the slice stored under each key. -/
inductive Cell where
  | array (items : List Str)
  | map (entries : List (Str × Slice))
  deriving DecidableEq, Repr

/-- The heap: the cell at each address, and the first address not yet handed out. -/
structure Heap where
  cells : Addr → Option Cell
  next : Addr

/-- Allocation of a fresh cell. -/
def Heap.alloc (h : Heap) (c : Cell) : Addr × Heap :=
  (h.next, { cells := fun a => if a = h.next then some c else h.cells a, next := h.next + 1 })

/-- Assignment to the cell at an address. -/
def Heap.set (h : Heap) (a : Addr) (c : Cell) : Heap :=
  { cells := fun b => if b = a then some c else h.cells b, next := h.next }

/-- The elements a slice shows. -/
def Heap.slice (h : Heap) (s : Slice) : List Str :=
  match s with
  | none => []
  | some a =>
    match h.cells a with
    | some (.array xs) => xs
    | _ => []

/-- The entries of the map at an address (`nil` map: none). -/
def Heap.entries (h : Heap) (m : Option Addr) : List (Str × Slice) :=
  match m with
  | none => []
  | some a =>
    match h.cells a with
    | some (.map kv) => kv
    | _ => []

/-- A `Context` whose slices and map are references. -/
structure ContextRef where
  Project : ProjectInfo := {}
  Architecture : Architecture := {}
  Standards : Option Addr := none
  Constraints : Slice := none
  QualityGates : Slice := none
  deriving DecidableEq, Repr

/-- The value of a `ContextRef`: what its references show in the heap. -/
def Heap.context (h : Heap) (c : ContextRef) : Context :=
  { Project := c.Project
    Architecture := c.Architecture
    Standards := (h.entries c.Standards).map (fun e => (e.1, h.slice e.2))
    Constraints := h.slice c.Constraints
    QualityGates := h.slice c.QualityGates }

/-- The addresses a `ContextRef` reaches: its two backing arrays, its map and
the backing arrays stored in the map. -/
def ContextRef.reaches (h : Heap) (c : ContextRef) (a : Addr) : Prop :=
  c.Constraints = some a ∨ c.QualityGates = some a ∨ c.Standards = some a
    ∨ ∃ k, (k, some a) ∈ h.entries c.Standards

/-- Every address the `ContextRef` reaches is below `n`, and the keys of its map
are distinct. -/
def ContextRef.wellFormed (n : Addr) (h : Heap) (c : ContextRef) : Bool :=
  c.Constraints.all (fun a => decide (a < n)) && c.QualityGates.all (fun a => decide (a < n))
    && c.Standards.all (fun a => decide (a < n))
    && (h.entries c.Standards).all (fun e => e.2.all (fun a => decide (a < n)))
    && decide ((h.entries c.Standards).map (·.1)).Nodup

/-- The assignment `m[k] = s` on the entries of a map. -/
def mapSet (k : Str) (s : Slice) : List (Str × Slice) → List (Str × Slice)
  | [] => [(k, s)]
  | e :: rest => if e.1 = k then (k, s) :: rest else e :: mapSet k s rest

/-- The expression `append([]string(nil), s...)`: `nil` for an empty source,
else a fresh backing array holding a copy of the elements. -/
def appendCopy (h : Heap) (s : Slice) : Slice × Heap :=
  match h.slice s with
  | [] => (none, h)
  | x :: xs => ((h.alloc (.array (x :: xs))).1 |> some, (h.alloc (.array (x :: xs))).2)

/-- The loop of `cloneContext` over the entries of the source map:
`out.Standards[k] = append([]string(nil), v...)`. -/
def cloneStandardsLoop (m : Addr) : List (Str × Slice) → Heap → Heap
  | [], h => h
  | (k, v) :: rest, h =>
    let copy := appendCopy h v
    cloneStandardsLoop m rest
      (copy.2.set m (.map (mapSet k copy.1 (copy.2.entries (some m)))))

/-- Function `cloneContext` of templates.go on references. -/
def cloneContextRef (ctx : ContextRef) (h : Heap) : ContextRef × Heap :=
  let cs := appendCopy h ctx.Constraints
  let qg := appendCopy cs.2 ctx.QualityGates
  match ctx.Standards with
  | none => ({ ctx with Constraints := cs.1, QualityGates := qg.1 }, qg.2)
  | some src =>
    let made := qg.2.alloc (.map [])
    ({ ctx with Constraints := cs.1, QualityGates := qg.1, Standards := some made.1 },
      cloneStandardsLoop made.1 (qg.2.entries (some src)) made.2)

/-- Function `builtInTemplate` of templates.go on references, for a registry
whose entries live in the heap. -/
def builtInTemplateRef (registry : List (Str × ContextRef)) (name : Str) (h : Heap) :
    Option ContextRef × Heap :=
  match registry.lookup name with
  | none => (none, h)
  | some ctx => ((cloneContextRef ctx h).1 |> some, (cloneContextRef ctx h).2)

/-- Function `finalizeTemplateMetadata` of templates.go on references. -/
def finalizeTemplateMetadataRef (ctx : ContextRef) (resolvedTemplateName requestedName : Str) :
    ContextRef :=
  let ctx :=
    if requestedName ≠ [] ∧ (ctx.Project.Name = [] ∨ resolvedTemplateName ≠ requestedName) then
      { ctx with Project := { ctx.Project with Name := requestedName } }
    else ctx
  if ctx.Project.Template = [] then
    { ctx with Project := { ctx.Project with Template := resolvedTemplateName } }
  else ctx

/-- A slice freshly built from a list (`nil` for no element). -/
def allocSlice (xs : List Str) (h : Heap) : Slice × Heap :=
  match xs with
  | [] => (none, h)
  | x :: rest => ((h.alloc (.array (x :: rest))).1 |> some, (h.alloc (.array (x :: rest))).2)

/-- The entries of a freshly built map, stored one key at a time. -/
def allocStandardsLoop (m : Addr) : List (Str × List Str) → Heap → Heap
  | [], h => h
  | (k, xs) :: rest, h =>
    let made := allocSlice xs h
    allocStandardsLoop m rest
      (made.2.set m (.map (mapSet k made.1 (made.2.entries (some m)))))

/-- A `Context` value built in the heap, as a decoder or a composite literal
builds it: fresh arrays and a fresh map. -/
def allocContext (c : Context) (h : Heap) : ContextRef × Heap :=
  let cs := allocSlice c.Constraints h
  let qg := allocSlice c.QualityGates cs.2
  match c.Standards with
  | [] =>
    ({ Project := c.Project, Architecture := c.Architecture, Constraints := cs.1,
       QualityGates := qg.1 }, qg.2)
  | kv :: rest =>
    let made := qg.2.alloc (.map [])
    ({ Project := c.Project, Architecture := c.Architecture, Constraints := cs.1,
       QualityGates := qg.1, Standards := some made.1 },
      allocStandardsLoop made.1 (kv :: rest) made.2)

/-- Function `loadRepoTemplate` of templates.go on references: the decoded
record is built in the heap. -/
def loadRepoTemplateRef (Y : Yaml Context) (fs : FS) (name : Str) (h : Heap) :
    Except Error ContextRef × Heap :=
  match loadRepoTemplate Y fs name with
  | .error e => (.error e, h)
  | .ok c => (.ok (allocContext c h).1, (allocContext c h).2)

/-- ResolveTemplate on references. -/
def ResolveTemplateRef (Y : Yaml Context) (fs : FS) (registry : List (Str × ContextRef))
    (templateName : Str) (h : Heap) : Except Error (ContextRef × Str) × Heap :=
  let templateName := requestedOrDefault templateName
  match loadRepoTemplateRef Y fs templateName h with
  | (.ok ctx, h1) =>
    (.ok (finalizeTemplateMetadataRef ctx templateName templateName, templateName), h1)
  | (.error err, h1) =>
    if !err.isNotExist then (.error err, h1)
    else
      match builtInTemplateRef registry templateName h1 with
      | (some ctx, h2) =>
        (.ok (finalizeTemplateMetadataRef ctx templateName templateName, templateName), h2)
      | (none, h2) =>
        match builtInTemplateRef registry "default".toList h2 with
        | (none, h3) => (.error (.text "default template not available".toList), h3)
        | (some fallback, h3) =>
          (.ok (finalizeTemplateMetadataRef fallback "default".toList templateName,
            "default".toList), h3)

/-- The registry `builtInTemplates` built in an empty heap, one entry after the other. -/
def registryLoop : List (Str × Context) → Heap → List (Str × ContextRef) × Heap
  | [], h => ([], h)
  | (name, c) :: rest, h =>
    (((name, (allocContext c h).1) :: (registryLoop rest (allocContext c h).2).1),
      (registryLoop rest (allocContext c h).2).2)

/-- The heap after package initialisation and the registry in it. -/
def registryRef : List (Str × ContextRef) × Heap :=
  registryLoop builtInTemplates { cells := fun _ => none, next := 0 }

/-- One heap is an edit of another through the addresses `own`: it may differ
at those addresses and at addresses handed out later, nowhere else. -/
def EditedAt (own : Addr → Prop) (h h1 : Heap) : Prop :=
  h.next ≤ h1.next ∧ ∀ a, a < h.next → ¬ own a → h1.cells a = h.cells a

/-! ## Intent classification (intent.go) -/

/-- Word character of Go regular expressions (the class `\w`): an ASCII letter,
a digit or the underscore. -/
def isWordChar (c : Char) : Bool :=
  decide ('0' ≤ c ∧ c ≤ '9') || decide ('A' ≤ c ∧ c ≤ 'Z') || decide ('a' ≤ c ∧ c ≤ 'z')
    || decide (c = '_')

/-- The assertion `\b` between two neighbouring runes (`none` beyond either end
of the text): exactly one of the two is a word character. -/
def wordBoundary (before after : Option Char) : Bool :=
  (before.any isWordChar) != (after.any isWordChar)

/-- Whether the pattern `\b` + `regexp.QuoteMeta(kw)` + `\b` matches at the start
of `rest`, the text read so far ending in `before`. -/
def matchWordAt (kw : Str) (before : Option Char) (rest : Str) : Bool :=
  wordBoundary before rest.head? && HasPrefix rest kw
    && wordBoundary (if kw = [] then before else kw.getLast?) (rest.drop kw.length).head?

/-- Search for a match of the pattern at every position of the text. -/
def matchWordLoop (kw : Str) : Option Char → Str → Bool
  | before, [] => matchWordAt kw before []
  | before, c :: t => matchWordAt kw before (c :: t) || matchWordLoop kw (some c) t

/-- The call `regexp.MustCompile(...).MatchString(text)` of `ClassifyIntent`: the
keyword occurs in the text as a whole word. -/
def matchWord (kw text : Str) : Bool := matchWordLoop kw none text

/-- The table `intentRules`, in the order of its composite literal. -/
def intentRules : List (Str × List Str) :=
  [ ("bugfix".toList,
      ["fix".toList, "error".toList, "broken".toList, "failure".toList, "bug".toList,
        "regression".toList, "crash".toList]),
    ("frontend".toList,
      ["ui".toList, "react".toList, "component".toList, "console".toList, "browser".toList,
        "css".toList, "html".toList]),
    ("backend".toList,
      ["api".toList, "timeout".toList, "service".toList, "database".toList, "db".toList,
        "server".toList, "latency".toList, "test".toList]),
    ("design".toList,
      ["architecture".toList, "refactor".toList, "design".toList, "pattern".toList,
        "structure".toList]) ]

/-- ClassifyIntent applies rule-based, deterministic intent tags.  The table is a
Go map and `range` visits its entries in an order the language leaves open:
`visit` is the table in the order of that visit. -/
def ClassifyIntent (L : GoLib) (visit : List (Str × List Str)) (text : Str) : List Str :=
  let lower := ToLower L text
  let intents := visit.foldl
    (fun intents rule =>
      if rule.2.any (fun kw => matchWord kw lower) then intents ++ [rule.1] else intents) []
  if intents.length = 0 then intents ++ ["general".toList] else intents

/-- The text `likelyFiles` scans: the title and the intent tags joined by
spaces, in lower case. -/
def likelyFilesText (L : GoLib) (w : WorkItem) : Str :=
  ToLower L (w.Title ++ " ".toList ++ Join w.Intent " ".toList)

/-- The UI keyword set of `likelyFiles`. -/
def uiKeywords : List Str :=
  ["ui".toList, "react".toList, "component".toList, "css".toList, "html".toList,
    "frontend".toList]

/-- The backend keyword set of `likelyFiles`. -/
def backendKeywords : List Str :=
  ["api".toList, "server".toList, "backend".toList, "service".toList, "timeout".toList,
    "latency".toList]

/-- The test/bug keyword set of `likelyFiles`. -/
def testKeywords : List Str :=
  ["test".toList, "bug".toList, "fix".toList, "regression".toList]

/-- The paths of the UI set. -/
def uiPaths : List Str :=
  ["src/ui/".toList, "web/".toList, "frontend/".toList, "components/".toList]

/-- The paths of the backend set. -/
def backendPaths : List Str :=
  ["cmd/".toList, "internal/".toList, "api/".toList, "server/".toList]

/-- The paths of the test/bug set. -/
def testPaths : List Str := ["tests/".toList, "internal/".toList, "cmd/".toList]

/-- The paths `likelyFiles` gives when no set matches. -/
def defaultPaths : List Str := ["cmd/".toList, "internal/".toList, "pkg/".toList]

/-- Reference: the line of one category of a standards mapping,
`- <category>: <rules joined by "; ">`, with `None` for an empty rule list. -/
def scopeLine (scopes : List (Str × List Str)) (scope : Str) : Str :=
  "- ".toList ++ scope ++ ": ".toList
    ++ (if (scopes.lookup scope).getD [] = [] then "None".toList
        else Join ((scopes.lookup scope).getD []) "; ".toList)

/-! ## The answers of a Linux file system for a directory tree -/

/-- Length of a string in bytes (UTF-8). -/
def utf8Length (s : Str) : Nat := (s.map Char.utf8Size).sum

/-- Largest length of a path element in bytes (`NAME_MAX`). -/
def nameMax : Nat := 255

/-- Largest length of a path in bytes, its final zero byte not counted
(`PATH_MAX` less one). -/
def pathMax : Nat := 4095

/-- What Linux answers at each path string for a directory tree: it rejects a
path that is too long or has an element that is too long (`ENAMETOOLONG`) and a
path with a regular file as proper ancestor (`ENOTDIR`); every other path has the
answer of the tree. -/
def linuxStore (tree : FS) : FS := fun p =>
  if decide (pathMax < utf8Length p)
      || (pathElements p).any (fun e => decide (nameMax < utf8Length e)) then some .fault
  else if (pathAncestors p).dropLast.any
      (fun a => match tree a with
        | some (.file _) => true
        | _ => false) then some .fault
  else tree p

/-! ## Reference yaml codec

The block-style documents yaml.v3 writes for the three record types, for
strings it renders as plain scalars on one line (the empty string is written
`""`): mapping entries `key: value`, nested blocks `key:` indented by four
spaces, sequence items `- value`.  Unknown keys are skipped, as yaml.v3 does.
-/

namespace RefYaml

/-- Lines of a document (split at line feeds). -/
def splitLines : Str → List Str
  | [] => [[]]
  | c :: t =>
    if c = '\n' then [] :: splitLines t
    else
      match splitLines t with
      | [] => [[c]]
      | l :: ls => (c :: l) :: ls

/-- A scalar as written: `""` for the empty string, else the text itself. -/
def scalar (s : Str) : Str := if s.isEmpty then "\"\"".toList else s

/-- A scalar as read. -/
def unscalar (s : Str) : Str := if s = "\"\"".toList then [] else s

/-- Indentation of nesting depth `d`. -/
def pad (d : Nat) : Str := List.replicate (4 * d) ' '

/-- Entry `key: value` at depth `d`. -/
def entry (d : Nat) (key value : Str) : Str :=
  pad d ++ key ++ ": ".toList ++ scalar value ++ "\n".toList

/-- Entry `key: value` at depth `d`, left out when the value is empty (`omitempty`). -/
def entryOpt (d : Nat) (key value : Str) : Str :=
  if value.isEmpty then [] else entry d key value

/-- Sequence `key:` with one `- item` line per item, left out when empty (`omitempty`). -/
def seqOpt (d : Nat) (key : Str) (items : List Str) : Str :=
  if items.isEmpty then []
  else pad d ++ key ++ ":\n".toList
    ++ (items.map (fun i => pad (d + 1) ++ "- ".toList ++ scalar i ++ "\n".toList)).flatten

/-- A leaf of a document: the keys of the enclosing blocks (outermost first,
own key last for a mapping entry) and the scalar. -/
abbrev Leaf := List Str × Str

/-- Open blocks, innermost first: indentation and key. -/
abbrev Stack := List (Nat × Str)

/-- Keys of the open blocks, outermost first. -/
def Stack.keys (st : Stack) : List Str := (st.map (·.2)).reverse

/-- One line: close the blocks that are not less indented, then read an item,
an entry or a block opening. -/
def step (acc : Stack × List Leaf) (line : Str) : Except Str (Stack × List Leaf) :=
  let n := (line.takeWhile (· = ' ')).length
  let content := line.drop n
  if content.isEmpty then .ok acc
  else
    let st := acc.1.filter (fun e => e.1 < n)
    if HasPrefix content "- ".toList then
      .ok (st, acc.2 ++ [(Stack.keys st, unscalar (content.drop 2))])
    else
      match Index content ": ".toList with
      | some i =>
        .ok (st, acc.2
          ++ [(Stack.keys st ++ [unscalar (content.take i)], unscalar (content.drop (i + 2)))])
      | none =>
        if content.getLast? = some ':' then .ok ((n, unscalar content.dropLast) :: st, acc.2)
        else .error "yaml: could not find expected ':'".toList

/-- All lines in order. -/
def steps : Stack × List Leaf → List Str → Except Str (Stack × List Leaf)
  | acc, [] => .ok acc
  | acc, l :: ls =>
    match step acc l with
    | .error e => .error e
    | .ok acc => steps acc ls

/-- The leaves of a document. -/
def leaves (data : Str) : Except Str (List Leaf) :=
  match steps ([], []) (splitLines data) with
  | .error e => .error e
  | .ok acc => .ok acc.2

/-- Text of a work item record. -/
def marshalWorkItem (m : WorkItem) : Str :=
  entry 0 "id".toList m.ID ++ entry 0 "title".toList m.Title
    ++ seqOpt 0 "intent".toList m.Intent
    ++ entry 0 "status".toList m.Status
    ++ entry 0 "created_at".toList m.CreatedAt
    ++ seqOpt 0 "evidence".toList m.Evidence
    ++ entryOpt 0 "last_summary".toList m.LastSummary
    ++ seqOpt 0 "acceptance_criteria".toList m.AcceptanceCriteria
    ++ entryOpt 0 "branch_suggestion".toList m.BranchSuggestion

/-- One leaf stored into a work item record. -/
def setWorkItem (m : WorkItem) (l : Leaf) : WorkItem :=
  if l.1 = ["id".toList] then { m with ID := l.2 }
  else if l.1 = ["title".toList] then { m with Title := l.2 }
  else if l.1 = ["intent".toList] then { m with Intent := m.Intent ++ [l.2] }
  else if l.1 = ["status".toList] then { m with Status := l.2 }
  else if l.1 = ["created_at".toList] then { m with CreatedAt := l.2 }
  else if l.1 = ["evidence".toList] then { m with Evidence := m.Evidence ++ [l.2] }
  else if l.1 = ["last_summary".toList] then { m with LastSummary := l.2 }
  else if l.1 = ["acceptance_criteria".toList] then
    { m with AcceptanceCriteria := m.AcceptanceCriteria ++ [l.2] }
  else if l.1 = ["branch_suggestion".toList] then { m with BranchSuggestion := l.2 }
  else m

/-- Reference codec for `WorkItem`. -/
def workItem : Yaml WorkItem where
  marshal := marshalWorkItem
  unmarshal data :=
    match leaves data with
    | .error e => .error e
    | .ok ls => .ok (ls.foldl setWorkItem {})

/-- Text of a state record (the health block is left out when it is all zero). -/
def marshalState (st : State) : Str :=
  entry 0 "active_work_item".toList st.ActiveWorkItem
    ++ entryOpt 0 "last_summary".toList st.LastSummary
    ++ entryOpt 0 "branch_suggestion".toList st.BranchSuggestion
    ++ (if st.Health.Status.isEmpty && st.Health.Issues.isEmpty then []
        else "health:\n".toList ++ entryOpt 1 "status".toList st.Health.Status
          ++ seqOpt 1 "issues".toList st.Health.Issues)

/-- One leaf stored into a state record. -/
def setState (st : State) (l : Leaf) : State :=
  if l.1 = ["active_work_item".toList] then { st with ActiveWorkItem := l.2 }
  else if l.1 = ["last_summary".toList] then { st with LastSummary := l.2 }
  else if l.1 = ["branch_suggestion".toList] then { st with BranchSuggestion := l.2 }
  else if l.1 = ["health".toList, "status".toList] then
    { st with Health := { st.Health with Status := l.2 } }
  else if l.1 = ["health".toList, "issues".toList] then
    { st with Health := { st.Health with Issues := st.Health.Issues ++ [l.2] } }
  else st

/-- Reference codec for `State`. -/
def state : Yaml State where
  marshal := marshalState
  unmarshal data :=
    match leaves data with
    | .error e => .error e
    | .ok ls => .ok (ls.foldl setState {})

/-- Block `key:` with the body one level deeper. -/
def block (d : Nat) (key body : Str) : Str := pad d ++ key ++ ":\n".toList ++ body

/-- Text of a context record (map keys in ascending order, as yaml.v3 writes them). -/
def marshalContext (c : Context) : Str :=
  block 0 "project".toList
      (entry 1 "name".toList c.Project.Name ++ entry 1 "summary".toList c.Project.Summary
        ++ entryOpt 1 "template".toList c.Project.Template)
    ++ block 0 "architecture".toList
      (entry 1 "style".toList c.Architecture.Style
        ++ entryOpt 1 "version".toList c.Architecture.Version
        ++ entryOpt 1 "notes".toList c.Architecture.Notes)
    ++ (if c.Standards.isEmpty then []
        else block 0 "standards".toList
          ((sortStrings (c.Standards.map (·.1))).map
            (fun k => seqOpt 1 k ((c.Standards.lookup k).getD []))).flatten)
    ++ seqOpt 0 "constraints".toList c.Constraints
    ++ seqOpt 0 "quality_gates".toList c.QualityGates

/-- One rule appended to a category of the standards map. -/
def addRule (cat rule : Str) : List (Str × List Str) → List (Str × List Str)
  | [] => [(cat, [rule])]
  | kv :: rest => if kv.1 = cat then (kv.1, kv.2 ++ [rule]) :: rest else kv :: addRule cat rule rest

/-- One leaf stored into a context record. -/
def setContext (c : Context) (l : Leaf) : Context :=
  if l.1 = ["project".toList, "name".toList] then
    { c with Project := { c.Project with Name := l.2 } }
  else if l.1 = ["project".toList, "summary".toList] then
    { c with Project := { c.Project with Summary := l.2 } }
  else if l.1 = ["project".toList, "template".toList] then
    { c with Project := { c.Project with Template := l.2 } }
  else if l.1 = ["architecture".toList, "style".toList] then
    { c with Architecture := { c.Architecture with Style := l.2 } }
  else if l.1 = ["architecture".toList, "version".toList] then
    { c with Architecture := { c.Architecture with Version := l.2 } }
  else if l.1 = ["architecture".toList, "notes".toList] then
    { c with Architecture := { c.Architecture with Notes := l.2 } }
  else if l.1 = ["constraints".toList] then { c with Constraints := c.Constraints ++ [l.2] }
  else if l.1 = ["quality_gates".toList] then { c with QualityGates := c.QualityGates ++ [l.2] }
  else
    match l.1 with
    | [top, cat] =>
      if top = "standards".toList then { c with Standards := addRule cat l.2 c.Standards } else c
    | _ => c

/-- Reference codec for `Context`. -/
def context : Yaml Context where
  marshal := marshalContext
  unmarshal data :=
    match leaves data with
    | .error e => .error e
    | .ok ls => .ok (ls.foldl setContext {})

/-- A boolean as written. -/
def boolText (b : Bool) : Str := if b then "true".toList else "false".toList

/-- Text of one prompt profile, two levels deep. -/
def marshalProfile (p : PromptProfile) : Str :=
  entry 2 "description".toList p.Description
    ++ pad 2 ++ "include_architecture: ".toList ++ boolText p.IncludeArchitecture ++ "\n".toList
    ++ pad 2 ++ "include_standards: ".toList ++ boolText p.IncludeStandards ++ "\n".toList
    ++ entryOpt 2 "detail".toList p.Detail

/-- Text of a profile set (map keys in ascending order). -/
def marshalProfiles (s : PromptProfileSet) : Str :=
  if s.Profiles.isEmpty then "profiles: {}\n".toList
  else
    block 0 "profiles".toList
      ((sortStrings (s.Profiles.map (·.1))).map
        (fun k => block 1 (scalar k) (marshalProfile ((s.Profiles.lookup k).getD {})))).flatten

/-- One field stored into the profile `name` of a list of profiles. -/
def setProfileField (name field value : Str) :
    List (Str × PromptProfile) → List (Str × PromptProfile)
  | [] => setProfileField.store field value (name, {}) :: []
  | kv :: rest =>
    if kv.1 = name then setProfileField.store field value kv :: rest
    else kv :: setProfileField name field value rest
where
  /-- The field set in one profile. -/
  store (field value : Str) (kv : Str × PromptProfile) : Str × PromptProfile :=
    if field = "description".toList then (kv.1, { kv.2 with Description := value })
    else if field = "include_architecture".toList then
      (kv.1, { kv.2 with IncludeArchitecture := decide (value = "true".toList) })
    else if field = "include_standards".toList then
      (kv.1, { kv.2 with IncludeStandards := decide (value = "true".toList) })
    else if field = "detail".toList then (kv.1, { kv.2 with Detail := value })
    else kv

/-- One leaf stored into a profile set. -/
def setProfiles (s : PromptProfileSet) (l : Leaf) : PromptProfileSet :=
  match l.1 with
  | [top, name, field] =>
    if top = "profiles".toList then
      { s with Profiles := setProfileField name field l.2 s.Profiles }
    else s
  | _ => s

/-- Reference codec for `PromptProfileSet`. -/
def profiles : Yaml PromptProfileSet where
  marshal := marshalProfiles
  unmarshal data :=
    match leaves data with
    | .error e => .error e
    | .ok ls => .ok (ls.foldl setProfiles {})

/-- The four reference codecs. -/
def codecs : Codecs where
  context := context
  state := state
  workItem := workItem
  profiles := profiles

/-- Reference library functions, for ASCII text: lower case of the letters `A`–`Z`,
and quoting of text without quotes, backslashes or control characters. -/
def lib : GoLib where
  toLower c := if 'A' ≤ c ∧ c ≤ 'Z' then Char.ofNat (c.toNat + 32) else c
  quote s := '"' :: s ++ ['"']

end RefYaml

/-! ## Sample records and stores -/

deriving instance DecidableEq for Except

/-- A work item as `ctx issue` creates it. -/
def sampleItem : WorkItem :=
  { ID := "WI-001".toList, Title := "Fix login".toList, Status := "active".toList,
    CreatedAt := "2024-01-01T00:00:00Z".toList }

/-- The work item `ctx issue a---b` creates: its title holds the delimiter. -/
def sampleDash : WorkItem :=
  { ID := "WI-001".toList, Title := "a---b".toList, Intent := ["general".toList],
    Status := "active".toList, CreatedAt := "2024-01-01T00:00:00Z".toList }

/-- A store whose only file is work item WI-001 with an empty body section. -/
def fsBlankBody : FS := fun p =>
  if p = ".agent/workitems/WI-001.md".toList then
    some (.file "---\nid: WI-001\ntitle: Fix login\nstatus: active\ncreated_at: 2024-01-01T00:00:00Z\n---\n".toList)
  else none

/-- A store whose only file is work item WI-001 with a one-line body. -/
def fsNotes : FS := fun p =>
  if p = ".agent/workitems/WI-001.md".toList then
    some (.file "---\nid: WI-001\ntitle: Fix login\nstatus: active\ncreated_at: 2024-01-01T00:00:00Z\n---\n\nnotes\n".toList)
  else none

/-- A work item document whose body holds the delimiter twice more. -/
def sampleDocument : Str :=
  "---\nid: WI-001\n---\n\nline --- one\n---\ntail  \n".toList

/-- The context stored in `fsLocalDefault`. -/
def sampleLocalContext : Context :=
  { Project := { Name := "shop".toList, Summary := "Local override.".toList }
    Architecture := { Style := "hexagonal".toList }
    Constraints := ["Stay offline.".toList] }

/-- A store built from a list of paths and entries. -/
def storeOf (entries : List (Str × Entry)) : FS := fun p => entries.lookup p

/-- The `default` built-in template. -/
def sampleDefaultContext : Context := (builtInTemplates.lookup "default".toList).getD {}

/-- A complete layout: default profiles and context, active work item WI-001. -/
def fsPrompt : FS :=
  storeOf
    [ (".agent".toList, .dir),
      (".agent/prompt_profiles.yaml".toList,
        .file (RefYaml.marshalProfiles DefaultPromptProfiles)),
      (".agent/state.yaml".toList,
        .file "active_work_item: WI-001\nhealth:\n    status: unknown\n".toList),
      (".agent/context.yaml".toList, .file (RefYaml.marshalContext sampleDefaultContext)),
      (".agent/workitems/WI-001.md".toList,
        .file "---\nid: WI-001\ntitle: Fix login\nstatus: active\ncreated_at: 2024-01-01T00:00:00Z\n---\n\nnotes\n".toList) ]

/-- A layout with the default profiles, no active work item and an earlier export. -/
def fsNoActive : FS :=
  storeOf
    [ (".agent".toList, .dir),
      (".agent/prompt_profiles.yaml".toList,
        .file (RefYaml.marshalProfiles DefaultPromptProfiles)),
      (".agent/state.yaml".toList,
        .file "active_work_item: \"\"\nhealth:\n    status: unknown\n".toList),
      (".agent/exports/current.prompt.md".toList, .file "earlier prompt\n".toList) ]

/-- A layout whose only profile has the empty name, with no active work item. -/
def fsEmptyKey : FS :=
  storeOf
    [ (".agent".toList, .dir),
      (".agent/prompt_profiles.yaml".toList,
        .file "profiles:\n    \"\":\n        description: x\n        include_architecture: false\n        include_standards: false\n".toList),
      (".agent/state.yaml".toList,
        .file "active_work_item: \"\"\nhealth:\n    status: unknown\n".toList) ]

/-- The profile set read back from the file `SavePromptProfiles` writes for the
default profiles (keys in the order of the file). -/
def sampleStoredProfiles : PromptProfileSet :=
  { Profiles :=
      [ ("cheap".toList,
          { Description := "Summaries only; minimal context and references.".toList
            Detail := "summary".toList }),
        ("deep".toList,
          { Description :=
              "Full context disclosure; include architecture, standards, and constraints.".toList
            IncludeArchitecture := true
            IncludeStandards := true
            Detail := "full".toList }),
        ("standard".toList,
          { Description := "Include architecture and standards for balanced prompts.".toList
            IncludeArchitecture := true
            IncludeStandards := true
            Detail := "balanced".toList }) ] }

/-- A work item directory with two items, a directory and a stray file. -/
def lsTwoItems : Listing := fun _ =>
  .ok [ { Name := "WI-001.md".toList }, { Name := "WI-007.md".toList },
        { Name := "WI-999.md".toList, IsDir := true }, { Name := "notes.txt".toList } ]

/-- A work item directory whose only item has the number 2^63. -/
def lsHugeItem : Listing := fun _ => .ok [ { Name := "WI-9223372036854775808.md".toList } ]

/-- A work item directory listed out of order, with a four-digit item. -/
def lsUnordered : Listing := fun _ =>
  .ok [ { Name := "WI-010.md".toList }, { Name := "WI-007.md".toList },
        { Name := "WI-1000.md".toList }, { Name := "WI-999.md".toList, IsDir := true },
        { Name := "notes.txt".toList } ]

/-- A store with the evidence `notes.txt` already copied once, and the source file. -/
def fsEvidence : FS :=
  storeOf
    [ (".agent".toList, .dir), (".agent/evidence".toList, .dir),
      (".agent/evidence/notes.txt".toList, .file "first".toList),
      ("notes.txt".toList, .file "second".toList) ]

/-- The registry entry of the built-in template `default`, in the heap after
package initialisation. -/
def sampleDefaultEntry : ContextRef :=
  (registryRef.1.lookup "default".toList).getD {}

/-- A layout whose repo-local `default` template cannot be read. -/
def fsDeniedTemplate : FS :=
  storeOf [ (".agent".toList, .dir), (".agent/templates".toList, .dir),
    (".agent/templates/default.yaml".toList, .denied) ]

/-- A layout whose repo-local `default` template is not a yaml mapping. -/
def fsBrokenTemplate : FS :=
  storeOf [ (".agent".toList, .dir), (".agent/templates".toList, .dir),
    (".agent/templates/default.yaml".toList, .file "project\n".toList) ]

/-- A work item directory whose only item has the largest number a Go `int` holds. -/
def lsMaxItem : Listing := fun _ => .ok [ { Name := "WI-9223372036854775807.md".toList } ]

/-- A layout with a state file whose context.yaml is a link that loops: the stat
of that path fails. -/
def fsLoopContext : FS :=
  storeOf [ (".agent".toList, .dir), (".agent/context.yaml".toList, .fault),
    (".agent/state.yaml".toList, .file "active_work_item: WI-001\n".toList) ]

/-- A layout with an empty templates directory. -/
def fsTemplatesDir : FS :=
  storeOf [ (".agent".toList, .dir), (".agent/templates".toList, .dir) ]

/-- A directory in which `.agent` is a regular file. -/
def fsAgentFile : FS := storeOf [ (".agent".toList, .file []) ]

/-- A file name of 255 bytes: 251 letters and the extension `.txt`. -/
def longName : Str := List.replicate 251 'a' ++ ".txt".toList

/-- A layout whose evidence directory already holds a copy of the file
`longName`, and that file beside it. -/
def fsLongEvidence : FS :=
  storeOf [ (".agent".toList, .dir), (".agent/evidence".toList, .dir),
    (".agent/evidence/".toList ++ longName, .file "first".toList),
    (longName, .file "second".toList) ]

/-! ## Lemmas on the string functions -/

set_option maxRecDepth 100000

theorem HasPrefix_iff (s p : Str) : HasPrefix s p = true ↔ p <+: s := by
  unfold HasPrefix
  exact List.isPrefixOf_iff_prefix

theorem Index_eq_none (sep : Str) : ∀ s : Str,
    Index s sep = none ↔ ∀ j, HasPrefix (s.drop j) sep = false := by
  intro s
  induction s with
  | nil =>
    cases sep with
    | nil => simp [Index, HasPrefix]
    | cons a t => simp [Index, HasPrefix]
  | cons c t ih =>
    unfold Index
    by_cases h : HasPrefix (c :: t) sep = true
    · simp only [h, if_true]
      constructor
      · intro h0; cases h0
      · intro h0
        have := h0 0
        simp [h] at this
    · simp only [h, if_false, Option.map_eq_none', ih, Bool.false_eq_true]
      constructor
      · intro h0 j
        cases j with
        | zero => simpa using h
        | succ j => simpa using h0 j
      · intro h0 j
        simpa using h0 (j + 1)

theorem Index_eq_some (sep : Str) : ∀ (s : Str) (i : Nat),
    Index s sep = some i ↔
      (HasPrefix (s.drop i) sep = true ∧ i ≤ s.length ∧ ∀ j, j < i → HasPrefix (s.drop j) sep = false) := by
  intro s
  induction s with
  | nil =>
    intro i
    cases sep with
    | nil =>
      simp only [Index, HasPrefix, List.isEmpty_nil, if_true, Option.some.injEq, List.drop_nil,
        List.isPrefixOf_nil_left, List.length_nil, Nat.le_zero_eq, true_and]
      constructor
      · intro h; subst h; simp
      · intro h; exact h.1.symm
    | cons a t => simp [Index, HasPrefix]
  | cons c t ih =>
    intro i
    unfold Index
    by_cases h : HasPrefix (c :: t) sep = true
    · simp only [h, if_true]
      constructor
      · intro h0
        cases h0
        simp [h]
      · rintro ⟨_, _, h3⟩
        cases i with
        | zero => rfl
        | succ i =>
          have := h3 0 (Nat.succ_pos i)
          simp [h] at this
    · simp only [h, if_false, Bool.false_eq_true]
      cases i with
      | zero =>
        simpa using h
      | succ i =>
        simp only [Option.map_eq_some', Nat.add_right_cancel_iff, exists_eq_right, ih i,
          List.drop_succ_cons, List.length_cons, Nat.add_le_add_iff_right]
        constructor
        · rintro ⟨h1, h2, h3⟩
          refine ⟨h1, h2, ?_⟩
          intro j hj
          cases j with
          | zero => simpa using h
          | succ j => simpa using h3 j (by omega)
        · rintro ⟨h1, h2, h3⟩
          refine ⟨h1, h2, ?_⟩
          intro j hj
          simpa using h3 (j + 1) (by omega)

theorem Index_at_start (s sep : Str) (h : HasPrefix s sep = true) : Index s sep = some 0 := by
  rw [Index_eq_some]
  simp [h]

theorem length_delimiter : delimiter.length = 3 := rfl

/-! ## parseWorkItem -/

/-- What `parseWorkItem` computes on a document that opens with the delimiter,
in terms of the first delimiter of the remainder. -/
theorem parseWorkItem_opened (Y : Yaml WorkItem) (data : Str)
    (h : HasPrefix data delimiter = true) :
    parseWorkItem Y data =
      match Index (data.drop 3) delimiter with
      | none => .error (.text "invalid work item format".toList)
      | some m =>
        match Y.unmarshal (TrimSpace ((data.drop 3).take m)) with
        | .error msg => .error (.yaml msg)
        | .ok w => .ok { Meta := w, Body := TrimLeft ((data.drop 3).drop (m + 3)) "\n".toList } := by
  have h0 := Index_at_start data delimiter h
  have hne : delimiter.isEmpty = false := rfl
  simp only [parseWorkItem, h, SplitN, hne, genSplitLoop, h0, length_delimiter]
  cases hi : Index (List.drop 3 data) delimiter with
  | none => simp [hi]
  | some m => simp [hi]

theorem TrimLeft_newline (s : Str) : TrimLeft s "\n".toList = s.dropWhile (· = '\n') := by
  unfold TrimLeft
  congr 1
  funext c
  by_cases h : c = '\n'
  · subst h
    rfl
  · have hb : (c == '\n') = false := by simpa using h
    simp [List.elem, hb, h]

theorem takeWhile_eq_replicate (a : Char) : ∀ s : Str,
    s.takeWhile (· = a) = List.replicate (s.takeWhile (· = a)).length a := by
  intro s
  induction s with
  | nil => rfl
  | cons c t ih =>
    by_cases h : c = a
    · subst h
      simp only [List.takeWhile_cons, decide_True, if_true, List.length_cons, List.replicate_succ]
      rw [← ih]
    · simp [List.takeWhile_cons, h]

theorem head?_dropWhile_ne (a : Char) : ∀ s : Str, (s.dropWhile (· = a)).head? ≠ some a := by
  intro s
  induction s with
  | nil => simp
  | cons c t ih =>
    by_cases h : c = a
    · subst h
      simpa [List.dropWhile_cons] using ih
    · simp [List.dropWhile_cons, h]

theorem split_at_start (p s : Str) (h : p <+: s) : s = p ++ s.drop p.length := by
  obtain ⟨t, rfl⟩ := h
  simp

/-- C3: a document that begins with the delimiter and has a further delimiter in
the remainder splits at these two occurrences only: the metadata handed to the
yaml decoder is the (trimmed) text `front` before the first delimiter of the
remainder, and the returned Body is the text `rest` after it with nothing but its
leading line feeds removed. -/
theorem parseWorkItem_first_two_delimiters (Y : Yaml WorkItem) (data : Str) (j : Nat)
    (hpre : delimiter <+: data) (hocc : delimiter <+: (data.drop 3).drop j) :
    ∃ (front rest body : Str) (n : Nat),
      data = delimiter ++ front ++ delimiter ++ rest
      ∧ (∀ k, k < front.length → ¬ delimiter <+: (data.drop 3).drop k)
      ∧ rest = List.replicate n '\n' ++ body
      ∧ body.head? ≠ some '\n'
      ∧ parseWorkItem Y data =
          match Y.unmarshal (TrimSpace front) with
          | .error msg => .error (.yaml msg)
          | .ok w => .ok { Meta := w, Body := body } := by
  have hp : HasPrefix data delimiter = true := (HasPrefix_iff _ _).2 hpre
  have hsome : ∃ m, Index (data.drop 3) delimiter = some m := by
    cases hi : Index (data.drop 3) delimiter with
    | some m => exact ⟨m, rfl⟩
    | none =>
      have := (Index_eq_none delimiter _).1 hi j
      rw [(HasPrefix_iff _ _).2 hocc] at this
      cases this
  obtain ⟨m, hm⟩ := hsome
  obtain ⟨h1, h2, h3⟩ := (Index_eq_some delimiter _ m).1 hm
  have h1' : delimiter <+: (data.drop 3).drop m := (HasPrefix_iff _ _).1 h1
  have e1 : data = delimiter ++ data.drop 3 := split_at_start delimiter data hpre
  have e2 : (data.drop 3).drop m = delimiter ++ (data.drop 3).drop (m + 3) := by
    have := split_at_start delimiter _ h1'
    rw [List.drop_drop] at this
    simpa [length_delimiter, Nat.add_comm] using this
  have e3 : data.drop 3 = (data.drop 3).take m ++ delimiter ++ (data.drop 3).drop (m + 3) := by
    rw [List.append_assoc, ← e2, List.take_append_drop]
  refine ⟨(data.drop 3).take m, (data.drop 3).drop (m + 3),
    ((data.drop 3).drop (m + 3)).dropWhile (· = '\n'),
    (((data.drop 3).drop (m + 3)).takeWhile (· = '\n')).length, ?_, ?_, ?_, ?_, ?_⟩
  · rw [List.append_assoc, List.append_assoc, ← List.append_assoc _ delimiter, ← e3]
    exact e1
  · intro k hk
    have hk' : k < m := by
      rw [List.length_take] at hk
      omega
    have := h3 k hk'
    intro hc
    rw [(HasPrefix_iff _ _).2 hc] at this
    cases this
  · rw [← takeWhile_eq_replicate, List.takeWhile_append_dropWhile]
  · exact head?_dropWhile_ne _ _
  · simp only [parseWorkItem_opened Y data hp, hm, TrimLeft_newline]

/-- C3 (witness): a document with two further delimiters in its body. -/
theorem parseWorkItem_first_two_delimiters_witness :
    (delimiter <+: sampleDocument ∧ delimiter <+: (sampleDocument.drop 3).drop 12)
    ∧ (∃ (front rest body : Str) (n : Nat),
        sampleDocument = delimiter ++ front ++ delimiter ++ rest
        ∧ (∀ k, k < front.length → ¬ delimiter <+: (sampleDocument.drop 3).drop k)
        ∧ rest = List.replicate n '\n' ++ body
        ∧ body.head? ≠ some '\n'
        ∧ parseWorkItem RefYaml.workItem sampleDocument =
            match RefYaml.workItem.unmarshal (TrimSpace front) with
            | .error msg => .error (.yaml msg)
            | .ok w => .ok { Meta := w, Body := body })
    ∧ parseWorkItem RefYaml.workItem sampleDocument
        = .ok { Meta := { ID := "WI-001".toList }, Body := "line --- one\n---\ntail  \n".toList } :=
  ⟨⟨(HasPrefix_iff _ _).1 (by decide), (HasPrefix_iff _ _).1 (by decide)⟩,
    parseWorkItem_first_two_delimiters RefYaml.workItem sampleDocument 12
      ((HasPrefix_iff _ _).1 (by decide)) ((HasPrefix_iff _ _).1 (by decide)),
    by decide⟩

/-- C4: `parseWorkItem` returns the "missing front matter" error exactly when the
input does not begin with the delimiter; on an input that begins with it, it
returns the "invalid format" error exactly when `SplitN` yields fewer than three
segments, which is exactly when no delimiter occurs after the opening one. -/
theorem parseWorkItem_structural_errors (Y : Yaml WorkItem) (data : Str) :
    (parseWorkItem Y data = .error (.text "work item missing front matter".toList)
        ↔ ¬ delimiter <+: data)
    ∧ (delimiter <+: data →
        ((parseWorkItem Y data = .error (.text "invalid work item format".toList)
            ↔ (SplitN data delimiter 3).length < 3)
          ∧ ((SplitN data delimiter 3).length < 3
            ↔ ∀ j, ¬ delimiter <+: (data.drop 3).drop j))) := by
  have hne : delimiter.isEmpty = false := rfl
  have hsplit : HasPrefix data delimiter = true →
      ((SplitN data delimiter 3).length < 3 ↔ Index (data.drop 3) delimiter = none) := by
    intro hp
    have h0 := Index_at_start data delimiter hp
    simp only [SplitN, hne, genSplitLoop, h0, length_delimiter]
    cases hi : Index (List.drop 3 data) delimiter <;> simp [hi]
  constructor
  · by_cases hp : HasPrefix data delimiter = true
    · have hpre := (HasPrefix_iff _ _).1 hp
      rw [parseWorkItem_opened Y data hp]
      constructor
      · intro h
        exfalso
        cases hi : Index (data.drop 3) delimiter with
        | none =>
          rw [hi] at h
          simp only [Except.error.injEq, Error.text.injEq] at h
          exact absurd h (by decide)
        | some m =>
          rw [hi] at h
          cases hu : Y.unmarshal (TrimSpace ((data.drop 3).take m)) <;> simp [hu] at h
      · intro h
        exact absurd hpre h
    · have hpre : ¬ delimiter <+: data := fun hc => hp ((HasPrefix_iff _ _).2 hc)
      simp only [Bool.not_eq_true] at hp
      simp [parseWorkItem, hp, hpre]
  · intro hpre
    have hp : HasPrefix data delimiter = true := (HasPrefix_iff _ _).2 hpre
    constructor
    · rw [hsplit hp, parseWorkItem_opened Y data hp]
      cases hi : Index (data.drop 3) delimiter with
      | none => simp
      | some m =>
        cases hu : Y.unmarshal (TrimSpace ((data.drop 3).take m)) <;> simp [hu]
    · rw [hsplit hp, Index_eq_none]
      constructor
      · intro h j hc
        have := h j
        rw [(HasPrefix_iff _ _).2 hc] at this
        cases this
      · intro h j
        cases hh : HasPrefix (List.drop j (List.drop 3 data)) delimiter with
        | false => rfl
        | true => exact absurd ((HasPrefix_iff _ _).1 hh) (h j)

/-! ## SaveWorkItem followed by parseWorkItem -/

theorem delimiter_eq : delimiter = ['-', '-', '-'] := rfl

/-- No delimiter starts inside `M` when `M` holds none and does not end in a dash,
whatever follows the closing delimiter. -/
theorem no_early_delimiter : ∀ (M rest : Str),
    (∀ j, HasPrefix (M.drop j) delimiter = false) → M.getLast? ≠ some '-' →
    ∀ j, j < M.length → HasPrefix ((M ++ delimiter ++ rest).drop j) delimiter = false := by
  intro M
  induction M with
  | nil => intro rest _ _ j hj; simp at hj
  | cons c t ih =>
    intro rest hno hlast j hj
    cases j with
    | succ j =>
      have hj' : j < t.length := by simpa using hj
      have hlast' : t.getLast? ≠ some '-' := by
        cases t with
        | nil => simp
        | cons x t' => simpa [List.getLast?_cons_cons] using hlast
      simpa using ih rest (fun k => by simpa using hno (k + 1)) hlast' j hj'
    | zero =>
      have h0 := hno 0
      simp only [List.drop_zero] at h0 ⊢
      match t, hlast, h0 with
      | [], hlast, _ =>
        have hc : c ≠ '-' := by
          intro h; subst h; simp at hlast
        simp [HasPrefix, delimiter_eq, List.isPrefixOf, Ne.symm hc]
      | [x], hlast, _ =>
        have hx : x ≠ '-' := by
          intro h; subst h; simp at hlast
        simp [HasPrefix, delimiter_eq, List.isPrefixOf, Ne.symm hx]
      | x :: y :: t', _, h0 =>
        simpa [HasPrefix, delimiter_eq, List.isPrefixOf] using h0

theorem Index_append_delimiter (M rest : Str)
    (hno : Index M delimiter = none) (hlast : M.getLast? ≠ some '-') :
    Index (M ++ delimiter ++ rest) delimiter = some M.length := by
  rw [Index_eq_some]
  refine ⟨?_, ?_, ?_⟩
  · simp [HasPrefix]
  · simp
  · exact no_early_delimiter M rest ((Index_eq_none _ _).1 hno) hlast

theorem TrimSpace_newline_cons (s : Str) : TrimSpace ('\n' :: s) = TrimSpace s := by
  have h : isSpace '\n' = true := by decide
  simp [TrimSpace, List.dropWhile_cons, h]

theorem dropWhile_of_head?_ne (a : Char) : ∀ s : Str, s.head? ≠ some a →
    s.dropWhile (· = a) = s := by
  intro s h
  cases s with
  | nil => rfl
  | cons c t =>
    have hc : c ≠ a := by
      intro e; subst e; simp at h
    simp [List.dropWhile_cons, hc]

/-- Reading back what `SaveWorkItem` writes, for metadata whose yaml text holds no
delimiter and does not end in a dash: the decoder receives the trimmed metadata
text, and the Body is the written body without its leading line feeds. -/
theorem parseWorkItem_workItemDocument (Y : Yaml WorkItem) (wi : WorkItemFile)
    (hc : Contains (Y.marshal wi.Meta) delimiter = false)
    (hl : (Y.marshal wi.Meta).getLast? ≠ some '-') :
    parseWorkItem Y (workItemDocument Y wi) =
      match Y.unmarshal (TrimSpace (Y.marshal wi.Meta)) with
      | .error msg => .error (.yaml msg)
      | .ok w => .ok { Meta := w, Body := TrimLeft (savedBody wi) "\n".toList } := by
  have hno : Index (Y.marshal wi.Meta) delimiter = none := by
    simpa [Contains] using hc
  have hno' : Index ('\n' :: Y.marshal wi.Meta) delimiter = none := by
    rw [Index_eq_none]
    intro j
    cases j with
    | zero => simp [HasPrefix, delimiter_eq, List.isPrefixOf]
    | succ j => simpa using (Index_eq_none _ _).1 hno j
  have hl' : ('\n' :: Y.marshal wi.Meta).getLast? ≠ some '-' := by
    cases hM : Y.marshal wi.Meta with
    | nil => simp
    | cons a t =>
      rw [List.getLast?_cons_cons, ← hM]
      exact hl
  obtain ⟨R, hR, hdoc⟩ : ∃ R : Str,
      R.dropWhile (· = '\n') = (savedBody wi).dropWhile (· = '\n')
      ∧ workItemDocument Y wi = delimiter ++ (('\n' :: Y.marshal wi.Meta) ++ delimiter ++ ('\n' :: R)) := by
    by_cases hb : HasPrefix (savedBody wi) ['\n'] = true
    · exact ⟨savedBody wi, rfl, by simp [workItemDocument, hb, delimiter_eq]⟩
    · refine ⟨'\n' :: savedBody wi, by simp [List.dropWhile_cons], ?_⟩
      simp [workItemDocument, hb, delimiter_eq]
  have hp : HasPrefix (workItemDocument Y wi) delimiter = true := by
    rw [hdoc]; simp [HasPrefix]
  have hdrop : (workItemDocument Y wi).drop 3
      = ('\n' :: Y.marshal wi.Meta) ++ delimiter ++ ('\n' :: R) := by
    rw [hdoc]; simp [delimiter_eq]
  rw [parseWorkItem_opened Y _ hp, hdrop, Index_append_delimiter _ _ hno' hl']
  have e1 : List.take ('\n' :: Y.marshal wi.Meta).length
      (('\n' :: Y.marshal wi.Meta) ++ delimiter ++ ('\n' :: R)) = '\n' :: Y.marshal wi.Meta := by
    rw [List.append_assoc, List.take_left']
    rfl
  have e2 : List.drop (('\n' :: Y.marshal wi.Meta).length + 3)
      (('\n' :: Y.marshal wi.Meta) ++ delimiter ++ ('\n' :: R)) = '\n' :: R := by
    have : ('\n' :: Y.marshal wi.Meta).length + 3
        = (('\n' :: Y.marshal wi.Meta) ++ delimiter).length := by
      simp [delimiter_eq]
    rw [this, List.drop_left']
    rfl
  simp only [e1, e2, TrimSpace_newline_cons, TrimLeft_newline]
  have e3 : List.dropWhile (· = '\n') ('\n' :: R) = (savedBody wi).dropWhile (· = '\n') := by
    rw [← hR]; simp [List.dropWhile_cons]
  simp only [e3]

theorem parseWorkItem_body_head (Y : Yaml WorkItem) (data : Str) (wi : WorkItemFile)
    (h : parseWorkItem Y data = .ok wi) : wi.Body.head? ≠ some '\n' := by
  by_cases hp : HasPrefix data delimiter = true
  · rw [parseWorkItem_opened Y data hp] at h
    cases hi : Index (data.drop 3) delimiter with
    | none => rw [hi] at h; cases h
    | some m =>
      rw [hi] at h
      cases hu : Y.unmarshal (TrimSpace ((data.drop 3).take m)) with
      | error e => simp [hu] at h
      | ok w =>
        simp only [hu, Except.ok.injEq] at h
        subst h
        simp only [TrimLeft_newline]
        exact head?_dropWhile_ne _ _
  · simp only [Bool.not_eq_true] at hp
    simp [parseWorkItem, hp] at h

/-- C2 (amended): the load–mutate–save round trip of `UpdateWorkItemStatus`, for
a stored document whose metadata ID is the requested id, whose Body is not blank
and whose updated metadata yaml text is delimiter-free and decodes back to
itself: the call returns what writing the re-serialised document returns, and
when it returns no error, reloading yields the same Body, Status `s` and all
other metadata fields unchanged, and no other path of the store changes. -/
theorem UpdateWorkItemStatus_round_trip (Y : Yaml WorkItem) (fs : FS) (id s : Str)
    (m : WorkItem) (body : Str)
    (hload : LoadWorkItem Y fs id = .ok { Meta := m, Body := body })
    (hid : m.ID = id)
    (hbody : TrimSpace body ≠ [])
    (hc : Contains (Y.marshal { m with Status := s }) delimiter = false)
    (hl : (Y.marshal { m with Status := s }).getLast? ≠ some '-')
    (hrt : Y.unmarshal (TrimSpace (Y.marshal { m with Status := s })) = .ok { m with Status := s }) :
    UpdateWorkItemStatus Y id s fs
        = WriteFile fs (WorkItemPath id)
            (workItemDocument Y { Meta := { m with Status := s }, Body := body })
    ∧ ∀ fs1, UpdateWorkItemStatus Y id s fs = .ok fs1 →
        LoadWorkItem Y fs1 id = .ok { Meta := { m with Status := s }, Body := body }
          ∧ ∀ p, p ≠ WorkItemPath id → fs1 p = fs p := by
  have hfile : ∃ data, fs (WorkItemPath id) = some (.file data)
      ∧ parseWorkItem Y data = .ok { Meta := m, Body := body } := by
    unfold LoadWorkItem ReadFile at hload
    cases hf : fs (WorkItemPath id) with
    | none => simp [hf] at hload
    | some e =>
      cases e with
      | file data => exact ⟨data, rfl, by simpa [hf] using hload⟩
      | dir => simp [hf] at hload
      | denied => simp [hf] at hload
      | fault => simp [hf] at hload
  obtain ⟨data, hf, hparse⟩ := hfile
  have hhead : body.head? ≠ some '\n' := parseWorkItem_body_head Y data _ hparse
  have hsaved : savedBody { Meta := { m with Status := s }, Body := body } = body := by
    simp [savedBody, hbody]
  have hdoc := parseWorkItem_workItemDocument Y { Meta := { m with Status := s }, Body := body } hc hl
  simp only [hrt, hsaved, TrimLeft_newline, dropWhile_of_head?_ne _ _ hhead] at hdoc
  have hcall : UpdateWorkItemStatus Y id s fs
      = WriteFile fs (WorkItemPath id)
          (workItemDocument Y { Meta := { m with Status := s }, Body := body }) := by
    simp [UpdateWorkItemStatus, hload, SaveWorkItem, hid]
  refine ⟨hcall, ?_⟩
  intro fs1 hsave
  rw [hcall] at hsave
  simp only [WriteFile, hf, Except.ok.injEq] at hsave
  subst hsave
  constructor
  · simp [LoadWorkItem, ReadFile, hdoc]
  · intro p hp
    simp [hp]

/-- C2 (witness): the stored item WI-001 with body `notes`, paused. -/
theorem UpdateWorkItemStatus_round_trip_witness :
    LoadWorkItem RefYaml.workItem fsNotes "WI-001".toList
        = .ok { Meta := sampleItem, Body := "notes\n".toList }
    ∧ ∃ fs1, UpdateWorkItemStatus RefYaml.workItem "WI-001".toList "paused".toList fsNotes = .ok fs1
      ∧ LoadWorkItem RefYaml.workItem fs1 "WI-001".toList
          = .ok { Meta := { sampleItem with Status := "paused".toList }, Body := "notes\n".toList }
      ∧ ∀ p, p ≠ WorkItemPath "WI-001".toList → fs1 p = fsNotes p := by
  have hok : (UpdateWorkItemStatus RefYaml.workItem "WI-001".toList "paused".toList
      fsNotes).toBool = true := by decide
  refine ⟨by decide, ?_⟩
  cases h : UpdateWorkItemStatus RefYaml.workItem "WI-001".toList "paused".toList fsNotes with
  | error e =>
    rw [h] at hok
    cases hok
  | ok fs1 =>
    exact ⟨fs1, rfl,
      (UpdateWorkItemStatus_round_trip RefYaml.workItem fsNotes "WI-001".toList "paused".toList
        sampleItem "notes\n".toList (by decide) (by decide) (by decide) (by decide) (by decide)
        (by decide)).2 fs1 h⟩

/-- C2 (counterexample): a stored item whose body section is empty loads with an
empty Body; after `UpdateWorkItemStatus` the reloaded Body is the default body. -/
theorem UpdateWorkItemStatus_blank_body_replaced :
    LoadWorkItem RefYaml.workItem fsBlankBody "WI-001".toList
        = .ok { Meta := sampleItem, Body := [] }
    ∧ (UpdateWorkItemStatus RefYaml.workItem "WI-001".toList "paused".toList fsBlankBody
          >>= fun fs1 => LoadWorkItem RefYaml.workItem fs1 "WI-001".toList)
        = .ok { Meta := { sampleItem with Status := "paused".toList },
                Body := "# Work Item WI-001\n\n## Summary\nFix login\n\n## Acceptance Criteria\n- Add criteria as you work.\n\n## Notes\n- Capture decisions, scope, and dependencies here.\n".toList } := by
  decide

/-- C1 (failing input): a title that holds the delimiter. The document written
for it is cut inside the title: the parsed title is `a`, status and creation
time are lost, and the rest of the metadata is returned as part of the Body. -/
theorem parseWorkItem_saved_delimiter_title :
    parseWorkItem RefYaml.workItem
        (workItemDocument RefYaml.workItem { Meta := sampleDash, Body := "notes".toList })
      = .ok { Meta := { ID := "WI-001".toList, Title := "a".toList },
              Body := "b\nintent:\n    - general\nstatus: active\ncreated_at: 2024-01-01T00:00:00Z\n---\n\nnotes".toList } := by
  decide

/-- C5 (failing input): a blank Body with a title that holds the delimiter. The
default body is written, but parsing the document returns a Body that starts with
the tail of the metadata instead of exactly the default body. -/
theorem parseWorkItem_saved_default_body_delimiter_title :
    parseWorkItem RefYaml.workItem
        (workItemDocument RefYaml.workItem { Meta := sampleDash, Body := " \n".toList })
      = .ok { Meta := { ID := "WI-001".toList, Title := "a".toList },
              Body := "b\nintent:\n    - general\nstatus: active\ncreated_at: 2024-01-01T00:00:00Z\n---\n\n".toList
                ++ defaultWorkItemBody sampleDash } := by
  decide

/-! ## State -/

theorem cloneContext_eq (c : Context) : cloneContext c = c := by
  cases c with
  | mk p a st cs qs =>
    simp only [cloneContext, List.nil_append, Context.mk.injEq, true_and, and_true]
    induction st with
    | nil => rfl
    | cons kv t ih => simp [ih]

theorem builtInTemplate_eq (name : Str) : builtInTemplate name = builtInTemplates.lookup name := by
  unfold builtInTemplate
  cases builtInTemplates.lookup name with
  | none => rfl
  | some c => simp [cloneContext_eq]

theorem lookup_default_isSome :
    ∃ d, builtInTemplates.lookup "default".toList = some d
      ∧ d.Project.Template = "default".toList ∧ d.Project.Name = "default".toList :=
  ⟨_, rfl, rfl, rfl⟩

theorem loadRepoTemplate_none (Y : Yaml Context) (fs : FS) (n : Str)
    (h : fs (RepoTemplatePath n) = none) :
    loadRepoTemplate Y fs n = .error (.notExist (RepoTemplatePath n)) := by
  simp [loadRepoTemplate, ReadFile, h]

/-- C7 (amended): a non-empty name with no registry entry, at whose repo-local
path the system reports that no file exists, resolves to the `default` built-in
with `Project.Name` set to the name, every other field (among them
`Project.Template = default`) as in the built-in, and `default` as the resolved
source name. -/
theorem ResolveTemplate_unknown_name (Y : Yaml Context) (fs : FS) (name : Str)
    (hne : name ≠ []) (hfile : fs (RepoTemplatePath name) = none)
    (hreg : builtInTemplates.lookup name = none) :
    ∃ d, builtInTemplates.lookup "default".toList = some d
      ∧ ResolveTemplate Y fs name
          = .ok ({ d with Project := { d.Project with Name := name } }, "default".toList)
      ∧ d.Project.Template = "default".toList := by
  obtain ⟨d, hd, ht, _⟩ := lookup_default_isSome
  refine ⟨d, hd, ?_, ht⟩
  have hn : requestedOrDefault name = name := by simp [requestedOrDefault, hne]
  have hneq : "default".toList ≠ name := by
    intro h
    rw [← h, hd] at hreg
    cases hreg
  have hfin : finalizeTemplateMetadata d "default".toList name
      = { d with Project := { d.Project with Name := name } } := by
    have ht' : d.Project.Template ≠ [] := by rw [ht]; decide
    simp only [finalizeTemplateMetadata, hne, hneq, ne_eq, not_false_eq_true, or_true, and_self,
      if_true, ht', if_false]
  simp only [ResolveTemplate, hn, loadRepoTemplate_none Y fs name hfile, Error.isNotExist,
    builtInTemplate_eq, hreg, hd, hfin]
  rfl

/-- C7 (witness): the name `nonexistent-name` on Linux, for a layout with an empty
templates directory. -/
theorem ResolveTemplate_unknown_name_witness :
    ∃ d, builtInTemplates.lookup "default".toList = some d
      ∧ ResolveTemplate RefYaml.context (linuxStore fsTemplatesDir) "nonexistent-name".toList
          = .ok ({ d with Project := { d.Project with Name := "nonexistent-name".toList } },
              "default".toList)
      ∧ d.Project.Template = "default".toList :=
  ResolveTemplate_unknown_name RefYaml.context (linuxStore fsTemplatesDir)
    "nonexistent-name".toList (by decide) (by decide) (by decide)

/-- C7 (counterexample): a name of 300 letters has no registry entry and the
templates directory holds no file for it, yet `ResolveTemplate` fails: Linux
rejects the path, whose last element has more than 255 bytes, and that error is
returned. The same happens for the name `shop` when `.agent` is a regular file. -/
theorem ResolveTemplate_rejected_path :
    List.replicate 300 'a' ≠ []
    ∧ builtInTemplates.lookup (List.replicate 300 'a') = none
    ∧ fsTemplatesDir (RepoTemplatePath (List.replicate 300 'a')) = none
    ∧ ResolveTemplate RefYaml.context (linuxStore fsTemplatesDir) (List.replicate 300 'a')
        = .error (.io (RepoTemplatePath (List.replicate 300 'a')))
    ∧ builtInTemplates.lookup "shop".toList = none
    ∧ fsAgentFile (RepoTemplatePath "shop".toList) = none
    ∧ ResolveTemplate RefYaml.context (linuxStore fsAgentFile) "shop".toList
        = .error (.io ".agent/templates/shop.yaml".toList) := by
  decide

/-- C8: on every store, resolving the empty name gives the same result (Context,
source name or error) as resolving `default`. -/
theorem ResolveTemplate_empty_eq_default (Y : Yaml Context) (fs : FS) :
    ResolveTemplate Y fs [] = ResolveTemplate Y fs "default".toList := by
  rfl

/-- C10: for a non-empty requested name `q`, `finalizeTemplateMetadata c r q` has
`Project.Name = q` exactly when the name of `c` is empty or `r ≠ q` and the name
of `c` otherwise, `Project.Template = r` exactly when the template field of `c`
is empty and that field otherwise, and every other field as in `c`. -/
theorem finalizeTemplateMetadata_fields (c : Context) (r q : Str) (hq : q ≠ []) :
    (finalizeTemplateMetadata c r q).Project.Name
        = (if c.Project.Name = [] ∨ r ≠ q then q else c.Project.Name)
    ∧ (finalizeTemplateMetadata c r q).Project.Template
        = (if c.Project.Template = [] then r else c.Project.Template)
    ∧ (finalizeTemplateMetadata c r q).Project.Summary = c.Project.Summary
    ∧ (finalizeTemplateMetadata c r q).Architecture = c.Architecture
    ∧ (finalizeTemplateMetadata c r q).Standards = c.Standards
    ∧ (finalizeTemplateMetadata c r q).Constraints = c.Constraints
    ∧ (finalizeTemplateMetadata c r q).QualityGates = c.QualityGates := by
  unfold finalizeTemplateMetadata
  simp only [hq, ne_eq, not_false_eq_true, true_and]
  refine ⟨?_, ?_, ?_, ?_, ?_, ?_, ?_⟩ <;> split_ifs <;> simp_all

/-- C10 (witness): the local context resolved from `default` for the request `shop2`. -/
theorem finalizeTemplateMetadata_fields_witness :
    (finalizeTemplateMetadata sampleLocalContext "default".toList "shop2".toList).Project.Name
        = "shop2".toList
    ∧ (finalizeTemplateMetadata sampleLocalContext "default".toList "shop2".toList).Project.Template
        = "default".toList :=
  ⟨(finalizeTemplateMetadata_fields sampleLocalContext "default".toList "shop2".toList
      (by decide)).1,
   (finalizeTemplateMetadata_fields sampleLocalContext "default".toList "shop2".toList
      (by decide)).2.1⟩

/-! ## bulletList and mergeUnique -/

theorem fold_lines (pre suf : Str) (items : List Str) (b : Str) :
    items.foldl (fun b item => if TrimSpace item = [] then b else b ++ pre ++ item ++ suf) b
      = b ++ (((items.filter (fun i => decide (TrimSpace i ≠ []))).map
          (fun i => pre ++ i ++ suf)).flatten) := by
  induction items generalizing b with
  | nil => simp
  | cons x xs ih =>
    by_cases hx : TrimSpace x = []
    · simp only [List.foldl_cons, hx, if_true, ih]
      simp [hx]
    · simp only [List.foldl_cons, hx, if_false, ih]
      simp [hx, List.append_assoc]

theorem flatten_lines (pre sep : Str) (x : Str) (xs : List Str) :
    ((x :: xs).map (fun i => pre ++ i ++ sep)).flatten
      = Join ((x :: xs).map (fun i => pre ++ i)) sep ++ sep := by
  induction xs generalizing x with
  | nil => simp [Join, List.intercalate]
  | cons y ys ih =>
    have := ih y
    simp only [List.map_cons, List.flatten_cons] at this ⊢
    rw [this]
    simp [Join, List.intercalate, List.intersperse, List.append_assoc]

theorem getLast?_Join (sep : Str) : ∀ (l : List Str) (hl : l ≠ []), l.getLast hl ≠ [] →
    (Join l sep).getLast? = (l.getLast hl).getLast? := by
  intro l
  induction l with
  | nil => intro hl; exact absurd rfl hl
  | cons x xs ih =>
    intro hl hne
    cases xs with
    | nil => simp [Join, List.intercalate]
    | cons y ys =>
      have h1 := ih (by simp) (by simpa using hne)
      have e : Join (x :: y :: ys) sep = (x ++ sep) ++ Join (y :: ys) sep := by
        simp [Join, List.intercalate, List.intersperse, List.append_assoc]
      have hne2 : Join (y :: ys) sep ≠ [] := by
        intro hc
        rw [hc] at h1
        have h2 : ((y :: ys).getLast (by simp)).getLast? ≠ none := by
          rw [ne_eq, List.getLast?_eq_none_iff]
          simpa using hne
        exact h2 h1.symm
      rw [e, List.getLast?_append_of_ne_nil _ hne2, h1]
      simp

theorem TrimRight_newline_concat (s : Str) (h : s.getLast? ≠ some '\n') :
    TrimRight (s ++ ['\n']) ['\n'] = s := by
  unfold TrimRight
  rw [List.rdropWhile_concat]
  have : ([('\n' : Char)].elem '\n') = true := by decide
  simp only [this, if_true]
  rw [List.rdropWhile_eq_self_iff]
  intro hne
  have hl : s.getLast? = some (s.getLast hne) := List.getLast?_eq_getLast _ hne
  intro hc
  have : s.getLast hne = '\n' := by
    by_contra hcon
    have hb : (s.getLast hne == '\n') = false := by simpa using hcon
    simp [List.elem, hb] at hc
  rw [this] at hl
  exact h hl

/-- C13 (amended): `bulletList` gives `- None` when no entry is non-blank;
otherwise, when the last non-blank entry does not end in a line feed, it gives the
lines `- <entry>` of the non-blank entries, texts unchanged and in source order,
joined by single line feeds with none at the end. -/
theorem bulletList_lines (items : List Str)
    (h : ∀ x, (items.filter (fun i => decide (TrimSpace i ≠ []))).getLast? = some x →
      x.getLast? ≠ some '\n') :
    bulletList items =
      if items.filter (fun i => decide (TrimSpace i ≠ [])) = [] then "- None".toList
      else Join ((items.filter (fun i => decide (TrimSpace i ≠ []))).map
        (fun i => "- ".toList ++ i)) "\n".toList := by
  unfold bulletList
  by_cases h0 : items.length = 0
  · have : items = [] := List.length_eq_zero.mp h0
    subst this
    simp
  · simp only [h0, if_false]
    rw [fold_lines "- ".toList "\n".toList items []]
    cases hf : items.filter (fun i => decide (TrimSpace i ≠ [])) with
    | nil => simp
    | cons x xs =>
      rw [flatten_lines]
      have hne : (List.map (fun i => "- ".toList ++ i) (x :: xs)) ≠ [] := by simp
      have hlast : (Join (List.map (fun i => "- ".toList ++ i) (x :: xs)) "\n".toList).getLast?
          ≠ some '\n' := by
        have hl2 : (List.map (fun i => "- ".toList ++ i) (x :: xs)).getLast hne ≠ [] := by
          rw [List.getLast_map]
          exact List.append_ne_nil_of_left_ne_nil (by decide) _
        rw [getLast?_Join _ _ hne hl2]
        rw [List.getLast_map]
        have hx := h ((x :: xs).getLast (by simp))
          (by rw [hf]; exact List.getLast?_eq_getLast _ _)
        generalize (x :: xs).getLast _ = y at hx ⊢
        cases y with
        | nil => decide
        | cons c t =>
          rw [List.getLast?_append_of_ne_nil _ (by simp)]
          exact hx
      have e : ([] : Str) ++ (Join (List.map (fun i => "- ".toList ++ i) (x :: xs)) "\n".toList
          ++ "\n".toList)
          = Join (List.map (fun i => "- ".toList ++ i) (x :: xs)) "\n".toList ++ ['\n'] := rfl
      rw [e]
      have hlen : ¬ (Join (List.map (fun i => "- ".toList ++ i) (x :: xs)) "\n".toList
          ++ ['\n']).length = 0 := by simp
      simp only [hlen, if_false]
      have hnil : ¬ (x :: xs) = [] := by simp
      simp only [hnil, if_false]
      exact TrimRight_newline_concat _ hlast

/-- C13 (witness): the list `a`, blank, `b`. -/
theorem bulletList_lines_witness :
    bulletList ["a".toList, [], "b".toList] = "- a\n- b".toList :=
  bulletList_lines ["a".toList, [], "b".toList] (by decide)

/-- C13 (counterexample): an entry that ends in a line feed loses it, so the
result is not the line `- <entry>` with the entry text unchanged. -/
theorem bulletList_strips_entry_newline :
    bulletList ["a\n".toList] = "- a".toList
    ∧ bulletList ["a\n".toList] ≠ "- ".toList ++ "a\n".toList := by
  decide

theorem mem_firstOccurrences (x : Str) : ∀ l : List Str, x ∈ firstOccurrences l ↔ x ∈ l := by
  intro l
  induction l with
  | nil => simp [firstOccurrences]
  | cons y ys ih =>
    simp only [firstOccurrences, List.mem_cons, List.mem_filter, ih, decide_eq_true_eq]
    constructor
    · rintro (h | ⟨h, _⟩)
      · exact Or.inl h
      · exact Or.inr h
    · intro h
      by_cases hxy : x = y
      · exact Or.inl hxy
      · cases h with
        | inl h => exact absurd h hxy
        | inr h => exact Or.inr ⟨h, hxy⟩

theorem nodup_firstOccurrences : ∀ l : List Str, (firstOccurrences l).Nodup := by
  intro l
  induction l with
  | nil => simp [firstOccurrences]
  | cons y ys ih =>
    simp only [firstOccurrences, List.nodup_cons, List.mem_filter, decide_eq_true_eq]
    exact ⟨fun h => h.2 rfl, ih.filter _⟩

theorem mergeUniqueStep_fold : ∀ (items seen out : List Str), (∀ x, x ∈ seen ↔ x ∈ out) →
    (items.foldl mergeUniqueStep (seen, out)).2
      = out ++ (firstOccurrences (trimmedEntries items)).filter (fun x => decide (x ∉ out)) := by
  intro items
  induction items with
  | nil => intro seen out _; simp [trimmedEntries, firstOccurrences]
  | cons i rest ih =>
    intro seen out hso
    by_cases ht : TrimSpace i = []
    · have e : trimmedEntries (i :: rest) = trimmedEntries rest := by
        simp [trimmedEntries, ht]
      rw [List.foldl_cons, e]
      have : mergeUniqueStep (seen, out) i = (seen, out) := by simp [mergeUniqueStep, ht]
      rw [this]
      exact ih seen out hso
    · have e : trimmedEntries (i :: rest) = TrimSpace i :: trimmedEntries rest := by
        simp [trimmedEntries, ht]
      rw [List.foldl_cons, e]
      by_cases hs : TrimSpace i ∈ seen
      · have : mergeUniqueStep (seen, out) i = (seen, out) := by
          simp [mergeUniqueStep, ht, hs]
        rw [this, ih seen out hso]
        have ho : TrimSpace i ∈ out := (hso _).1 hs
        simp only [firstOccurrences, List.filter_cons, ho, not_true_eq_false, decide_False,
          Bool.false_eq_true, if_false, List.filter_filter]
        congr 1
        apply List.filter_congr
        intro x _
        by_cases hx : x ∈ out
        · simp [hx]
        · have : x ≠ TrimSpace i := fun h => hx (h ▸ ho)
          simp [hx, this]
      · have : mergeUniqueStep (seen, out) i = (TrimSpace i :: seen, out ++ [TrimSpace i]) := by
          simp [mergeUniqueStep, ht, hs]
        have ho : TrimSpace i ∉ out := fun h => hs ((hso _).2 h)
        have hso' : ∀ x, x ∈ TrimSpace i :: seen ↔ x ∈ out ++ [TrimSpace i] := by
          intro x
          simp only [List.mem_cons, List.mem_append, List.not_mem_nil, or_false, hso x]
          exact or_comm
        rw [this, ih _ _ hso']
        simp only [firstOccurrences, List.filter_cons, ho, not_false_eq_true, decide_True,
          if_true, List.filter_filter, List.append_assoc, List.singleton_append]
        congr 2
        apply List.filter_congr
        intro x _
        by_cases hx : x ∈ out
        · simp [hx]
        · by_cases hxt : x = TrimSpace i
          · simp [hxt]
          · simp [hx, hxt]

theorem mergeUnique_eq (primary extras : List Str) :
    mergeUnique primary extras = firstOccurrences (trimmedEntries (primary ++ extras)) := by
  unfold mergeUnique
  simp only [List.foldl_cons, List.foldl_nil, ← List.foldl_append]
  rw [mergeUniqueStep_fold _ [] [] (by simp)]
  simp

/-- C12 (amended): the constraint list of the prompt is the Context constraints
followed by the three baselines, every entry trimmed, blank entries dropped, and
an entry removed only when the same trimmed text occurred earlier (first
occurrences, in order): the result has no duplicate, holds the trimmed text of
every non-blank Context constraint and holds the three baselines. -/
theorem mergeUnique_constraints (cs : List Str) :
    mergeUnique cs baselineConstraints
        = firstOccurrences (((cs.map TrimSpace).filter (fun t => decide (t ≠ [])))
            ++ baselineConstraints)
    ∧ (mergeUnique cs baselineConstraints).Nodup
    ∧ (∀ c, c ∈ cs → TrimSpace c ≠ [] → TrimSpace c ∈ mergeUnique cs baselineConstraints)
    ∧ (∀ b, b ∈ baselineConstraints → b ∈ mergeUnique cs baselineConstraints) := by
  have hb : trimmedEntries baselineConstraints = baselineConstraints := by decide
  have e : trimmedEntries (cs ++ baselineConstraints)
      = ((cs.map TrimSpace).filter (fun t => decide (t ≠ []))) ++ baselineConstraints := by
    have : trimmedEntries (cs ++ baselineConstraints)
        = trimmedEntries cs ++ trimmedEntries baselineConstraints := by
      simp [trimmedEntries]
    rw [this, hb]
    rfl
  rw [mergeUnique_eq, e]
  refine ⟨rfl, nodup_firstOccurrences _, ?_, ?_⟩
  · intro c hc hne
    rw [mem_firstOccurrences]
    apply List.mem_append_left
    simp only [List.mem_filter, List.mem_map, decide_eq_true_eq]
    exact ⟨⟨c, hc, rfl⟩, hne⟩
  · intro b hb'
    rw [mem_firstOccurrences]
    exact List.mem_append_right _ hb'

/-- C12 (counterexample): the entries ` a` and `a` are different strings, yet
only one entry `a` is kept for the two, and the entry ` a` itself is not in the
result. -/
theorem mergeUnique_trims_before_comparing :
    mergeUnique [" a".toList, "a".toList] baselineConstraints
      = "a".toList :: baselineConstraints
    ∧ " a".toList ≠ "a".toList := by
  decide

/-! ## Prompt rendering, BuildPrompt and EnsureAgentLayout -/

/-- C14: for a profile whose architecture and standards switches are both off,
the Architecture block and the Standards block of the template render as nothing,
the document is the fixed part, the project context block, the health issues
block and the final line feed, and it is the same for two Contexts that agree on
everything but the architecture descriptor and the standards mapping. -/
theorem promptDocument_switches_off (L : GoLib) (profiles : PromptProfileSet)
    (profileName : Str) (p : PromptProfile) (state : State) (wiFile : WorkItemFile)
    (c1 c2 : Context)
    (hp : profiles.Profiles.lookup profileName = some p)
    (harch : p.IncludeArchitecture = false) (hstd : p.IncludeStandards = false)
    (hproj : c1.Project = c2.Project) (hcons : c1.Constraints = c2.Constraints)
    (hgates : c1.QualityGates = c2.QualityGates) :
    architectureSection profiles (promptData L profileName state wiFile c1) = []
    ∧ standardsSection profiles (promptData L profileName state wiFile c1) = []
    ∧ promptDocument L profiles profileName state wiFile c1
        = promptFixedPart (promptData L profileName state wiFile c1)
          ++ projectContextSection (promptData L profileName state wiFile c1)
          ++ healthIssuesSection (promptData L profileName state wiFile c1) ++ "\n".toList
    ∧ promptDocument L profiles profileName state wiFile c1
        = promptDocument L profiles profileName state wiFile c2 := by
  have ha : ∀ c, architectureSection profiles (promptData L profileName state wiFile c) = [] := by
    intro c
    simp [architectureSection, includeArch, promptData, hp, harch]
  have hs : ∀ c, standardsSection profiles (promptData L profileName state wiFile c) = [] := by
    intro c
    simp [standardsSection, includeStandards, promptData, hp, hstd]
  have hdoc : ∀ c, promptDocument L profiles profileName state wiFile c
      = promptFixedPart (promptData L profileName state wiFile c)
        ++ projectContextSection (promptData L profileName state wiFile c)
        ++ healthIssuesSection (promptData L profileName state wiFile c) ++ "\n".toList := by
    intro c
    simp only [promptDocument, executePromptTemplate, ha c, hs c, List.append_nil]
  refine ⟨ha c1, hs c1, hdoc c1, ?_⟩
  rw [hdoc c1, hdoc c2]
  have e1 : promptFixedPart (promptData L profileName state wiFile c1)
      = promptFixedPart (promptData L profileName state wiFile c2) := by
    simp only [promptFixedPart, promptData, hcons, hgates]
  have e2 : projectContextSection (promptData L profileName state wiFile c1)
      = projectContextSection (promptData L profileName state wiFile c2) := by
    simp only [projectContextSection, promptData, hproj]
  have e3 : healthIssuesSection (promptData L profileName state wiFile c1)
      = healthIssuesSection (promptData L profileName state wiFile c2) := by
    simp only [healthIssuesSection, promptData]
  rw [e1, e2, e3]

/-- C14 (witness): the default `cheap` profile, the `default` template and the
same template with another architecture and no standards. -/
theorem promptDocument_switches_off_witness :
    promptDocument RefYaml.lib DefaultPromptProfiles "cheap".toList
        { ActiveWorkItem := "WI-001".toList } { Meta := sampleItem, Body := [] }
        sampleDefaultContext
      = promptDocument RefYaml.lib DefaultPromptProfiles "cheap".toList
        { ActiveWorkItem := "WI-001".toList } { Meta := sampleItem, Body := [] }
        { sampleDefaultContext with
          Architecture := { Style := "hexagonal".toList }, Standards := [] } :=
  (promptDocument_switches_off RefYaml.lib DefaultPromptProfiles "cheap".toList
    { Description := "Summaries only; minimal context and references.".toList
      Detail := "summary".toList }
    { ActiveWorkItem := "WI-001".toList } { Meta := sampleItem, Body := [] }
    sampleDefaultContext
    { sampleDefaultContext with Architecture := { Style := "hexagonal".toList }, Standards := [] }
    (by decide) rfl rfl rfl rfl rfl).2.2.2

/-- C16 (amended): when the name `BuildPrompt` looks up (the given name, or
`cheap` for the empty name) is not a key of the stored profile set, the call
returns the profile-not-found error for that name and leaves the store as it
was, whatever the state file holds: the check comes before the state is read. -/
theorem BuildPrompt_not_found (L : GoLib) (Y : Codecs) (profileName : Str) (fs : FS)
    (profiles : PromptProfileSet)
    (hp : LoadPromptProfiles Y.profiles fs = .ok profiles)
    (hk : profiles.Profiles.lookup
      (if profileName = [] then "cheap".toList else profileName) = none) :
    BuildPrompt L Y profileName fs
      = (.error (.text ("prompt profile ".toList
          ++ L.quote (if profileName = [] then "cheap".toList else profileName)
          ++ " not found".toList)), fs) := by
  simp only [BuildPrompt, hp, hk]
/-- C16 (witness): the name `nope` on the complete sample layout. -/
theorem BuildPrompt_not_found_witness :
    BuildPrompt RefYaml.lib RefYaml.codecs "nope".toList fsPrompt
      = (.error (.text "prompt profile \"nope\" not found".toList), fsPrompt) :=
  BuildPrompt_not_found RefYaml.lib RefYaml.codecs "nope".toList fsPrompt
    sampleStoredProfiles (by decide) (by decide)

/-- C16 (counterexample): the empty name is not a key of the default profile
set, yet `BuildPrompt` does not fail: it renders the `cheap` profile. -/
theorem BuildPrompt_empty_name_is_cheap :
    LoadPromptProfiles RefYaml.profiles fsPrompt = .ok sampleStoredProfiles
    ∧ sampleStoredProfiles.Profiles.lookup [] = none
    ∧ (BuildPrompt RefYaml.lib RefYaml.codecs [] fsPrompt).1
        = .ok ".agent/exports/current.prompt.md".toList := by
  decide

/-- C15 (amended): when the name `BuildPrompt` looks up (the given name, or
`cheap` for the empty name) is a key of the stored profile set and the loaded
state has no active work item, the call returns the "no active work item" error
and the store, the export file included, is left as it was. -/
theorem BuildPrompt_no_active_work_item (L : GoLib) (Y : Codecs) (profileName : Str) (fs : FS)
    (profiles : PromptProfileSet) (p : PromptProfile) (st : State)
    (hp : LoadPromptProfiles Y.profiles fs = .ok profiles)
    (hk : profiles.Profiles.lookup
      (if profileName = [] then "cheap".toList else profileName) = some p)
    (hs : LoadState Y.state fs = .ok st) (ha : st.ActiveWorkItem = []) :
    BuildPrompt L Y profileName fs
        = (.error (.text "no active work item; start one with ctx work start <WI-XXX>".toList),
            fs)
    ∧ (BuildPrompt L Y profileName fs).2 (AgentPath [exportsDir, currentPromptFile])
        = fs (AgentPath [exportsDir, currentPromptFile]) := by
  have h : BuildPrompt L Y profileName fs
      = (.error (.text "no active work item; start one with ctx work start <WI-XXX>".toList),
          fs) := by
    simp only [BuildPrompt, hp, hk, hs, ha, if_true]
  exact ⟨h, by rw [h]⟩

/-- C15 (witness): the `cheap` profile on a layout with no active work item and
an earlier export, which stays in place. -/
theorem BuildPrompt_no_active_work_item_witness :
    (BuildPrompt RefYaml.lib RefYaml.codecs "cheap".toList fsNoActive
        = (.error (.text "no active work item; start one with ctx work start <WI-XXX>".toList),
            fsNoActive)
      ∧ (BuildPrompt RefYaml.lib RefYaml.codecs "cheap".toList fsNoActive).2
            (AgentPath [exportsDir, currentPromptFile])
          = fsNoActive (AgentPath [exportsDir, currentPromptFile]))
    ∧ fsNoActive (AgentPath [exportsDir, currentPromptFile])
        = some (.file "earlier prompt\n".toList) :=
  ⟨BuildPrompt_no_active_work_item RefYaml.lib RefYaml.codecs "cheap".toList fsNoActive
    sampleStoredProfiles
    { Description := "Summaries only; minimal context and references.".toList
      Detail := "summary".toList }
    { Health := { Status := "unknown".toList } } (by decide) (by decide) (by decide) rfl,
   by decide⟩

/-- C15 (counterexample): the empty name is a key of the stored profile set and
there is no active work item, yet the error is the profile-not-found error for
`cheap`, not the "no active work item" error. -/
theorem BuildPrompt_empty_key_not_found :
    LoadPromptProfiles RefYaml.profiles fsEmptyKey
        = .ok { Profiles := [([], { Description := "x".toList })] }
    ∧ LoadState RefYaml.state fsEmptyKey = .ok { Health := { Status := "unknown".toList } }
    ∧ (BuildPrompt RefYaml.lib RefYaml.codecs [] fsEmptyKey).1
        = .error (.text "prompt profile \"cheap\" not found".toList) := by
  decide

/-- The loop over the protected paths stops at the first path whose stat does
not report not-exist: with the already-initialised error when the entry exists,
with the stat error when the stat fails. -/
theorem ensureFreshLoop_first (fs : FS) (p : Str) (post : List Str) (hp : fs p ≠ none) :
    ∀ pre : List Str, (∀ q, q ∈ pre → fs q = none) →
      ensureFreshLoop fs (pre ++ p :: post)
        = .error (if fs p = some .fault then .io p
            else .text ".agent already exists, refusing to overwrite".toList) := by
  intro pre
  induction pre with
  | nil =>
    intro _
    cases hf : fs p with
    | none => exact absurd hf hp
    | some e =>
      cases e <;> simp [ensureFreshLoop, Stat, hf, Error.isNotExist]
  | cons q rest ih =>
    intro hpre
    have hq : fs q = none := hpre q (List.mem_cons_self _ _)
    have := ih (fun r hr => hpre r (List.mem_cons_of_mem _ hr))
    rw [List.cons_append]
    simp only [ensureFreshLoop, Stat, hq, Error.isNotExist, Bool.not_true,
      Bool.false_eq_true, if_false]
    exact this

/-- C20 (amended): for every template name, when `.agent` is a directory and the
stat of context.yaml, state.yaml or prompt_profiles.yaml does not report
not-exist, `EnsureAgentLayout` returns an error and the store it leaves is the
store it found (no directory is created and no file is written); the error is
decided by the first of the three paths, in that order, whose stat does not
report not-exist: the already-initialised error when that entry exists, the stat
error when that stat fails. -/
theorem EnsureAgentLayout_already_initialised (Y : Codecs) (templateName : Str) (fs : FS)
    (hdir : fs agentDir = some .dir)
    (hfile : fs (AgentPath [contextFile]) ≠ none ∨ fs (AgentPath [stateFile]) ≠ none
      ∨ fs (AgentPath [promptProfilesFile]) ≠ none) :
    (∃ err, EnsureAgentLayout Y templateName fs = (.error err, fs))
    ∧ (∀ (pre : List Str) (path : Str) (post : List Str),
        [AgentPath [contextFile], AgentPath [stateFile], AgentPath [promptProfilesFile]]
          = pre ++ path :: post →
        (∀ q, q ∈ pre → fs q = none) → fs path ≠ none →
        EnsureAgentLayout Y templateName fs
          = (.error (if fs path = some .fault then .io path
              else .text ".agent already exists, refusing to overwrite".toList), fs)) := by
  have hcall : ∀ (pre : List Str) (path : Str) (post : List Str),
      [AgentPath [contextFile], AgentPath [stateFile], AgentPath [promptProfilesFile]]
        = pre ++ path :: post →
      (∀ q, q ∈ pre → fs q = none) → fs path ≠ none →
      EnsureAgentLayout Y templateName fs
        = (.error (if fs path = some .fault then .io path
            else .text ".agent already exists, refusing to overwrite".toList), fs) := by
    intro pre path post hsplit hpre hpath
    have hloop := ensureFreshLoop_first fs path post hpath pre hpre
    rw [← hsplit] at hloop
    simp only [EnsureAgentLayout, ensureFreshAgentLayout, Stat, hdir, Entry.isDir, Bool.not_true,
      Bool.false_eq_true, if_false, hloop]
  refine ⟨?_, hcall⟩
  by_cases hc : fs (AgentPath [contextFile]) = none
  · by_cases hs : fs (AgentPath [stateFile]) = none
    · have hp : fs (AgentPath [promptProfilesFile]) ≠ none := by
        rcases hfile with h | h | h
        · exact absurd hc h
        · exact absurd hs h
        · exact h
      exact ⟨_, hcall [AgentPath [contextFile], AgentPath [stateFile]] _ [] rfl
        (by
          intro q hq
          simp only [List.mem_cons, List.mem_singleton, List.not_mem_nil, or_false] at hq
          rcases hq with rfl | rfl
          · exact hc
          · exact hs) hp⟩
    · exact ⟨_, hcall [AgentPath [contextFile]] _ [AgentPath [promptProfilesFile]] rfl
        (by
          intro q hq
          simp only [List.mem_singleton] at hq
          rw [hq]
          exact hc) hs⟩
  · exact ⟨_, hcall [] _ [AgentPath [stateFile], AgentPath [promptProfilesFile]] rfl
      (by intro q hq; cases hq) hc⟩

/-- C20 (witness): a layout that holds only a state file, asked for `default`. -/
theorem EnsureAgentLayout_already_initialised_witness :
    EnsureAgentLayout RefYaml.codecs "default".toList fsNoActive
      = (.error (.text ".agent already exists, refusing to overwrite".toList), fsNoActive) :=
  (EnsureAgentLayout_already_initialised RefYaml.codecs "default".toList fsNoActive
    (by decide) (Or.inr (Or.inl (by decide)))).2
    [AgentPath [contextFile]] (AgentPath [stateFile]) [AgentPath [promptProfilesFile]] rfl
    (by
      intro q hq
      simp only [List.mem_singleton] at hq
      rw [hq]
      decide)
    (by decide)

/-- C20 (counterexample): `.agent` holds state.yaml, and the stat of context.yaml
fails (the path is a link that loops): the error returned is that stat error,
not the already-initialised error. -/
theorem EnsureAgentLayout_stat_error :
    fsLoopContext agentDir = some .dir
    ∧ fsLoopContext (AgentPath [stateFile]) = some (.file "active_work_item: WI-001\n".toList)
    ∧ (EnsureAgentLayout RefYaml.codecs "default".toList fsLoopContext).1
        = .error (.io ".agent/context.yaml".toList)
    ∧ (EnsureAgentLayout RefYaml.codecs "default".toList fsLoopContext).1
        ≠ .error (.text ".agent already exists, refusing to overwrite".toList) := by
  decide

/-! ## Work item identifiers -/

theorem HasSuffix_iff (s suffix : Str) : HasSuffix s suffix = true ↔ suffix <:+ s := by
  unfold HasSuffix
  rw [List.isPrefixOf_iff_prefix, List.reverse_prefix]

theorem parseDecimal_append (a b : Str) :
    parseDecimal (a ++ b) = b.foldl (fun n c => 10 * n + (c.toNat - 48)) (parseDecimal a) := by
  simp [parseDecimal, List.foldl_append]

theorem parseDecimal_concat (a : Str) (c : Char) :
    parseDecimal (a ++ [c]) = 10 * parseDecimal a + (c.toNat - 48) := by
  simp [parseDecimal_append]

theorem digitChar_toNat (d : Nat) (h : d < 10) : (digitChar d).toNat = 48 + d := by
  unfold digitChar
  have hv : (48 + d).isValidChar := by
    left
    omega
  simp only [Char.ofNat, hv, dite_true]
  rfl

theorem isDigit_digitChar (d : Nat) (h : d < 10) : isDigit (digitChar d) = true := by
  have h1 := digitChar_toNat d h
  simp only [isDigit, decide_eq_true_eq]
  constructor
  · show (48 : Nat) ≤ (digitChar d).toNat
    omega
  · show (digitChar d).toNat ≤ 57
    omega

/-- The formatter loop puts before `acc` a non-empty string of digits whose value
is `n`. -/
theorem formatNatLoop_spec : ∀ (fuel n : Nat) (acc : Str), n < fuel →
    ∃ ds : Str, formatNatLoop fuel n acc = ds ++ acc ∧ parseDecimal ds = n ∧ ds ≠ []
      ∧ ds.all isDigit = true := by
  intro fuel
  induction fuel with
  | zero => intro n acc h; omega
  | succ f ih =>
    intro n acc h
    by_cases hn : n < 10
    · refine ⟨[digitChar n], by simp [formatNatLoop, hn], ?_, by simp, ?_⟩
      · simp [parseDecimal, digitChar_toNat n hn]
      · simp [isDigit_digitChar n hn]
    · have hlt : n / 10 < f := by omega
      obtain ⟨ds, h1, h2, h3, h4⟩ := ih (n / 10) (digitChar (n % 10) :: acc) hlt
      have hm : n % 10 < 10 := Nat.mod_lt _ (by decide)
      refine ⟨ds ++ [digitChar (n % 10)], ?_, ?_, by simp, ?_⟩
      · simp [formatNatLoop, hn, h1]
      · rw [parseDecimal_concat, h2, digitChar_toNat _ hm]
        omega
      · simp [h4, isDigit_digitChar _ hm]

theorem formatNat_spec (n : Nat) :
    parseDecimal (formatNat n) = n ∧ formatNat n ≠ [] ∧ (formatNat n).all isDigit = true := by
  obtain ⟨ds, h1, h2, h3, h4⟩ := formatNatLoop_spec (n + 1) n [] (Nat.lt_succ_self n)
  have : formatNat n = ds := by simpa [formatNat] using h1
  rw [this]
  exact ⟨h2, h3, h4⟩

theorem formatNat_injective (a b : Nat) (h : formatNat a = formatNat b) : a = b := by
  have ha := (formatNat_spec a).1
  have hb := (formatNat_spec b).1
  rw [h] at ha
  omega

theorem parseDecimal_replicate_zero (k : Nat) : parseDecimal (List.replicate k '0') = 0 := by
  induction k with
  | zero => rfl
  | succ k ih =>
    rw [List.replicate_succ', parseDecimal_concat, ih]
    decide

theorem parseDecimal_zeros (k : Nat) (ds : Str) :
    parseDecimal (List.replicate k '0' ++ ds) = parseDecimal ds := by
  rw [parseDecimal_append, parseDecimal_replicate_zero]
  rfl

/-- The names the pattern `^WI-(\d{3,})\.md$` matches, and the digits it captures. -/
theorem workItemMatch_iff (name d : Str) :
    workItemMatch name = some d ↔
      name = "WI-".toList ++ d ++ ".md".toList ∧ 3 ≤ d.length ∧ d.all isDigit = true := by
  unfold workItemMatch
  constructor
  · intro h
    by_cases hps : (HasPrefix name "WI-".toList && HasSuffix name ".md".toList) = true
    · rw [if_pos hps] at h
      simp only [Bool.and_eq_true] at hps
      obtain ⟨hp, hs⟩ := hps
      by_cases hd : (decide (3 ≤ ((name.drop 3).take (name.length - 6)).length)
          && ((name.drop 3).take (name.length - 6)).all isDigit) = true
      · simp only [hd, if_true, Option.some.injEq] at h
        simp only [Bool.and_eq_true, decide_eq_true_eq] at hd
        obtain ⟨t, ht⟩ := (HasPrefix_iff _ _).1 hp
        have hsuf : ".md".toList <:+ name := (HasSuffix_iff _ _).1 hs
        have hlen : name.length = t.length + 3 := by rw [← ht]; simp
        have hdl : 3 ≤ t.length - 3 := by
          have := hd.1
          rw [← ht] at this
          simp at this
          omega
        have hst : ".md".toList <:+ t := by
          have h1 : t <:+ name := ⟨"WI-".toList, ht⟩
          exact List.suffix_of_suffix_length_le hsuf h1 (by simp; omega)
        obtain ⟨u, hu⟩ := hst
        have hd' : d = u := by
          rw [← h, ← ht, ← hu]
          simp
        subst hd'
        refine ⟨?_, ?_, ?_⟩
        · rw [← ht, ← hu]; simp
        · rw [← h]; exact hd.1
        · rw [← h]; exact hd.2
      · rw [if_neg hd] at h
        cases h
    · rw [if_neg hps] at h
      cases h
  · rintro ⟨rfl, h3, hdig⟩
    have hp : HasPrefix ("WI-".toList ++ d ++ ".md".toList) "WI-".toList = true :=
      (HasPrefix_iff _ _).2 ⟨d ++ ".md".toList, by simp⟩
    have hs : HasSuffix ("WI-".toList ++ d ++ ".md".toList) ".md".toList = true :=
      (HasSuffix_iff _ _).2 ⟨"WI-".toList ++ d, rfl⟩
    have e : (("WI-".toList ++ d ++ ".md".toList).drop 3).take
        (("WI-".toList ++ d ++ ".md".toList).length - 6) = d := by
      simp
    simp only [hp, hs, Bool.and_self, if_true, e, hdig, Bool.and_true, decide_eq_true_eq, h3]
theorem nextIDStep_match (m0 : Nat) (e : DirEntry) (d : Str) (hdir : e.IsDir = false)
    (hm : workItemMatch e.Name = some d) :
    nextIDStep m0 e = if sscanInt d > m0 then sscanInt d else m0 := by
  unfold nextIDStep
  rw [hdir, hm]
  simp

theorem nextIDStep_fold : ∀ (entries : List DirEntry) (m0 : Nat),
    m0 ≤ entries.foldl nextIDStep m0
    ∧ (∀ e d, e ∈ entries → e.IsDir = false → workItemMatch e.Name = some d →
        sscanInt d ≤ entries.foldl nextIDStep m0)
    ∧ (entries.foldl nextIDStep m0 = m0
      ∨ ∃ e d, e ∈ entries ∧ e.IsDir = false ∧ workItemMatch e.Name = some d
          ∧ sscanInt d = entries.foldl nextIDStep m0) := by
  intro entries
  induction entries with
  | nil => intro m0; simp
  | cons x xs ih =>
    intro m0
    obtain ⟨h1, h2, h3⟩ := ih (nextIDStep m0 x)
    have hstep : m0 ≤ nextIDStep m0 x := by
      unfold nextIDStep
      split_ifs <;> try exact Nat.le_refl _
      split <;> try exact Nat.le_refl _
      split_ifs <;> omega
    rw [List.foldl_cons]
    refine ⟨Nat.le_trans hstep h1, ?_, ?_⟩
    · intro e d he hdir hm
      cases List.mem_cons.1 he with
      | inr h => exact h2 e d h hdir hm
      | inl h =>
        subst h
        have : sscanInt d ≤ nextIDStep m0 e := by
          rw [nextIDStep_match m0 e d hdir hm]
          split_ifs <;> omega
        exact Nat.le_trans this h1
    · cases h3 with
      | inr h =>
        obtain ⟨e, d, he, hdir, hm, hv⟩ := h
        exact Or.inr ⟨e, d, List.mem_cons_of_mem _ he, hdir, hm, hv⟩
      | inl h =>
        rw [h]
        by_cases hx : nextIDStep m0 x = m0
        · exact Or.inl hx
        · right
          cases hdir : x.IsDir with
          | true => simp [nextIDStep, hdir] at hx
          | false =>
            cases hm : workItemMatch x.Name with
            | none => simp [nextIDStep, hdir, hm] at hx
            | some d =>
              rw [nextIDStep_match m0 x d hdir hm] at hx ⊢
              by_cases hgt : sscanInt d > m0
              · rw [if_pos hgt]
                exact ⟨x, d, List.mem_cons_self _ _, hdir, hm, rfl⟩
              · rw [if_neg hgt] at hx
                exact absurd rfl hx

theorem formatInt03_succ (m : Nat) (h : m < maxInt) :
    formatInt03 (intAdd (m : Int) 1) = padZeros 3 (formatNat (m + 1)) := by
  have hmax : maxInt = 9223372036854775807 := by decide
  rw [hmax] at h
  have e : intAdd (m : Int) 1 = ((m + 1 : Nat) : Int) := by
    unfold intAdd
    have h1 : ((m : Int) + 1 + 2 ^ 63) % 2 ^ 64 = (m : Int) + 1 + 2 ^ 63 := by
      apply Int.emod_eq_of_lt <;> norm_num <;> omega
    rw [h1]
    push_cast
    ring
  rw [e]
  unfold formatInt03
  have hnn : ¬ (((m + 1 : Nat) : Int) < 0) := by omega
  simp only [hnn, if_false, Int.toNat_ofNat]

/-- C17 (amended): when every matching suffix is below the largest Go `int`,
`NextWorkItemID` returns `WI-` followed by `m + 1` in decimal, padded with
zeros to three digits, where `m` bounds the number of every regular entry named
`WI-<three or more digits>.md` and is the number of one of them, or zero. -/
theorem NextWorkItemID_next (ls : Listing) (entries : List DirEntry)
    (hls : ls (AgentPath [workitemsDir]) = .ok entries)
    (hfit : ∀ e d, e ∈ entries → e.IsDir = false →
      e.Name = "WI-".toList ++ d ++ ".md".toList → 3 ≤ d.length → d.all isDigit = true →
      parseDecimal d < maxInt) :
    ∃ m, NextWorkItemID ls = .ok ("WI-".toList ++ padZeros 3 (formatNat (m + 1)))
      ∧ (∀ e d, e ∈ entries → e.IsDir = false →
          e.Name = "WI-".toList ++ d ++ ".md".toList → 3 ≤ d.length → d.all isDigit = true →
          parseDecimal d ≤ m)
      ∧ (m = 0 ∨ ∃ e d, e ∈ entries ∧ e.IsDir = false
          ∧ e.Name = "WI-".toList ++ d ++ ".md".toList ∧ 3 ≤ d.length ∧ d.all isDigit = true
          ∧ parseDecimal d = m)
      ∧ parseDecimal (padZeros 3 (formatNat (m + 1))) = m + 1
      ∧ 3 ≤ (padZeros 3 (formatNat (m + 1))).length
      ∧ (formatNat (m + 1)).length ≤ (padZeros 3 (formatNat (m + 1))).length := by
  have hscan : ∀ e d, e ∈ entries → e.IsDir = false → workItemMatch e.Name = some d →
      sscanInt d = parseDecimal d ∧ parseDecimal d < maxInt := by
    intro e d he hdir hm
    obtain ⟨hn, h3, hdig⟩ := (workItemMatch_iff _ _).1 hm
    have := hfit e d he hdir hn h3 hdig
    refine ⟨?_, this⟩
    unfold sscanInt
    rw [if_pos (Nat.le_of_lt this)]
  obtain ⟨_, h2, h3⟩ := nextIDStep_fold entries 0
  have hm : entries.foldl nextIDStep 0 < maxInt := by
    cases h3 with
    | inl h => rw [h]; decide
    | inr h =>
      obtain ⟨e, d, he, hdir, hmt, hv⟩ := h
      rw [← hv, (hscan e d he hdir hmt).1]
      exact (hscan e d he hdir hmt).2
  refine ⟨entries.foldl nextIDStep 0, ?_, ?_, ?_, ?_, ?_, ?_⟩
  · simp only [NextWorkItemID, hls]
    rw [formatInt03_succ _ hm]
  · intro e d he hdir hn hl hdig
    have hmt := (workItemMatch_iff _ _).2 ⟨hn, hl, hdig⟩
    rw [← (hscan e d he hdir hmt).1]
    exact h2 e d he hdir hmt
  · cases h3 with
    | inl h => exact Or.inl h
    | inr h =>
      obtain ⟨e, d, he, hdir, hmt, hv⟩ := h
      obtain ⟨hn, hl, hdig⟩ := (workItemMatch_iff _ _).1 hmt
      exact Or.inr ⟨e, d, he, hdir, hn, hl, hdig, by rw [← hv, (hscan e d he hdir hmt).1]⟩
  · unfold padZeros
    rw [parseDecimal_zeros]
    exact (formatNat_spec _).1
  · unfold padZeros
    simp only [List.length_append, List.length_replicate]
    omega
  · unfold padZeros
    simp only [List.length_append, List.length_replicate]
    omega

/-- C17 (witness): an empty store gives `WI-001`; a store holding WI-001.md and
WI-007.md (and a directory and a stray file) gives `WI-008`. -/
theorem NextWorkItemID_next_witness :
    (∃ m, NextWorkItemID lsTwoItems = .ok ("WI-".toList ++ padZeros 3 (formatNat (m + 1)))
      ∧ (∀ e d, e ∈ [ ({ Name := "WI-001.md".toList } : DirEntry), { Name := "WI-007.md".toList },
            { Name := "WI-999.md".toList, IsDir := true }, { Name := "notes.txt".toList } ] →
          e.IsDir = false →
          e.Name = "WI-".toList ++ d ++ ".md".toList → 3 ≤ d.length → d.all isDigit = true →
          parseDecimal d ≤ m))
    ∧ NextWorkItemID lsTwoItems = .ok "WI-008".toList
    ∧ NextWorkItemID (fun _ => .ok []) = .ok "WI-001".toList := by
  obtain ⟨m, h1, h2, _⟩ := NextWorkItemID_next lsTwoItems _ rfl (by
    intro e d he hdir hn h3 hdig
    have hm := (workItemMatch_iff _ _).2 ⟨hn, h3, hdig⟩
    simp only [List.mem_cons, List.mem_singleton, List.not_mem_nil, or_false] at he
    rcases he with rfl | rfl | rfl | rfl
    · have : d = "001".toList := by
        have h : workItemMatch "WI-001.md".toList = some "001".toList := by decide
        rw [h] at hm; exact (Option.some.inj hm).symm
      subst this; decide
    · have : d = "007".toList := by
        have h : workItemMatch "WI-007.md".toList = some "007".toList := by decide
        rw [h] at hm; exact (Option.some.inj hm).symm
      subst this; decide
    · cases hdir
    · have h : workItemMatch "notes.txt".toList = none := by decide
      rw [h] at hm; cases hm)
  exact ⟨⟨m, h1, h2⟩, by decide, by decide⟩

/-- C17 (counterexample): the only item has the number 2^63, which matches the
pattern but does not fit a Go `int`; the scan leaves zero and the next ID is
`WI-001`, not `WI-` followed by 2^63 + 1. -/
theorem NextWorkItemID_beyond_int :
    workItemMatch "WI-9223372036854775808.md".toList = some "9223372036854775808".toList
    ∧ parseDecimal "9223372036854775808".toList = 2 ^ 63
    ∧ NextWorkItemID lsHugeItem = .ok "WI-001".toList := by
  decide
theorem Char_lt_iff (a b : Char) : a < b ↔ a.toNat < b.toNat := by
  rfl

theorem Char_le_iff (a b : Char) : a ≤ b ↔ a.toNat ≤ b.toNat := by
  rfl

theorem Char_eq_iff (a b : Char) : a = b ↔ a.toNat = b.toNat := by
  constructor
  · intro h; rw [h]
  · intro h
    apply Char.ext
    apply UInt32.ext
    exact h

theorem Lex_cons_cons (a b : Char) (s t : Str) :
    List.Lex (· < ·) (a :: s) (b :: t) ↔ a < b ∨ (a = b ∧ List.Lex (· < ·) s t) := by
  constructor
  · intro h
    cases h with
    | cons h => exact Or.inr ⟨rfl, h⟩
    | rel h => exact Or.inl h
  · rintro (h | ⟨rfl, h⟩)
    · exact List.Lex.rel h
    · exact List.Lex.cons h

/-- The order `strLe` is the lexicographic order of lists of runes. -/
theorem strLe_iff_le : ∀ (a b : Str), strLe a b = true ↔ a ≤ b := by
  intro a
  induction a with
  | nil => intro b; simp [strLe, List.nil_le]
  | cons x s ih =>
    intro b
    cases b with
    | nil =>
      simp only [strLe, Bool.false_eq_true, false_iff, not_le]
      exact List.nil_lt_cons x s
    | cons y t =>
      have hle : (x :: s) ≤ (y :: t) ↔ ¬ List.Lex (· < ·) (y :: t) (x :: s) := by
        rw [← not_lt]
        rfl
      have hle2 : s ≤ t ↔ ¬ List.Lex (· < ·) t s := by
        rw [← not_lt]
        rfl
      rw [hle, Lex_cons_cons]
      simp only [strLe, Bool.or_eq_true, decide_eq_true_eq, Bool.and_eq_true, beq_iff_eq, ih t,
        hle2]
      rw [Char_lt_iff, Char_eq_iff y x]
      constructor
      · rintro (h | ⟨h1, h2⟩)
        · rintro (h' | ⟨h', _⟩) <;> omega
        · rintro (h' | ⟨_, h'⟩)
          · rw [h1] at h'; omega
          · exact h2 h'
      · intro h
        by_cases h1 : x.toNat < y.toNat
        · exact Or.inl h1
        · right
          have h2 : ¬ y.toNat < x.toNat := fun hc => h (Or.inl hc)
          have h3 : y.toNat = x.toNat := by omega
          refine ⟨(Char_eq_iff x y).2 h3.symm, fun hc => h (Or.inr ⟨h3, hc⟩)⟩

theorem sortStrings_eq (xs : List Str) :
    sortStrings xs = List.insertionSort (fun a b => strLe a b = true) xs := by
  have hins : ∀ (x : Str) (l : List Str),
      insertString x l = List.orderedInsert (fun a b => strLe a b = true) x l := by
    intro x l
    induction l with
    | nil => rfl
    | cons y ys ih =>
      simp only [insertString, List.orderedInsert, ih]
  induction xs with
  | nil => rfl
  | cons x xs ih =>
    simp only [sortStrings, List.foldr_cons, List.insertionSort] at ih ⊢
    rw [hins, ih]

theorem sortStrings_perm (xs : List Str) : (sortStrings xs).Perm xs := by
  rw [sortStrings_eq]
  exact List.perm_insertionSort _ _

theorem sortStrings_sorted (xs : List Str) : (sortStrings xs).Sorted (· ≤ ·) := by
  rw [sortStrings_eq]
  have htot : IsTotal Str (fun a b => strLe a b = true) :=
    ⟨fun a b => by
      rw [strLe_iff_le, strLe_iff_le]
      exact le_total a b⟩
  have htr : IsTrans Str (fun a b => strLe a b = true) :=
    ⟨fun a b c => by
      rw [strLe_iff_le, strLe_iff_le, strLe_iff_le]
      exact le_trans⟩
  have := List.sorted_insertionSort (fun a b : Str => strLe a b = true) xs
  exact List.Pairwise.imp (fun h => (strLe_iff_le _ _).1 h) this
theorem listWorkItems_fold (entries : List DirEntry) (acc : List Str) :
    entries.foldl
      (fun ids e =>
        if e.IsDir then ids
        else if (workItemMatch e.Name).isSome then ids ++ [TrimSuffix e.Name ".md".toList]
        else ids) acc
      = acc ++ (entries.filter (fun e => !e.IsDir && (workItemMatch e.Name).isSome)).map
          (fun e => TrimSuffix e.Name ".md".toList) := by
  induction entries generalizing acc with
  | nil => simp
  | cons e es ih =>
    rw [List.foldl_cons, ih]
    cases hdir : e.IsDir with
    | true => simp [hdir]
    | false =>
      cases hm : (workItemMatch e.Name).isSome with
      | true => simp [hdir, hm]
      | false => simp [hdir, hm]

theorem TrimSuffix_md (d : Str) :
    TrimSuffix ("WI-".toList ++ d ++ ".md".toList) ".md".toList = "WI-".toList ++ d := by
  have hs : HasSuffix ("WI-".toList ++ d ++ ".md".toList) ".md".toList = true :=
    (HasSuffix_iff _ _).2 ⟨"WI-".toList ++ d, rfl⟩
  unfold TrimSuffix
  rw [if_pos hs]
  simp

theorem three_digits_le (a b : Str) (ha : a.length = 3) (hb : b.length = 3)
    (hda : a.all isDigit = true) (hdb : b.all isDigit = true)
    (h : "WI-".toList ++ a ≤ "WI-".toList ++ b) : parseDecimal a ≤ parseDecimal b := by
  match a, ha, b, hb with
  | [x1, y1, z1], _, [x2, y2, z2], _ =>
    rw [← strLe_iff_le] at h
    simp only [List.all_cons, List.all_nil, Bool.and_true, Bool.and_eq_true, isDigit,
      decide_eq_true_eq, Char_le_iff] at hda hdb
    have h0 : ('0' : Char).toNat = 48 := rfl
    have h9 : ('9' : Char).toNat = 57 := rfl
    rw [h0, h9] at hda hdb
    have hW : ("WI-".toList ++ [x1, y1, z1]) = 'W' :: 'I' :: '-' :: [x1, y1, z1] := rfl
    have hW2 : ("WI-".toList ++ [x2, y2, z2]) = 'W' :: 'I' :: '-' :: [x2, y2, z2] := rfl
    rw [hW, hW2] at h
    simp only [strLe, Nat.lt_irrefl, decide_False, beq_self_eq_true, Bool.true_and,
      Bool.false_or, Bool.or_eq_true, decide_eq_true_eq, Bool.and_eq_true, beq_iff_eq,
      Char_eq_iff, and_true] at h
    simp only [parseDecimal, List.foldl_cons, List.foldl_nil]
    omega

/-- C18: `ListWorkItems` returns the names of the regular entries that match the
work item pattern, with `.md` removed (each is `WI-` followed by three or more
digits), in ascending lexicographic order; when every returned ID has exactly
three digits, that order is ascending in the numbers of the suffixes. -/
theorem ListWorkItems_sorted (ls : Listing) (entries : List DirEntry)
    (hls : ls (AgentPath [workitemsDir]) = .ok entries) :
    ∃ ids, ListWorkItems ls = .ok ids
      ∧ ids.Perm ((entries.filter (fun e => !e.IsDir && (workItemMatch e.Name).isSome)).map
          (fun e => TrimSuffix e.Name ".md".toList))
      ∧ (∀ id, id ∈ ids ↔ ∃ d, 3 ≤ d.length ∧ d.all isDigit = true ∧ id = "WI-".toList ++ d
          ∧ ({ Name := "WI-".toList ++ d ++ ".md".toList, IsDir := false } : DirEntry) ∈ entries)
      ∧ ids.Sorted (· ≤ ·)
      ∧ ((∀ id, id ∈ ids → id.length = 6) →
          ids.Sorted (fun a b => parseDecimal (a.drop 3) ≤ parseDecimal (b.drop 3))) := by
  have hmem : ∀ id, id ∈ sortStrings
      ((entries.filter (fun e => !e.IsDir && (workItemMatch e.Name).isSome)).map
        (fun e => TrimSuffix e.Name ".md".toList))
      ↔ ∃ d, 3 ≤ d.length ∧ d.all isDigit = true ∧ id = "WI-".toList ++ d
          ∧ ({ Name := "WI-".toList ++ d ++ ".md".toList, IsDir := false } : DirEntry) ∈ entries := by
    intro id
    rw [(sortStrings_perm _).mem_iff]
    simp only [List.mem_map, List.mem_filter, Bool.and_eq_true, Bool.not_eq_true',
      Option.isSome_iff_exists]
    constructor
    · rintro ⟨e, ⟨he, hdir, d, hm⟩, rfl⟩
      obtain ⟨hn, h3, hdig⟩ := (workItemMatch_iff _ _).1 hm
      refine ⟨d, h3, hdig, ?_, ?_⟩
      · rw [hn, TrimSuffix_md]
      · have : e = { Name := "WI-".toList ++ d ++ ".md".toList, IsDir := false } := by
          cases e with
          | mk n dir =>
            simp only at hn hdir
            rw [hn, hdir]
        rw [← this]
        exact he
    · rintro ⟨d, h3, hdig, rfl, he⟩
      exact ⟨_, ⟨he, rfl, d, (workItemMatch_iff _ _).2 ⟨rfl, h3, hdig⟩⟩, TrimSuffix_md d⟩
  refine ⟨_, ?_, sortStrings_perm _, hmem, sortStrings_sorted _, ?_⟩
  · simp only [ListWorkItems, hls]
    rw [listWorkItems_fold]
    rfl
  · intro hlen
    apply List.Pairwise.imp_of_mem _ (sortStrings_sorted _)
    intro a b ha hb hab
    obtain ⟨da, _, hda, rfl, _⟩ := (hmem a).1 ha
    obtain ⟨db, _, hdb, rfl, _⟩ := (hmem b).1 hb
    have la : da.length = 3 := by
      have := hlen _ ha
      simp at this
      omega
    have lb : db.length = 3 := by
      have := hlen _ hb
      simp at this
      omega
    have e1 : ("WI-".toList ++ da).drop 3 = da := rfl
    have e2 : ("WI-".toList ++ db).drop 3 = db := rfl
    rw [e1, e2]
    exact three_digits_le da db la lb hda hdb hab

/-- C18 (witness): three matching files, one directory and one stray file. -/
theorem ListWorkItems_sorted_witness :
    (∃ ids, ListWorkItems lsUnordered = .ok ids ∧ ids.Sorted (· ≤ ·))
    ∧ ListWorkItems lsUnordered
        = .ok ["WI-007".toList, "WI-010".toList, "WI-1000".toList] := by
  obtain ⟨ids, h1, _, _, h4, _⟩ := ListWorkItems_sorted lsUnordered _ rfl
  exact ⟨⟨ids, h1, h4⟩, by decide⟩

/-! ## Template resolution on references -/

theorem slice_congr (h h1 : Heap) (s : Slice)
    (H : ∀ a, s = some a → h1.cells a = h.cells a) : h1.slice s = h.slice s := by
  cases s with
  | none => rfl
  | some a => simp only [Heap.slice, H a rfl]

theorem entries_congr (h h1 : Heap) (m : Option Addr)
    (H : ∀ a, m = some a → h1.cells a = h.cells a) : h1.entries m = h.entries m := by
  cases m with
  | none => rfl
  | some a => simp only [Heap.entries, H a rfl]

/-- The value and the reach of a `ContextRef` depend only on the cells it reaches. -/
theorem context_congr (h h1 : Heap) (c : ContextRef)
    (H : ∀ a, c.reaches h a → h1.cells a = h.cells a) :
    h1.context c = h.context c ∧ (∀ a, c.reaches h1 a ↔ c.reaches h a)
      ∧ h1.entries c.Standards = h.entries c.Standards := by
  have he : h1.entries c.Standards = h.entries c.Standards :=
    entries_congr h h1 _ (fun a ha => H a (Or.inr (Or.inr (Or.inl ha))))
  refine ⟨?_, ?_, he⟩
  · simp only [Heap.context, he]
    congr 1
    · apply List.map_congr_left
      intro e he'
      have : h1.slice e.2 = h.slice e.2 := by
        apply slice_congr
        intro a ha
        apply H
        exact Or.inr (Or.inr (Or.inr ⟨e.1, by rw [← ha]; exact he'⟩))
      rw [this]
    · exact slice_congr h h1 _ (fun a ha => H a (Or.inl ha))
    · exact slice_congr h h1 _ (fun a ha => H a (Or.inr (Or.inl ha)))
  · intro a
    simp only [ContextRef.reaches, he]

theorem reaches_lt (n : Addr) (h : Heap) (c : ContextRef) (hwf : c.wellFormed n h = true)
    (a : Addr) (ha : c.reaches h a) : a < n := by
  simp only [ContextRef.wellFormed, Bool.and_eq_true, decide_eq_true_eq, List.all_eq_true] at hwf
  obtain ⟨⟨⟨⟨h1, h2⟩, h3⟩, h4⟩, _⟩ := hwf
  rcases ha with ha | ha | ha | ⟨k, ha⟩
  · rw [ha] at h1
    simpa [Option.all] using h1
  · rw [ha] at h2
    simpa [Option.all] using h2
  · rw [ha] at h3
    simpa [Option.all] using h3
  · have := h4 _ ha
    simpa [Option.all] using this

theorem wellFormed_congr (n : Addr) (h h1 : Heap) (c : ContextRef)
    (he : h1.entries c.Standards = h.entries c.Standards) :
    c.wellFormed n h1 = c.wellFormed n h := by
  simp only [ContextRef.wellFormed, he]

theorem appendCopy_spec (h : Heap) (s : Slice) :
    (∀ a, a < h.next → (appendCopy h s).2.cells a = h.cells a)
    ∧ h.next ≤ (appendCopy h s).2.next
    ∧ (appendCopy h s).2.slice (appendCopy h s).1 = h.slice s
    ∧ (∀ a, (appendCopy h s).1 = some a → h.next ≤ a ∧ a < (appendCopy h s).2.next) := by
  unfold appendCopy
  cases hs : h.slice s with
  | nil => simp [Heap.slice]
  | cons x xs =>
    refine ⟨?_, ?_, ?_, ?_⟩
    · intro a ha
      have : a ≠ h.next := Nat.ne_of_lt ha
      simp [Heap.alloc, this]
    · simp [Heap.alloc]
    · simp [Heap.slice, Heap.alloc]
    · intro a ha
      simp only [Heap.alloc, Option.some.injEq] at ha ⊢
      subst ha
      exact ⟨Nat.le_refl _, Nat.lt_succ_self _⟩

theorem mapSet_fresh (k : Str) (s : Slice) (done : List (Str × Slice))
    (hk : k ∉ done.map (·.1)) : mapSet k s done = done ++ [(k, s)] := by
  induction done with
  | nil => rfl
  | cons e rest ih =>
    simp only [List.map_cons, List.mem_cons, not_or] at hk
    have hne : ¬ e.1 = k := fun h => hk.1 h.symm
    simp only [mapSet, if_neg hne, ih hk.2, List.cons_append]

theorem cloneStandardsLoop_spec (m : Addr) (entries : List (Str × Slice)) :
    ∀ (done : List (Str × Slice)) (h : Heap), m < h.next →
      h.cells m = some (.map done) →
      ((done ++ entries).map (·.1)).Nodup →
      (∀ e ∈ entries, ∀ a, e.2 = some a → a < h.next ∧ a ≠ m) →
      ∃ news, (cloneStandardsLoop m entries h).cells m = some (.map (done ++ news))
        ∧ news.map (fun e => (e.1, (cloneStandardsLoop m entries h).slice e.2))
            = entries.map (fun e => (e.1, h.slice e.2))
        ∧ (∀ e ∈ news, ∀ a, e.2 = some a →
            h.next ≤ a ∧ a < (cloneStandardsLoop m entries h).next)
        ∧ (∀ a, a < h.next → a ≠ m → (cloneStandardsLoop m entries h).cells a = h.cells a)
        ∧ h.next ≤ (cloneStandardsLoop m entries h).next := by
  induction entries with
  | nil =>
    intro done h _ hc _ _
    exact ⟨[], by simpa [cloneStandardsLoop] using hc, rfl, by simp, fun _ _ _ => rfl,
      Nat.le_refl _⟩
  | cons kv rest ih =>
    intro done h hm hc hnd hsrc
    obtain ⟨k, v⟩ := kv
    obtain ⟨hfr, hle, hval, hnew⟩ := appendCopy_spec h v
    have hdone : (appendCopy h v).2.entries (some m) = done := by
      simp only [Heap.entries, hfr m hm, hc]
    have hk : k ∉ done.map (·.1) := by
      intro hmem
      rw [List.map_append, List.map_cons] at hnd
      have := (List.nodup_append.mp hnd).2.2
      exact this hmem (List.mem_cons_self _ _)
    have hstep : cloneStandardsLoop m ((k, v) :: rest) h
        = cloneStandardsLoop m rest
            ((appendCopy h v).2.set m (.map (done ++ [(k, (appendCopy h v).1)]))) := by
      simp only [cloneStandardsLoop, hdone, mapSet_fresh k _ done hk]
    rw [hstep]
    generalize hh1 : (appendCopy h v).2.set m (.map (done ++ [(k, (appendCopy h v).1)])) = h1
    have h1next : h1.next = (appendCopy h v).2.next := by rw [← hh1]; rfl
    have h1m : h1.cells m = some (.map (done ++ [(k, (appendCopy h v).1)])) := by
      rw [← hh1]; simp [Heap.set]
    have h1other : ∀ a, a ≠ m → h1.cells a = (appendCopy h v).2.cells a := by
      intro a ha
      rw [← hh1]; simp [Heap.set, ha]
    have hnd1 : (((done ++ [(k, (appendCopy h v).1)]) ++ rest).map (·.1)).Nodup := by
      simpa [List.map_append] using hnd
    have hsrc1 : ∀ e ∈ rest, ∀ a, e.2 = some a → a < h1.next ∧ a ≠ m := by
      intro e he a ha
      have := hsrc e (List.mem_cons_of_mem _ he) a ha
      exact ⟨by rw [h1next]; unfold Addr at *; omega, this.2⟩
    obtain ⟨news, hcell, hvals, hfresh, hframe, hnext⟩ :=
      ih (done ++ [(k, (appendCopy h v).1)]) h1 (by rw [h1next]; unfold Addr at *; omega) h1m hnd1 hsrc1
    refine ⟨(k, (appendCopy h v).1) :: news, ?_, ?_, ?_, ?_, ?_⟩
    · rw [hcell, List.append_assoc]; rfl
    · rw [List.map_cons, List.map_cons, hvals]
      congr 1
      · congr 1
        have e1 : (cloneStandardsLoop m rest h1).slice (appendCopy h v).1
            = h1.slice (appendCopy h v).1 := by
          apply slice_congr
          intro a ha
          have := hnew a ha
          exact hframe a (by rw [h1next]; exact this.2) (by unfold Addr at *; omega)
        have e2 : h1.slice (appendCopy h v).1 = (appendCopy h v).2.slice (appendCopy h v).1 := by
          apply slice_congr
          intro a ha
          have := hnew a ha
          exact h1other a (by unfold Addr at *; omega)
        rw [e1, e2, hval]
      · apply List.map_congr_left
        intro e he
        have : h1.slice e.2 = h.slice e.2 := by
          apply slice_congr
          intro a ha
          have := hsrc e (List.mem_cons_of_mem _ he) a ha
          rw [h1other a this.2, hfr a this.1]
        rw [this]
    · intro e he a ha
      rcases List.mem_cons.mp he with rfl | he
      · have := hnew a ha
        exact ⟨this.1, by unfold Addr at *; omega⟩
      · have := hfresh e he a ha
        exact ⟨by unfold Addr at *; omega, this.2⟩
    · intro a ha hne
      rw [hframe a (by rw [h1next]; unfold Addr at *; omega) hne, h1other a hne, hfr a ha]
    · unfold Addr at *; omega

theorem alloc_cells_lt (h : Heap) (c : Cell) (a : Addr) (ha : a < h.next) :
    (h.alloc c).2.cells a = h.cells a := by
  have : a ≠ h.next := Nat.ne_of_lt ha
  simp [Heap.alloc, this]

theorem cloneContextRef_spec (ctx : ContextRef) (h : Heap) (n : Addr) (hn : n ≤ h.next)
    (hwf : ctx.wellFormed n h = true) :
    (cloneContextRef ctx h).2.context (cloneContextRef ctx h).1 = h.context ctx
      ∧ (∀ a, a < h.next → (cloneContextRef ctx h).2.cells a = h.cells a)
      ∧ h.next ≤ (cloneContextRef ctx h).2.next
      ∧ (∀ a, (cloneContextRef ctx h).1.reaches (cloneContextRef ctx h).2 a →
          h.next ≤ a ∧ a < (cloneContextRef ctx h).2.next)
      ∧ (cloneContextRef ctx h).1.Project = ctx.Project := by
  have hreach := reaches_lt n h ctx hwf
  have hnd : ((h.entries ctx.Standards).map (·.1)).Nodup := by
    simp only [ContextRef.wellFormed, Bool.and_eq_true, decide_eq_true_eq] at hwf
    exact hwf.2
  obtain ⟨fA, lA, vA, nA⟩ := appendCopy_spec h ctx.Constraints
  obtain ⟨fB, lB, vB, nB⟩ := appendCopy_spec (appendCopy h ctx.Constraints).2 ctx.QualityGates
  simp only [cloneContextRef]
  generalize appendCopy (appendCopy h ctx.Constraints).2 ctx.QualityGates = qg at *
  generalize appendCopy h ctx.Constraints = cs at *
  obtain ⟨c1, hA⟩ := cs
  obtain ⟨c2, hB⟩ := qg
  simp only at fA lA vA nA fB lB vB nB ⊢
  have hAB : ∀ a, a < h.next → hB.cells a = h.cells a := by
    intro a ha
    rw [fB a (by unfold Addr at *; omega), fA a ha]
  have vQ : hB.slice c2 = h.slice ctx.QualityGates := by
    rw [vB]
    apply slice_congr
    intro a ha
    exact fA a (by have := hreach a (Or.inr (Or.inl ha)); unfold Addr at *; omega)
  cases hS : ctx.Standards with
  | none =>
    simp only
    refine ⟨?_, hAB, by unfold Addr at *; omega, ?_, trivial⟩
    · simp only [Heap.context, hS, Heap.entries, List.map_nil, vQ]
      congr 1
      rw [← vA]
      apply slice_congr
      intro a ha
      exact fB a (nA a ha).2
    · intro a ha
      rcases ha with ha | ha | ha | ⟨k, ha⟩
      · have := nA a ha
        exact ⟨this.1, by unfold Addr at *; omega⟩
      · have := nB a ha
        exact ⟨by unfold Addr at *; omega, this.2⟩
      · cases ha
      · simp [Heap.entries] at ha
  | some src =>
    simp only
    have hsrc : src < h.next := by
      have := hreach src (Or.inr (Or.inr (Or.inl hS)))
      unfold Addr at *; omega
    have hent : hB.entries (some src) = h.entries ctx.Standards := by
      rw [hS]
      simp only [Heap.entries, hAB src hsrc]
    rw [hent]
    have hmnext : (hB.alloc (.map [])).2.next = hB.next + 1 := rfl
    have hm1 : (hB.alloc (.map [])).1 = hB.next := rfl
    have hmcell : (hB.alloc (.map [])).2.cells hB.next = some (.map []) := by
      simp [Heap.alloc]
    have hmold : ∀ a, a < h.next → (hB.alloc (.map [])).2.cells a = h.cells a := by
      intro a ha
      rw [alloc_cells_lt hB _ a (by unfold Addr at *; omega), hAB a ha]
    rw [hm1]
    obtain ⟨news, hcell, hvals, hfresh, hframe, hnext⟩ :=
      cloneStandardsLoop_spec hB.next (h.entries ctx.Standards) [] (hB.alloc (.map [])).2
        (by rw [hmnext]; exact Nat.lt_succ_self _) hmcell (by simpa using hnd)
        (by
          intro e he a ha
          have := hreach a (Or.inr (Or.inr (Or.inr ⟨e.1, by rw [← ha]; exact he⟩)))
          rw [hmnext]
          unfold Addr at *
          omega)
    generalize cloneStandardsLoop hB.next (h.entries ctx.Standards) (hB.alloc (.map [])).2
      = hF at *
    rw [hmnext] at hfresh hframe hnext
    have hFold : ∀ a, a < hB.next → hF.cells a = hB.cells a := by
      intro a ha
      rw [hframe a (by unfold Addr at *; omega) (by unfold Addr at *; omega),
        alloc_cells_lt hB _ a ha]
    refine ⟨?_, ?_, by unfold Addr at *; omega, ?_, trivial⟩
    · simp only [Heap.context, Heap.entries, hcell, List.nil_append, hvals]
      congr 1
      · apply List.map_congr_left
        intro e he
        have : (hB.alloc (.map [])).2.slice e.2 = h.slice e.2 := by
          apply slice_congr
          intro a ha
          have := hreach a (Or.inr (Or.inr (Or.inr ⟨e.1, by rw [← ha]; exact he⟩)))
          exact hmold a (by unfold Addr at *; omega)
        rw [this]
      · rw [← vA]
        apply slice_congr
        intro a ha
        have := nA a ha
        rw [hFold a (by unfold Addr at *; omega), fB a this.2]
      · rw [← vQ]
        apply slice_congr
        intro a ha
        exact hFold a (nB a ha).2
    · intro a ha
      rw [hFold a (by unfold Addr at *; omega), hAB a ha]
    · intro a ha
      rcases ha with ha | ha | ha | ⟨k, ha⟩
      · have := nA a ha
        exact ⟨this.1, by unfold Addr at *; omega⟩
      · have := nB a ha
        exact ⟨by unfold Addr at *; omega, by unfold Addr at *; omega⟩
      · simp only [Option.some.injEq] at ha
        subst ha
        exact ⟨by unfold Addr at *; omega, by unfold Addr at *; omega⟩
      · simp only [Heap.entries, hcell, List.nil_append] at ha
        have := hfresh _ ha a rfl
        exact ⟨by unfold Addr at *; omega, this.2⟩

theorem finalizeTemplateMetadataRef_refs (c : ContextRef) (r q : Str) :
    (finalizeTemplateMetadataRef c r q).Standards = c.Standards
      ∧ (finalizeTemplateMetadataRef c r q).Constraints = c.Constraints
      ∧ (finalizeTemplateMetadataRef c r q).QualityGates = c.QualityGates := by
  unfold finalizeTemplateMetadataRef
  refine ⟨?_, ?_, ?_⟩ <;> simp only [] <;> split_ifs <;> rfl

theorem finalizeTemplateMetadataRef_context (h : Heap) (c : ContextRef) (r q : Str) :
    h.context (finalizeTemplateMetadataRef c r q)
      = finalizeTemplateMetadata (h.context c) r q := by
  unfold finalizeTemplateMetadataRef finalizeTemplateMetadata
  simp only [Heap.context]
  split_ifs <;> rfl

theorem finalizeTemplateMetadataRef_reaches (h : Heap) (c : ContextRef) (r q : Str) (a : Addr) :
    (finalizeTemplateMetadataRef c r q).reaches h a ↔ c.reaches h a := by
  obtain ⟨e1, e2, e3⟩ := finalizeTemplateMetadataRef_refs c r q
  simp only [ContextRef.reaches, e1, e2, e3]

theorem ResolveTemplateRef_builtIn (Y : Yaml Context) (fs : FS)
    (registry : List (Str × ContextRef)) (name : Str) (entry : ContextRef) (h : Heap)
    (hname : name ≠ []) (hfile : fs (RepoTemplatePath name) = none)
    (hreg : registry.lookup name = some entry) :
    ResolveTemplateRef Y fs registry name h
      = (.ok (finalizeTemplateMetadataRef (cloneContextRef entry h).1 name name, name),
          (cloneContextRef entry h).2) := by
  simp [ResolveTemplateRef, requestedOrDefault, hname, loadRepoTemplateRef, loadRepoTemplate,
    ReadFile, hfile, Error.isNotExist, builtInTemplateRef, hreg]

/-- What one call leaves for the registry entry and for an earlier result: the
value of the entry, and the cells below the heap's old limit. -/
theorem ResolveTemplateRef_call (entry : ContextRef) (n : Addr) (h0 h : Heap) (name : Str)
    (hn : n ≤ h.next) (hwf : entry.wellFormed n h0 = true)
    (hsame : ∀ a, entry.reaches h0 a → h.cells a = h0.cells a) :
    h.context entry = h0.context entry
      ∧ (cloneContextRef entry h).2.context
            (finalizeTemplateMetadataRef (cloneContextRef entry h).1 name name)
          = finalizeTemplateMetadata (h0.context entry) name name
      ∧ (∀ a, a < h.next → (cloneContextRef entry h).2.cells a = h.cells a)
      ∧ h.next ≤ (cloneContextRef entry h).2.next
      ∧ (∀ a, (finalizeTemplateMetadataRef (cloneContextRef entry h).1 name name).reaches
            (cloneContextRef entry h).2 a → h.next ≤ a ∧ a < (cloneContextRef entry h).2.next) := by
  obtain ⟨hctx, _, hent⟩ := context_congr h0 h entry hsame
  have hwf1 : entry.wellFormed n h = true := by rw [wellFormed_congr n h0 h entry hent]; exact hwf
  obtain ⟨hv, hfr, hle, hre, _⟩ := cloneContextRef_spec entry h n hn hwf1
  refine ⟨hctx, ?_, hfr, hle, ?_⟩
  · rw [finalizeTemplateMetadataRef_context, hv, hctx]
  · intro a ha
    exact hre a ((finalizeTemplateMetadataRef_reaches _ _ _ _ a).mp ha)

/-- C11: for a name of the registry with no repo-local file, ResolveTemplate on
references returns a freshly built record whose value is the finalised value of
the registry entry, and leaves the value of the entry as it was; after any edit
of the heap through the addresses the first result reaches (its constraints
array, its quality-gates array, its standards map and the arrays stored in that
map) the entry still has its value and a second call returns a record of the
same value as the first call did; and when the second call is made first, an
edit through the first result changes neither the second result nor the entry. -/
theorem ResolveTemplateRef_independent (Y : Yaml Context) (fs : FS)
    (registry : List (Str × ContextRef)) (name : Str) (entry : ContextRef) (h0 : Heap)
    (hname : name ≠ []) (hfile : fs (RepoTemplatePath name) = none)
    (hreg : registry.lookup name = some entry)
    (hwf : entry.wellFormed h0.next h0 = true) :
    ∃ c1 h1, ResolveTemplateRef Y fs registry name h0 = (.ok (c1, name), h1)
      ∧ h1.context c1 = finalizeTemplateMetadata (h0.context entry) name name
      ∧ h1.context entry = h0.context entry
      ∧ (∀ h2, EditedAt (c1.reaches h1) h1 h2 →
          h2.context entry = h0.context entry
            ∧ ∃ c2 h3, ResolveTemplateRef Y fs registry name h2 = (.ok (c2, name), h3)
                ∧ h3.context c2 = h1.context c1
                ∧ h3.context entry = h0.context entry)
      ∧ (∃ c2 h2, ResolveTemplateRef Y fs registry name h1 = (.ok (c2, name), h2)
          ∧ h2.context c2 = h1.context c1
          ∧ ∀ h3, EditedAt (c1.reaches h2) h2 h3 →
              h3.context c2 = h2.context c2 ∧ h3.context entry = h0.context entry) := by
  have hlt := reaches_lt h0.next h0 entry hwf
  obtain ⟨_, v1, f1, l1, r1⟩ :=
    ResolveTemplateRef_call entry h0.next h0 h0 name (Nat.le_refl _) hwf (fun _ _ => rfl)
  refine ⟨_, _, ResolveTemplateRef_builtIn Y fs registry name entry h0 hname hfile hreg, v1, ?_,
    ?_, ?_⟩
  · exact (context_congr h0 _ entry (fun a ha => f1 a (hlt a ha))).1
  · intro h2 hed
    have hsame2 : ∀ a, entry.reaches h0 a → h2.cells a = h0.cells a := by
      intro a ha
      have hal := hlt a ha
      rw [hed.2 a (by unfold Addr at *; omega)
        (fun hr => by have := (r1 a hr).1; unfold Addr at *; omega), f1 a hal]
    obtain ⟨e2, v2, f2, l2, _⟩ :=
      ResolveTemplateRef_call entry h0.next h0 h2 name
        (by have := hed.1; unfold Addr at *; omega) hwf hsame2
    refine ⟨e2, _, _, ResolveTemplateRef_builtIn Y fs registry name entry h2 hname hfile hreg,
      by rw [v2, v1], ?_⟩
    rw [← e2]
    exact (context_congr h2 _ entry (fun a ha => f2 a (by
      have := hlt a (((context_congr h0 h2 entry hsame2).2.1 a).mp ha)
      have := hed.1
      unfold Addr at *; omega))).1
  · have hsame1 : ∀ a, entry.reaches h0 a → (cloneContextRef entry h0).2.cells a = h0.cells a :=
      fun a ha => f1 a (hlt a ha)
    obtain ⟨e2, v2, f2, l2, r2⟩ :=
      ResolveTemplateRef_call entry h0.next h0 (cloneContextRef entry h0).2 name l1 hwf hsame1
    refine ⟨_, _, ResolveTemplateRef_builtIn Y fs registry name entry _ hname hfile hreg,
      by rw [v2, v1], ?_⟩
    intro h3 hed
    have hreach1 : ∀ a,
        (finalizeTemplateMetadataRef (cloneContextRef entry h0).1 name name).reaches
            (cloneContextRef entry (cloneContextRef entry h0).2).2 a →
          a < (cloneContextRef entry h0).2.next := by
      intro a ha
      have := (context_congr (cloneContextRef entry h0).2
        (cloneContextRef entry (cloneContextRef entry h0).2).2
        (finalizeTemplateMetadataRef (cloneContextRef entry h0).1 name name)
        (fun b hb => f2 b (r1 b hb).2)).2.1 a
      exact (r1 a (this.mp ha)).2
    constructor
    · apply (context_congr _ h3 _ _).1
      intro a ha
      have := r2 a ha
      exact hed.2 a this.2 (fun hr => by have := hreach1 a hr; unfold Addr at *; omega)
    · have hsame3 : ∀ a, entry.reaches h0 a → h3.cells a = h0.cells a := by
        intro a ha
        have hal := hlt a ha
        rw [hed.2 a (by unfold Addr at *; omega)
          (fun hr => by
            have h5 := (context_congr (cloneContextRef entry h0).2
              (cloneContextRef entry (cloneContextRef entry h0).2).2
              (finalizeTemplateMetadataRef (cloneContextRef entry h0).1 name name)
              (fun b hb => f2 b (r1 b hb).2)).2.1 a
            have := (r1 a (h5.mp hr)).1
            unfold Addr at *; omega),
          f2 a (by unfold Addr at *; omega), f1 a hal]
      exact (context_congr h0 h3 entry hsame3).1

/-- Assigning to a cell that `own` holds is an edit through `own`. -/
theorem EditedAt_set (own : Addr → Prop) (h : Heap) (a : Addr) (c : Cell) (ha : own a) :
    EditedAt own h (h.set a c) := by
  refine ⟨Nat.le_refl _, ?_⟩
  intro b _ hb
  have : b ≠ a := fun e => hb (e ▸ ha)
  simp [Heap.set, this]

/-- C11 (witness): the built-in template `default`, resolved twice in the heap
left by package initialisation, with no repo-local template file. -/
theorem ResolveTemplateRef_independent_witness :
    ∃ c1 h1, ResolveTemplateRef RefYaml.context (fun _ => none) registryRef.1 "default".toList
          registryRef.2 = (.ok (c1, "default".toList), h1)
      ∧ h1.context c1 = finalizeTemplateMetadata (registryRef.2.context sampleDefaultEntry)
          "default".toList "default".toList
      ∧ h1.context sampleDefaultEntry = registryRef.2.context sampleDefaultEntry
      ∧ (∀ h2, EditedAt (c1.reaches h1) h1 h2 →
          h2.context sampleDefaultEntry = registryRef.2.context sampleDefaultEntry
            ∧ ∃ c2 h3, ResolveTemplateRef RefYaml.context (fun _ => none) registryRef.1
                  "default".toList h2 = (.ok (c2, "default".toList), h3)
                ∧ h3.context c2 = h1.context c1
                ∧ h3.context sampleDefaultEntry = registryRef.2.context sampleDefaultEntry)
      ∧ (∃ c2 h2, ResolveTemplateRef RefYaml.context (fun _ => none) registryRef.1
              "default".toList h1 = (.ok (c2, "default".toList), h2)
          ∧ h2.context c2 = h1.context c1
          ∧ ∀ h3, EditedAt (c1.reaches h2) h2 h3 →
              h3.context c2 = h2.context c2
                ∧ h3.context sampleDefaultEntry = registryRef.2.context sampleDefaultEntry) :=
  ResolveTemplateRef_independent RefYaml.context (fun _ => none) registryRef.1 "default".toList
    sampleDefaultEntry registryRef.2 (by decide) rfl (by decide) (by decide)

/-- The registry in the heap shows the values of `builtInTemplates`. -/
theorem registryRef_values :
    registryRef.1.map (fun e => (e.1, registryRef.2.context e.2)) = builtInTemplates := by
  decide

/-! ## Invariants of a resolved template -/

theorem requestedOrDefault_ne_nil (name : Str) : requestedOrDefault name ≠ [] := by
  unfold requestedOrDefault
  split_ifs with h
  · decide
  · exact h

/-- After `finalizeTemplateMetadata` with non-empty names, the project name and
the template field are non-empty. -/
theorem finalizeTemplateMetadata_ne_nil (c : Context) (r q : Str) (hr : r ≠ []) (hq : q ≠ []) :
    (finalizeTemplateMetadata c r q).Project.Name ≠ []
      ∧ (finalizeTemplateMetadata c r q).Project.Template ≠ [] := by
  unfold finalizeTemplateMetadata
  simp only [hq, ne_eq, not_false_eq_true, true_and]
  constructor <;> split_ifs <;> simp_all

/-- C29: for every requested name and every store, a successful
`ResolveTemplate` returns a Context whose `Project.Name` and `Project.Template`
are both non-empty and a source name that is the requested name (`default` for
the empty request) or `default`; and when the repo-local path exists but is not
a readable file, or holds text the yaml decoder rejects, `ResolveTemplate`
returns that error (the read error, the yaml error) and no built-in. -/
theorem ResolveTemplate_invariants (Y : Yaml Context) (fs : FS) (name : Str) :
    (∀ c src, ResolveTemplate Y fs name = .ok (c, src) →
        c.Project.Name ≠ [] ∧ c.Project.Template ≠ []
          ∧ (src = requestedOrDefault name ∨ src = "default".toList))
    ∧ (∀ entry, fs (RepoTemplatePath (requestedOrDefault name)) = some entry →
        (∀ data, entry ≠ .file data) →
        ResolveTemplate Y fs name
          = .error (.io (RepoTemplatePath (requestedOrDefault name))))
    ∧ (∀ data msg, fs (RepoTemplatePath (requestedOrDefault name)) = some (.file data) →
        Y.unmarshal data = .error msg →
        ResolveTemplate Y fs name = .error (.yaml msg)) := by
  have hn := requestedOrDefault_ne_nil name
  have hd : ("default".toList : Str) ≠ [] := by decide
  refine ⟨?_, ?_, ?_⟩
  · intro c src h
    unfold ResolveTemplate at h
    simp only at h
    cases hl : loadRepoTemplate Y fs (requestedOrDefault name) with
    | ok ctx =>
      rw [hl] at h
      simp only [Except.ok.injEq, Prod.mk.injEq] at h
      obtain ⟨rfl, rfl⟩ := h
      obtain ⟨h1, h2⟩ := finalizeTemplateMetadata_ne_nil ctx _ _ hn hn
      exact ⟨h1, h2, Or.inl rfl⟩
    | error err =>
      rw [hl] at h
      simp only at h
      split_ifs at h
      cases hb : builtInTemplate (requestedOrDefault name) with
      | some ctx =>
        rw [hb] at h
        simp only [Except.ok.injEq, Prod.mk.injEq] at h
        obtain ⟨rfl, rfl⟩ := h
        obtain ⟨h1, h2⟩ := finalizeTemplateMetadata_ne_nil ctx _ _ hn hn
        exact ⟨h1, h2, Or.inl rfl⟩
      | none =>
        rw [hb] at h
        simp only at h
        cases hf : builtInTemplate "default".toList with
        | none => rw [hf] at h; cases h
        | some fallback =>
          rw [hf] at h
          simp only [Except.ok.injEq, Prod.mk.injEq] at h
          obtain ⟨rfl, rfl⟩ := h
          obtain ⟨h1, h2⟩ := finalizeTemplateMetadata_ne_nil fallback _ _ hd hn
          exact ⟨h1, h2, Or.inr rfl⟩
  · intro entry he hnf
    have hl : loadRepoTemplate Y fs (requestedOrDefault name)
        = .error (.io (RepoTemplatePath (requestedOrDefault name))) := by
      unfold loadRepoTemplate ReadFile
      rw [he]
      cases entry with
      | file data => exact absurd rfl (hnf data)
      | dir => rfl
      | denied => rfl
      | fault => rfl
    unfold ResolveTemplate
    simp only [hl, Error.isNotExist]
    rfl
  · intro data msg hf hu
    have hl : loadRepoTemplate Y fs (requestedOrDefault name) = .error (.yaml msg) := by
      unfold loadRepoTemplate ReadFile
      rw [hf]
      simp only [hu]
    unfold ResolveTemplate
    simp only [hl, Error.isNotExist]
    rfl
/-- C29 (witness): an unreadable repo-local `default` gives the read error, one
that does not parse gives the yaml error (here for the empty request), and the
request `shop` on an empty store succeeds with both fields non-empty. -/
theorem ResolveTemplate_invariants_witness :
    ResolveTemplate RefYaml.context fsDeniedTemplate "default".toList
        = .error (.io ".agent/templates/default.yaml".toList)
    ∧ ResolveTemplate RefYaml.context fsBrokenTemplate []
        = .error (.yaml "yaml: could not find expected ':'".toList)
    ∧ ∃ c, ResolveTemplate RefYaml.context (fun _ => none) "shop".toList
          = .ok (c, "default".toList)
        ∧ c.Project.Name ≠ [] ∧ c.Project.Template ≠ [] :=
  ⟨(ResolveTemplate_invariants RefYaml.context fsDeniedTemplate "default".toList).2.1
      .denied (by decide) (by intro data h; cases h),
   (ResolveTemplate_invariants RefYaml.context fsBrokenTemplate []).2.2
      "project\n".toList _ (by decide) (by decide),
   ⟨(finalizeTemplateMetadata sampleDefaultContext "default".toList "shop".toList), by decide,
     ((ResolveTemplate_invariants RefYaml.context (fun _ => none) "shop".toList).1 _
        "default".toList (by decide)).1,
     ((ResolveTemplate_invariants RefYaml.context (fun _ => none) "shop".toList).1 _
        "default".toList (by decide)).2.1⟩⟩

/-! ## Structure of a saved work item -/

theorem Index_isSome_of_occurrence (sep a b : Str) : (Index (a ++ sep ++ b) sep).isSome = true := by
  cases h : Index (a ++ sep ++ b) sep with
  | some i => rfl
  | none =>
    have := (Index_eq_none sep _).1 h a.length
    rw [List.append_assoc, List.drop_left] at this
    have hp : HasPrefix (sep ++ b) sep = true := (HasPrefix_iff _ _).2 (List.prefix_append _ _)
    rw [hp] at this
    cases this

/-- The document `SaveWorkItem` builds opens with the delimiter and holds a
second one after the metadata. -/
theorem workItemDocument_shape (Y : Yaml WorkItem) (wi : WorkItemFile) :
    HasPrefix (workItemDocument Y wi) delimiter = true
      ∧ ∃ m, Index ((workItemDocument Y wi).drop 3) delimiter = some m := by
  have hdoc : workItemDocument Y wi
      = delimiter ++ (("\n".toList ++ Y.marshal wi.Meta) ++ delimiter
          ++ ("\n".toList ++ (if HasPrefix (savedBody wi) "\n".toList then [] else "\n".toList)
              ++ savedBody wi)) := by
    simp [workItemDocument, delimiter]
  constructor
  · rw [hdoc]
    exact (HasPrefix_iff _ _).2 (List.prefix_append _ _)
  · have hdrop : (workItemDocument Y wi).drop 3
        = ("\n".toList ++ Y.marshal wi.Meta) ++ delimiter
          ++ ("\n".toList ++ (if HasPrefix (savedBody wi) "\n".toList then [] else "\n".toList)
              ++ savedBody wi) := by
      rw [hdoc]
      exact List.drop_left' rfl
    rw [hdrop]
    exact Option.isSome_iff_exists.1 (Index_isSome_of_occurrence _ _ _)

/-- C28: for every work item, Body and yaml codec, the document `SaveWorkItem`
writes begins with `---` and splits on `---` (at most three parts) into three
segments, so `parseWorkItem` on it returns neither the missing-front-matter
error nor the invalid-format error; and after a successful `SaveWorkItem` the
file holds that document and `LoadWorkItem` returns neither error. -/
theorem SaveWorkItem_structure (Y : Yaml WorkItem) (wi : WorkItemFile) :
    HasPrefix (workItemDocument Y wi) delimiter = true
    ∧ (SplitN (workItemDocument Y wi) delimiter 3).length = 3
    ∧ parseWorkItem Y (workItemDocument Y wi)
        ≠ .error (.text "work item missing front matter".toList)
    ∧ parseWorkItem Y (workItemDocument Y wi)
        ≠ .error (.text "invalid work item format".toList)
    ∧ (∀ fs fs1, SaveWorkItem Y wi fs = .ok fs1 →
        fs1 (WorkItemPath wi.Meta.ID) = some (.file (workItemDocument Y wi))
          ∧ LoadWorkItem Y fs1 wi.Meta.ID
              ≠ .error (.text "work item missing front matter".toList)
          ∧ LoadWorkItem Y fs1 wi.Meta.ID
              ≠ .error (.text "invalid work item format".toList)) := by
  obtain ⟨hp, m, hm⟩ := workItemDocument_shape Y wi
  have hparse := parseWorkItem_opened Y (workItemDocument Y wi) hp
  rw [hm] at hparse
  have h1 : parseWorkItem Y (workItemDocument Y wi)
      ≠ .error (.text "work item missing front matter".toList) := by
    rw [hparse]
    cases hu : Y.unmarshal (TrimSpace (((workItemDocument Y wi).drop 3).take m)) with
    | error msg => simp only [hu]; intro h; cases h
    | ok w => simp only [hu]; intro h; cases h
  have h2 : parseWorkItem Y (workItemDocument Y wi)
      ≠ .error (.text "invalid work item format".toList) := by
    rw [hparse]
    cases hu : Y.unmarshal (TrimSpace (((workItemDocument Y wi).drop 3).take m)) with
    | error msg => simp only [hu]; intro h; cases h
    | ok w => simp only [hu]; intro h; cases h
  refine ⟨hp, ?_, h1, h2, ?_⟩
  · have hi := Index_at_start _ _ hp
    have hsep : delimiter.isEmpty = false := rfl
    have hlen : delimiter.length = 3 := rfl
    simp [SplitN, hsep, genSplitLoop, hi, hlen, hm]
  · intro fs fs1 hs
    have hfile : fs1 (WorkItemPath wi.Meta.ID) = some (.file (workItemDocument Y wi)) := by
      unfold SaveWorkItem WriteFile at hs
      split at hs
      · cases hs
      · cases hs
      · cases hs
      · simp only [Except.ok.injEq] at hs
        rw [← hs]
        simp
    refine ⟨hfile, ?_, ?_⟩
    · simp only [LoadWorkItem, ReadFile, hfile]
      exact h1
    · simp only [LoadWorkItem, ReadFile, hfile]
      exact h2

/-- C28 (witness): a work item whose title holds the delimiter, with a blank
Body: the written document still opens with the delimiter and splits into three
segments. -/
theorem SaveWorkItem_structure_witness :
    HasPrefix (workItemDocument RefYaml.workItem { Meta := sampleDash, Body := [] }) delimiter
        = true
    ∧ (SplitN (workItemDocument RefYaml.workItem { Meta := sampleDash, Body := [] })
        delimiter 3).length = 3 :=
  ⟨(SaveWorkItem_structure RefYaml.workItem { Meta := sampleDash, Body := [] }).1,
   (SaveWorkItem_structure RefYaml.workItem { Meta := sampleDash, Body := [] }).2.1⟩

/-! ## Freshness of the next work item ID -/

theorem padZeros_digits (n : Nat) :
    3 ≤ (padZeros 3 (formatNat n)).length ∧ (padZeros 3 (formatNat n)).all isDigit = true
      ∧ parseDecimal (padZeros 3 (formatNat n)) = n := by
  obtain ⟨hv, _, hd⟩ := formatNat_spec n
  refine ⟨?_, ?_, ?_⟩
  · simp only [padZeros, List.length_append, List.length_replicate]
    omega
  · simp only [padZeros, List.all_append, hd, Bool.and_true, List.all_eq_true]
    intro c hc
    rw [List.eq_of_mem_replicate hc]
    decide
  · simp only [padZeros, parseDecimal_zeros, hv]

/-- C27 (amended): when every matching suffix is below the largest Go `int`, the
ID `NextWorkItemID` returns is `WI-` followed by three or more digits, so the ID
followed by `.md` matches the work item pattern; its number is greater than the
number of every regular entry that matches the pattern; and no regular entry has
the name of its file. -/
theorem NextWorkItemID_fresh (ls : Listing) (entries : List DirEntry)
    (hls : ls (AgentPath [workitemsDir]) = .ok entries)
    (hfit : ∀ e d, e ∈ entries → e.IsDir = false → workItemMatch e.Name = some d →
      parseDecimal d < maxInt) :
    ∃ id d, NextWorkItemID ls = .ok id
      ∧ id = "WI-".toList ++ d
      ∧ workItemMatch (id ++ ".md".toList) = some d
      ∧ (∀ e k, e ∈ entries → e.IsDir = false → workItemMatch e.Name = some k →
          parseDecimal k < parseDecimal d)
      ∧ (∀ e, e ∈ entries → e.IsDir = false → e.Name ≠ id ++ ".md".toList) := by
  have hscan : ∀ e k, e ∈ entries → e.IsDir = false → workItemMatch e.Name = some k →
      sscanInt k = parseDecimal k := by
    intro e k he hdir hm
    unfold sscanInt
    rw [if_pos (Nat.le_of_lt (hfit e k he hdir hm))]
  obtain ⟨_, hub, hatt⟩ := nextIDStep_fold entries 0
  have hmax : entries.foldl nextIDStep 0 < maxInt := by
    rcases hatt with h0 | ⟨e, k, he, hdir, hm, hk⟩
    · rw [h0]; decide
    · rw [← hk, hscan e k he hdir hm]
      exact hfit e k he hdir hm
  obtain ⟨hlen, hdig, hval⟩ := padZeros_digits (entries.foldl nextIDStep 0 + 1)
  have hmatch : workItemMatch (("WI-".toList
      ++ padZeros 3 (formatNat (entries.foldl nextIDStep 0 + 1))) ++ ".md".toList)
      = some (padZeros 3 (formatNat (entries.foldl nextIDStep 0 + 1))) :=
    (workItemMatch_iff _ _).2 ⟨rfl, hlen, hdig⟩
  have hgt : ∀ e k, e ∈ entries → e.IsDir = false → workItemMatch e.Name = some k →
      parseDecimal k < parseDecimal (padZeros 3 (formatNat (entries.foldl nextIDStep 0 + 1))) := by
    intro e k he hdir hm
    have := hub e k he hdir hm
    rw [hscan e k he hdir hm] at this
    rw [hval]
    omega
  refine ⟨_, padZeros 3 (formatNat (entries.foldl nextIDStep 0 + 1)), ?_, rfl, hmatch, hgt, ?_⟩
  · simp only [NextWorkItemID, hls]
    rw [formatInt03_succ _ hmax]
  · intro e he hdir hname
    rw [← hname] at hmatch
    exact Nat.lt_irrefl _ (hgt e _ he hdir hmatch)
/-- C27 (witness): a store holding WI-001.md and WI-007.md (and a directory and a
stray file): the next ID is `WI-008`, and `WI-008.md` matches the pattern. -/
theorem NextWorkItemID_fresh_witness :
    (∃ id d, NextWorkItemID lsTwoItems = .ok id ∧ id = "WI-".toList ++ d
      ∧ workItemMatch (id ++ ".md".toList) = some d)
    ∧ NextWorkItemID lsTwoItems = .ok "WI-008".toList := by
  obtain ⟨id, d, h1, h2, h3, _⟩ := NextWorkItemID_fresh lsTwoItems _ rfl (by
    intro e k he hdir hm
    simp only [List.mem_cons, List.mem_singleton, List.not_mem_nil, or_false] at he
    rcases he with rfl | rfl | rfl | rfl
    · have h : workItemMatch "WI-001.md".toList = some "001".toList := by decide
      rw [h] at hm
      cases hm
      decide
    · have h : workItemMatch "WI-007.md".toList = some "007".toList := by decide
      rw [h] at hm
      cases hm
      decide
    · cases hdir
    · have h : workItemMatch "notes.txt".toList = none := by decide
      rw [h] at hm
      cases hm)
  exact ⟨⟨id, d, h1, h2, h3⟩, by decide⟩

/-- C27 (counterexample): the only item has the largest number a Go `int` holds;
the successor wraps to the least `int`, the ID is `WI--9223372036854775808`, and
that ID followed by `.md` does not match the work item pattern. -/
theorem NextWorkItemID_wraps :
    workItemMatch "WI-9223372036854775807.md".toList = some "9223372036854775807".toList
    ∧ NextWorkItemID lsMaxItem = .ok "WI--9223372036854775808".toList
    ∧ workItemMatch ("WI--9223372036854775808".toList ++ ".md".toList) = none := by
  decide

/-! ## ClassifyIntent -/

theorem classify_fold (p : Str × List Str → Bool) :
    ∀ (visit : List (Str × List Str)) (acc : List Str),
      visit.foldl (fun intents rule => if p rule = true then intents ++ [rule.1] else intents) acc
        = acc ++ (visit.filter p).map (·.1) := by
  intro visit
  induction visit with
  | nil => intro acc; simp
  | cons r rest ih =>
    intro acc
    by_cases h : p r = true
    · simp [List.foldl_cons, h, ih, List.filter_cons]
    · simp [List.foldl_cons, h, ih, List.filter_cons]

/-- The tags `ClassifyIntent` returns: the names of the rules with a matching
keyword, in the order of the visit, or `general` alone. -/
theorem ClassifyIntent_eq (L : GoLib) (visit : List (Str × List Str)) (text : Str) :
    ClassifyIntent L visit text
      = if (visit.filter (fun rule => rule.2.any (fun kw => matchWord kw (ToLower L text)))).map
            (·.1) = [] then ["general".toList]
        else (visit.filter (fun rule => rule.2.any (fun kw => matchWord kw (ToLower L text)))).map
            (·.1) := by
  unfold ClassifyIntent
  simp only
  rw [classify_fold (fun rule => rule.2.any (fun kw => matchWord kw (ToLower L text))) visit []]
  simp only [List.nil_append, List.length_eq_zero]
  split_ifs with h
  · rw [h]
    rfl
  · rfl

/-- The result is never empty, and two visits of the same table give the same
tags up to their order. -/
theorem ClassifyIntent_perm (L : GoLib) (v1 v2 : List (Str × List Str)) (text : Str)
    (hp : v1.Perm v2) :
    ClassifyIntent L v1 text ≠ []
      ∧ (ClassifyIntent L v1 text).Perm (ClassifyIntent L v2 text) := by
  have hperm := (hp.filter
    (fun rule => rule.2.any (fun kw => matchWord kw (ToLower L text)))).map (·.1)
  constructor
  · rw [ClassifyIntent_eq]
    split_ifs with h
    · simp
    · exact h
  · rw [ClassifyIntent_eq, ClassifyIntent_eq]
    split_ifs with h1 h2 h2
    · exact List.Perm.refl _
    · rw [h1] at hperm
      exact absurd hperm.symm.eq_nil h2
    · rw [h2] at hperm
      exact absurd hperm.eq_nil h1
    · exact hperm

/-- C26 (failing input): the text `fix ui` has a keyword of the rule `bugfix` and
one of the rule `frontend`. Visiting the table in the order of its literal gives
the tags `bugfix`, `frontend`; visiting it in the reverse order, which is
another order of the same map, gives `frontend`, `bugfix`: the list returned
depends on the order of the visit. -/
theorem ClassifyIntent_order_dependent :
    intentRules.reverse.Perm intentRules
    ∧ ClassifyIntent RefYaml.lib intentRules "fix ui".toList
        = ["bugfix".toList, "frontend".toList]
    ∧ ClassifyIntent RefYaml.lib intentRules.reverse "fix ui".toList
        = ["frontend".toList, "bugfix".toList]
    ∧ ClassifyIntent RefYaml.lib intentRules "fix ui".toList
        ≠ ClassifyIntent RefYaml.lib intentRules.reverse "fix ui".toList :=
  ⟨List.reverse_perm _, by decide, by decide, by decide⟩

/-! ## likelyFiles -/

theorem map_Join (f : Char → Char) (sep : Str) (items : List Str) :
    (Join items sep).map f = Join (items.map (List.map f)) (sep.map f) := by
  unfold Join
  induction items with
  | nil => rfl
  | cons x xs ih =>
    cases xs with
    | nil => simp [List.intercalate]
    | cons y ys =>
      simp only [List.intercalate, List.intersperse, List.flatten, List.map_append,
        List.map_cons] at ih ⊢
      rw [ih]

/-- The scanned text depends on the title and the tags through their lower-case
forms only. -/
theorem likelyFilesText_eq (L : GoLib) (w : WorkItem) :
    likelyFilesText L w
      = ToLower L w.Title ++ ToLower L " ".toList
          ++ Join (w.Intent.map (ToLower L)) (ToLower L " ".toList) := by
  simp only [likelyFilesText, ToLower, List.map_append, map_Join]
  rfl

theorem likelyFiles_eq (L : GoLib) (w : WorkItem) :
    likelyFiles L w
      = dedupe
          (if ((if containsAny (likelyFilesText L w) uiKeywords = true then uiPaths else [])
                ++ (if containsAny (likelyFilesText L w) backendKeywords = true then backendPaths
                    else [])
                ++ (if containsAny (likelyFilesText L w) testKeywords = true then testPaths
                    else [])).length = 0
            then defaultPaths
            else (if containsAny (likelyFilesText L w) uiKeywords = true then uiPaths else [])
                ++ (if containsAny (likelyFilesText L w) backendKeywords = true then backendPaths
                    else [])
                ++ (if containsAny (likelyFilesText L w) testKeywords = true then testPaths
                    else [])) := by
  unfold likelyFiles
  simp only [← likelyFilesText.eq_1 L w, ← uiKeywords.eq_1, ← backendKeywords.eq_1,
    ← testKeywords.eq_1]
  rcases Bool.eq_false_or_eq_true (containsAny (likelyFilesText L w) uiKeywords) with h1 | h1 <;>
    rcases Bool.eq_false_or_eq_true (containsAny (likelyFilesText L w) backendKeywords)
      with h2 | h2 <;>
    rcases Bool.eq_false_or_eq_true (containsAny (likelyFilesText L w) testKeywords)
      with h3 | h3 <;>
    simp only [h1, h2, h3, if_true, if_false, Bool.false_eq_true] <;> rfl

/-- C21: `likelyFiles` scans the lower-cased title and intent tags; when no
keyword set has a keyword in that text it returns `cmd/`, `internal/`, `pkg/`,
otherwise the path lists of the matching sets in the order UI, backend,
test/bug, with later duplicates removed; the result is never empty, has no
duplicate, and is the same for two work items whose titles and tags have the same
lower-case forms. -/
theorem likelyFiles_spec (L : GoLib) (w : WorkItem) :
    likelyFiles L w
        = (if containsAny (likelyFilesText L w) uiKeywords = false
              ∧ containsAny (likelyFilesText L w) backendKeywords = false
              ∧ containsAny (likelyFilesText L w) testKeywords = false then defaultPaths
           else firstOccurrences
            ((if containsAny (likelyFilesText L w) uiKeywords = true then uiPaths else [])
              ++ (if containsAny (likelyFilesText L w) backendKeywords = true then backendPaths
                  else [])
              ++ (if containsAny (likelyFilesText L w) testKeywords = true then testPaths
                  else [])))
    ∧ likelyFiles L w ≠ []
    ∧ (likelyFiles L w).Nodup
    ∧ (∀ w2 : WorkItem, ToLower L w2.Title = ToLower L w.Title →
        w2.Intent.map (ToLower L) = w.Intent.map (ToLower L) →
        likelyFiles L w2 = likelyFiles L w) := by
  refine ⟨?_, ?_, ?_, ?_⟩
  · rw [likelyFiles_eq]
    rcases Bool.eq_false_or_eq_true (containsAny (likelyFilesText L w) uiKeywords)
        with h1 | h1 <;>
      rcases Bool.eq_false_or_eq_true (containsAny (likelyFilesText L w) backendKeywords)
        with h2 | h2 <;>
      rcases Bool.eq_false_or_eq_true (containsAny (likelyFilesText L w) testKeywords)
        with h3 | h3 <;>
      simp only [h1, h2, h3, if_true, if_false, Bool.false_eq_true, Bool.true_eq_false,
        and_self, and_true, and_false, false_and, true_and] <;> decide
  · rw [likelyFiles_eq]
    rcases Bool.eq_false_or_eq_true (containsAny (likelyFilesText L w) uiKeywords)
        with h1 | h1 <;>
      rcases Bool.eq_false_or_eq_true (containsAny (likelyFilesText L w) backendKeywords)
        with h2 | h2 <;>
      rcases Bool.eq_false_or_eq_true (containsAny (likelyFilesText L w) testKeywords)
        with h3 | h3 <;>
      simp only [h1, h2, h3, if_true, if_false, Bool.false_eq_true, Bool.true_eq_false,
        and_self, and_true, and_false, false_and, true_and] <;> decide
  · rw [likelyFiles_eq]
    rcases Bool.eq_false_or_eq_true (containsAny (likelyFilesText L w) uiKeywords)
        with h1 | h1 <;>
      rcases Bool.eq_false_or_eq_true (containsAny (likelyFilesText L w) backendKeywords)
        with h2 | h2 <;>
      rcases Bool.eq_false_or_eq_true (containsAny (likelyFilesText L w) testKeywords)
        with h3 | h3 <;>
      simp only [h1, h2, h3, if_true, if_false, Bool.false_eq_true, Bool.true_eq_false,
        and_self, and_true, and_false, false_and, true_and] <;> decide
  · intro w2 ht hi
    have htext : likelyFilesText L w2 = likelyFilesText L w := by
      rw [likelyFilesText_eq, likelyFilesText_eq, ht, hi]
    rw [likelyFiles_eq, likelyFiles_eq, htext]

/-- C21 (witness): the title `Fix API Timeout` with the tag `Backend` matches the
backend set and the test/bug set; the same title in lower case gives the same
list. -/
theorem likelyFiles_spec_witness :
    likelyFiles RefYaml.lib { Title := "Fix API Timeout".toList, Intent := ["Backend".toList] }
        = ["cmd/".toList, "internal/".toList, "api/".toList, "server/".toList, "tests/".toList]
    ∧ likelyFiles RefYaml.lib { Title := "fix api timeout".toList, Intent := ["backend".toList] }
        = likelyFiles RefYaml.lib
            { Title := "Fix API Timeout".toList, Intent := ["Backend".toList] } :=
  ⟨by decide,
   (likelyFiles_spec RefYaml.lib
      { Title := "Fix API Timeout".toList, Intent := ["Backend".toList] }).2.2.2
      { Title := "fix api timeout".toList, Intent := ["backend".toList] }
      (by decide) (by decide)⟩

/-! ## archSummary, summaryLine and the project context paragraph -/

/-- A string is blank exactly when each of its runes is white space. -/
theorem TrimSpace_eq_nil_iff (s : Str) : TrimSpace s = [] ↔ ∀ c, c ∈ s → isSpace c = true := by
  unfold TrimSpace
  rw [List.rdropWhile_eq_nil_iff]
  constructor
  · intro h
    have hnil : s.dropWhile isSpace = [] := by
      cases hd : s.dropWhile isSpace with
      | nil => rfl
      | cons x xs =>
        have hx : isSpace x = true := h x (by rw [hd]; exact List.mem_cons_self _ _)
        have hne : s.dropWhile isSpace ≠ [] := by rw [hd]; simp
        have := List.head_dropWhile_not isSpace s hne
        simp only [hd, List.head_cons] at this
        rw [hx] at this
        cases this
    exact fun c hc => List.dropWhile_eq_nil_iff.1 hnil c hc
  · intro h c hc
    exact h c ((List.dropWhile_suffix isSpace).subset hc)

theorem TrimSpace_append_ne_nil (a b : Str) (h : TrimSpace a ≠ [] ∨ TrimSpace b ≠ []) :
    TrimSpace (a ++ b) ≠ [] := by
  intro hab
  rw [TrimSpace_eq_nil_iff] at hab
  rcases h with h | h
  · exact h ((TrimSpace_eq_nil_iff a).2 (fun c hc => hab c (List.mem_append_left _ hc)))
  · exact h ((TrimSpace_eq_nil_iff b).2 (fun c hc => hab c (List.mem_append_right _ hc)))

theorem ne_nil_of_TrimSpace_ne_nil (a : Str) (h : TrimSpace a ≠ []) : a ≠ [] := by
  intro ha
  rw [ha] at h
  exact h rfl

theorem Join_nil (sep : Str) : Join [] sep = [] := rfl

theorem Join_single (x sep : Str) : Join [x] sep = x := by
  simp [Join, List.intercalate]

theorem Join_pair (x y sep : Str) : Join [x, y] sep = x ++ sep ++ y := by
  simp [Join, List.intercalate]

theorem TrimSpace_nil : TrimSpace [] = [] := rfl

/-- C23: `archSummary` returns `Not documented.` when style, version and notes
are all blank; the notes alone when style and version are blank and the notes
are not; otherwise the non-blank ones among style and version joined by one
space, followed by ` — ` and the notes when the notes are non-blank. A blank
part contributes neither text nor a separator. -/
theorem archSummary_spec (a : Architecture) :
    archSummary a =
      (if TrimSpace a.Style = [] ∧ TrimSpace a.Version = [] then
        (if TrimSpace a.Notes = [] then "Not documented.".toList else a.Notes)
      else
        Join ([a.Style, a.Version].filter (fun p => decide (TrimSpace p ≠ []))) " ".toList
          ++ (if TrimSpace a.Notes = [] then [] else " — ".toList ++ a.Notes)) := by
  have key : ∀ parts : List Str, (parts = [] ∨ TrimSpace (Join parts " ".toList) ≠ []) →
      (let summary := Join parts " ".toList
       let summary :=
        if TrimSpace a.Notes ≠ [] then
          if summary ≠ [] then summary ++ " — ".toList ++ a.Notes else a.Notes
        else summary
       if TrimSpace summary = [] then "Not documented.".toList else summary)
      = (if parts = [] then
          (if TrimSpace a.Notes = [] then "Not documented.".toList else a.Notes)
        else Join parts " ".toList
          ++ (if TrimSpace a.Notes = [] then [] else " — ".toList ++ a.Notes)) := by
    intro parts hp
    simp only
    rcases hp with rfl | hp
    · by_cases hn : TrimSpace a.Notes = []
      · simp only [hn, Join_nil, ne_eq, not_true_eq_false, if_false, TrimSpace_nil, if_true]
      · simp only [hn, Join_nil, ne_eq, not_true_eq_false, not_false_eq_true, if_false, if_true]
    · have hne : Join parts " ".toList ≠ [] := ne_nil_of_TrimSpace_ne_nil _ hp
      have hparts : parts ≠ [] := by
        rintro rfl
        exact hne rfl
      by_cases hn : TrimSpace a.Notes = []
      · simp only [hn, ne_eq, not_true_eq_false, if_false, hp, hparts, if_true,
          List.append_nil]
      · have h3 : TrimSpace (Join parts " ".toList ++ " — ".toList ++ a.Notes) ≠ [] := by
          rw [List.append_assoc]
          exact TrimSpace_append_ne_nil _ _ (Or.inl hp)
        rw [List.append_assoc] at h3
        simp only [hn, ne_eq, not_false_eq_true, if_true, if_false, hne, h3, hparts,
          List.append_assoc]
  by_cases hs : TrimSpace a.Style = [] <;> by_cases hv : TrimSpace a.Version = []
  · have := key [] (Or.inl rfl)
    simp only [archSummary, hs, hv, ne_eq, not_true_eq_false, if_false, and_self, if_true]
    simpa using this
  · have := key [a.Version] (Or.inr (by rw [Join_single]; exact hv))
    simp only [archSummary, hs, hv, ne_eq, not_true_eq_false, not_false_eq_true, if_false,
      if_true, and_false, List.nil_append, List.filter_cons, List.filter_nil, decide_True,
      decide_False, Bool.false_eq_true]
    simpa using this
  · have := key [a.Style] (Or.inr (by rw [Join_single]; exact hs))
    simp only [archSummary, hs, hv, ne_eq, not_true_eq_false, not_false_eq_true, if_false,
      if_true, false_and, List.nil_append, List.filter_cons, List.filter_nil, decide_True,
      decide_False, Bool.false_eq_true]
    simpa using this
  · have := key [a.Style, a.Version] (Or.inr (by
      rw [Join_pair, List.append_assoc]
      exact TrimSpace_append_ne_nil _ _ (Or.inl hs)))
    simp only [archSummary, hs, hv, ne_eq, not_true_eq_false, not_false_eq_true, if_false,
      if_true, false_and, List.nil_append, List.filter_cons, List.filter_nil, decide_True,
      decide_False, Bool.false_eq_true, List.singleton_append]
    simpa using this

/-- Sample values of `archSummary`: a style and notes with no version; a blank
style; all parts blank. -/
theorem archSummary_sample :
    archSummary { Style := "layered".toList, Notes := "see docs".toList }
        = "layered — see docs".toList
    ∧ archSummary { Style := " ".toList, Version := "v2".toList } = "v2".toList
    ∧ archSummary { Style := " ".toList, Notes := "\t".toList } = "Not documented.".toList := by
  decide

/-- C24: the value of the `Last Summary` line is the last summary of State when
that is non-blank, otherwise the last summary of the work item when that is
non-blank, otherwise `Not provided.`; it is never blank; and the rendered prompt
shows it on the line `Last Summary: ` that follows the health line. -/
theorem summaryLine_spec (L : GoLib) (profiles : PromptProfileSet) (profileName : Str)
    (state : State) (wiFile : WorkItemFile) (context : Context) :
    summaryLine [state.LastSummary, wiFile.Meta.LastSummary]
        = (if TrimSpace state.LastSummary ≠ [] then state.LastSummary
           else if TrimSpace wiFile.Meta.LastSummary ≠ [] then wiFile.Meta.LastSummary
           else "Not provided.".toList)
    ∧ TrimSpace (summaryLine [state.LastSummary, wiFile.Meta.LastSummary]) ≠ []
    ∧ ∃ rest, promptDocument L profiles profileName state wiFile context
        = "Task: ".toList ++ wiFile.Meta.Title ++ " (".toList ++ wiFile.Meta.ID ++ ")\n".toList
          ++ "Intent: ".toList ++ Join wiFile.Meta.Intent ", ".toList ++ "\n".toList
          ++ "Status: ".toList ++ wiFile.Meta.Status ++ "\n".toList
          ++ "Health: ".toList ++ healthLine state.Health.Status ++ "\n".toList
          ++ "Last Summary: ".toList ++ summaryLine [state.LastSummary, wiFile.Meta.LastSummary]
          ++ "\n".toList ++ rest := by
  have h1 : summaryLine [state.LastSummary, wiFile.Meta.LastSummary]
      = (if TrimSpace state.LastSummary ≠ [] then state.LastSummary
         else if TrimSpace wiFile.Meta.LastSummary ≠ [] then wiFile.Meta.LastSummary
         else "Not provided.".toList) := by
    simp only [summaryLine]
  refine ⟨h1, ?_, ?_⟩
  · rw [h1]
    split_ifs with hs hw
    · exact hs
    · exact hw
    · decide
  · refine ⟨"\nConstraints:\n".toList
        ++ bulletList (promptData L profileName state wiFile context).Constraints
        ++ "\n\nQuality Gates:\n".toList
        ++ bulletList (promptData L profileName state wiFile context).QualityGates
        ++ "\n\nEvidence (paths only):\n".toList
        ++ bulletList (promptData L profileName state wiFile context).Evidence
        ++ "\n\nLikely Files:\n".toList
        ++ bulletList (promptData L profileName state wiFile context).LikelyFiles
        ++ "\n\nTask Acceptance:\n".toList
        ++ bulletList (promptData L profileName state wiFile context).TaskAcceptance
        ++ "\n\n".toList
        ++ projectContextSection (promptData L profileName state wiFile context)
        ++ architectureSection profiles (promptData L profileName state wiFile context)
        ++ standardsSection profiles (promptData L profileName state wiFile context)
        ++ healthIssuesSection (promptData L profileName state wiFile context)
        ++ "\n".toList, ?_⟩
    simp only [promptDocument, executePromptTemplate, promptFixedPart, promptData,
      List.append_assoc]
    rfl

/-- Sample values of `summaryLine`: State has a blank summary and the work item
has one; State has one; both are blank. -/
theorem summaryLine_sample :
    summaryLine [" ".toList, "Reproduced the failure.".toList] = "Reproduced the failure.".toList
    ∧ summaryLine ["Patched.".toList, "Reproduced the failure.".toList] = "Patched.".toList
    ∧ summaryLine [" ".toList, []] = "Not provided.".toList := by
  decide

/-- C25 (amended): the rendered prompt is the fixed part, the project context
block, the architecture block, the standards block, the health issues block and
a final line feed; the project context block is the paragraph
`Project Context:` with the summary when the summary is non-empty and nothing
when it is empty. -/
theorem promptDocument_project_context (L : GoLib) (profiles : PromptProfileSet)
    (profileName : Str) (state : State) (wiFile : WorkItemFile) (context : Context) :
    promptDocument L profiles profileName state wiFile context
        = promptFixedPart (promptData L profileName state wiFile context)
          ++ projectContextSection (promptData L profileName state wiFile context)
          ++ architectureSection profiles (promptData L profileName state wiFile context)
          ++ standardsSection profiles (promptData L profileName state wiFile context)
          ++ healthIssuesSection (promptData L profileName state wiFile context)
          ++ "\n".toList
    ∧ projectContextSection (promptData L profileName state wiFile context)
        = (if context.Project.Summary = [] then []
           else "Project Context:\n- ".toList ++ context.Project.Summary ++ "\n".toList)
    ∧ (projectContextSection (promptData L profileName state wiFile context) ≠ []
        ↔ context.Project.Summary ≠ []) := by
  have h : projectContextSection (promptData L profileName state wiFile context)
      = (if context.Project.Summary = [] then []
         else "Project Context:\n- ".toList ++ context.Project.Summary ++ "\n".toList) := by
    simp only [projectContextSection, promptData]
    split_ifs <;> simp_all
  refine ⟨rfl, h, ?_⟩
  rw [h]
  split_ifs with hs
  · simp [hs]
  · simp [hs]

/-- C25 (counterexample): the summary is one space, which is blank, and the
rendered prompt holds the paragraph `Project Context:` all the same. -/
theorem promptDocument_blank_summary_shown :
    TrimSpace " ".toList = []
    ∧ projectContextSection
        (promptData RefYaml.lib "cheap".toList {} { Meta := sampleItem }
          { Project := { Summary := " ".toList } })
        = "Project Context:\n-  \n".toList
    ∧ promptDocument RefYaml.lib sampleStoredProfiles "cheap".toList {} { Meta := sampleItem }
          { Project := { Summary := " ".toList } }
        = "Task: Fix login (WI-001)\nIntent: \nStatus: active\nHealth: unknown\nLast Summary: Not provided.\n\nConstraints:\n- No network access; offline-only CLI.\n- Do not embed logs; reference evidence paths.\n- Keep prompts token-cheap; expand only by profile.\n\nQuality Gates:\n- All tests pass.\n- No breaking API changes.\n\nEvidence (paths only):\n- None\n\nLikely Files:\n- tests/\n- internal/\n- cmd/\n\nTask Acceptance:\n- Work item completes without expanding scope.\n\nProject Context:\n-  \n\n".toList := by
  decide

/-! ## scopedList -/

theorem scoped_fold (f : Str → Str) : ∀ (keys : List Str) (b : Str),
    keys.foldl (fun b scope => b ++ (f scope ++ "\n".toList)) b
      = b ++ ((keys.map (fun k => f k ++ "\n".toList)).flatten) := by
  intro keys
  induction keys with
  | nil => intro b; simp
  | cons k rest ih =>
    intro b
    simp only [List.foldl_cons, ih, List.map_cons, List.flatten_cons, List.append_assoc]

/-- The text `scopedList` builds, before the final `TrimRight`. -/
theorem scopedList_eq (scopes : List (Str × List Str)) :
    scopedList scopes
      = if scopes = [] then "- None".toList
        else TrimRight
          (((sortStrings (scopes.map (·.1))).map
            (fun k => scopeLine scopes k ++ "\n".toList)).flatten) "\n".toList := by
  unfold scopedList
  by_cases h : scopes = []
  · subst h
    rfl
  · have hl : ¬ scopes.length = 0 := fun h0 => h (List.length_eq_zero.1 h0)
    simp only [hl, h, if_false]
    have := scoped_fold (scopeLine scopes) (sortStrings (scopes.map (·.1))) []
    simp only [scopeLine, List.nil_append, List.length_eq_zero, List.append_assoc] at this ⊢
    rw [this]

theorem lookup_eq_some_iff_mem (k : Str) (v : List Str) :
    ∀ l : List (Str × List Str), (l.map (·.1)).Nodup → (l.lookup k = some v ↔ (k, v) ∈ l) := by
  intro l
  induction l with
  | nil => intro _; simp
  | cons e rest ih =>
    intro hnd
    obtain ⟨k1, v1⟩ := e
    simp only [List.map_cons, List.nodup_cons] at hnd
    by_cases hk : k = k1
    · subst hk
      have hnot : (k, v) ∉ rest := fun hm => hnd.1 (List.mem_map_of_mem (·.1) hm)
      simp [List.lookup_cons, hnot]
      exact eq_comm
    · have hb : (k == k1) = false := by simpa using hk
      simp [List.lookup_cons, hb, hk, ih hnd.2]

theorem lookup_perm (l1 l2 : List (Str × List Str)) (hp : l1.Perm l2)
    (hnd : (l2.map (·.1)).Nodup) (k : Str) : l1.lookup k = l2.lookup k := by
  have hnd1 : (l1.map (·.1)).Nodup := (hp.map (·.1)).nodup_iff.2 hnd
  cases h1 : l1.lookup k with
  | some v =>
    have := (lookup_eq_some_iff_mem k v l1 hnd1).1 h1
    exact ((lookup_eq_some_iff_mem k v l2 hnd).2 (hp.subset this)).symm
  | none =>
    cases h2 : l2.lookup k with
    | none => rfl
    | some v =>
      have := (lookup_eq_some_iff_mem k v l2 hnd).1 h2
      rw [(lookup_eq_some_iff_mem k v l1 hnd1).2 (hp.symm.subset this)] at h1
      cases h1

theorem sortStrings_of_perm (xs ys : List Str) (hp : xs.Perm ys) :
    sortStrings xs = sortStrings ys :=
  List.eq_of_perm_of_sorted
    (((sortStrings_perm xs).trans hp).trans (sortStrings_perm ys).symm)
    (sortStrings_sorted xs) (sortStrings_sorted ys)

/-- C22 (amended): `scopedList` returns `- None` for an empty mapping; for a
mapping with categories it works on the category names in ascending order
(a sorted rearrangement of the names), and when the line of the last category
does not end in a line feed the result is the lines
`- <category>: <rules joined by "; ">` (`None` for an empty rule list) of the
categories in that order, joined by single line feeds; and for every mapping
the result is the same for any two storage orders of its entries. -/
theorem scopedList_lines (scopes : List (Str × List Str)) :
    (scopes = [] → scopedList scopes = "- None".toList)
    ∧ (sortStrings (scopes.map (·.1))).Sorted (· ≤ ·)
    ∧ (sortStrings (scopes.map (·.1))).Perm (scopes.map (·.1))
    ∧ (scopes ≠ [] →
        (∀ k, (sortStrings (scopes.map (·.1))).getLast? = some k →
          (scopeLine scopes k).getLast? ≠ some '\n') →
        scopedList scopes
          = Join ((sortStrings (scopes.map (·.1))).map (scopeLine scopes)) "\n".toList)
    ∧ (∀ stored : List (Str × List Str), stored.Perm scopes → (scopes.map (·.1)).Nodup →
        scopedList stored = scopedList scopes) := by
  refine ⟨?_, sortStrings_sorted _, sortStrings_perm _, ?_, ?_⟩
  · rintro rfl
    rfl
  · intro hne hlast
    rw [scopedList_eq, if_neg hne]
    have hkeys : sortStrings (scopes.map (·.1)) ≠ [] := by
      intro h0
      have := (sortStrings_perm (scopes.map (·.1))).length_eq
      rw [h0] at this
      simp only [List.length_nil, List.length_map] at this
      exact hne (List.length_eq_zero.1 this.symm)
    cases hk : sortStrings (scopes.map (·.1)) with
    | nil => exact absurd hk hkeys
    | cons k rest =>
      have hflat := flatten_lines [] "\n".toList (scopeLine scopes k) (rest.map (scopeLine scopes))
      simp only [List.map_cons, List.map_map, List.nil_append] at hflat ⊢
      have hfun : (fun i => i ++ "\n".toList) ∘ scopeLine scopes
          = fun k => scopeLine scopes k ++ "\n".toList := rfl
      have hid : (fun i : Str => i) ∘ scopeLine scopes = scopeLine scopes := rfl
      rw [hfun, hid] at hflat
      have hflat2 : ((scopeLine scopes k ++ "\n".toList)
          :: List.map (fun k => scopeLine scopes k ++ "\n".toList) rest).flatten
          = Join (scopeLine scopes k :: List.map (scopeLine scopes) rest) "\n".toList
            ++ ['\n'] := hflat
      rw [hflat2]
      apply TrimRight_newline_concat
      have hnn : (scopeLine scopes k :: List.map (scopeLine scopes) rest) ≠ [] := by simp
      have hlastline : (scopeLine scopes k :: List.map (scopeLine scopes) rest).getLast hnn
          = scopeLine scopes ((k :: rest).getLast (by simp)) := by
        have := List.getLast_map (scopeLine scopes) (l := k :: rest) (by simp)
        simpa using this
      rw [getLast?_Join "\n".toList _ hnn (by rw [hlastline]; simp [scopeLine]), hlastline]
      apply hlast
      rw [hk]
      exact List.getLast?_eq_getLast _ _
  · intro stored hp hnd
    have hsort := sortStrings_of_perm _ _ (hp.map (·.1))
    have hline : ∀ k, scopeLine stored k = scopeLine scopes k := by
      intro k
      simp only [scopeLine, lookup_perm stored scopes hp hnd k]
    have hnil : stored = [] ↔ scopes = [] := by
      constructor
      · rintro rfl
        exact hp.symm.eq_nil
      · rintro rfl
        exact hp.eq_nil
    rw [scopedList_eq, scopedList_eq, hsort]
    simp only [hline, hnil]

/-- C22 (witness): the categories `b` (two rules) and `a` (no rule), stored in
either order. -/
theorem scopedList_lines_witness :
    scopedList [("b".toList, ["x".toList, "y".toList]), ("a".toList, [])]
        = "- a: None\n- b: x; y".toList
    ∧ scopedList [("a".toList, []), ("b".toList, ["x".toList, "y".toList])]
        = scopedList [("b".toList, ["x".toList, "y".toList]), ("a".toList, [])] :=
  ⟨((scopedList_lines [("b".toList, ["x".toList, "y".toList]), ("a".toList, [])]).2.2.2.1
      (by decide) (by decide)).trans (by decide),
   (scopedList_lines [("b".toList, ["x".toList, "y".toList]), ("a".toList, [])]).2.2.2.2
      [("a".toList, []), ("b".toList, ["x".toList, "y".toList])]
      (List.Perm.swap _ _ _) (by decide)⟩

/-- C22 (counterexample): the only rule of the only category ends in a line
feed; the line of the category is `- a: x` followed by a line feed, and
`scopedList` returns `- a: x` without it. -/
theorem scopedList_strips_rule_newline :
    scopedList [("a".toList, ["x\n".toList])] = "- a: x".toList
    ∧ "- ".toList ++ "a".toList ++ ": ".toList ++ Join ["x\n".toList] "; ".toList
        = "- a: x\n".toList
    ∧ scopedList [("a".toList, ["x\n".toList])]
        ≠ "- ".toList ++ "a".toList ++ ": ".toList ++ Join ["x\n".toList] "; ".toList := by
  decide

/-! ## CopyEvidence -/

theorem MkdirAll_existing (fs : FS) (hroot : fs agentDir = some .dir)
    (hev : fs (AgentPath [evidenceDir]) = some .dir) :
    MkdirAll fs (AgentPath [evidenceDir]) = .ok fs := by
  have hanc : pathAncestors (AgentPath [evidenceDir]) = [agentDir, AgentPath [evidenceDir]] := by
    decide
  unfold MkdirAll
  rw [hanc]
  simp only [List.any_cons, List.any_nil, hroot, hev, Bool.or_self, Bool.false_eq_true,
    if_false, Except.ok.injEq]
  funext q
  by_cases hq : q ∈ [agentDir, AgentPath [evidenceDir]] ∧ fs q = none
  · exfalso
    obtain ⟨h1, h2⟩ := hq
    simp only [List.mem_cons, List.mem_singleton, List.not_mem_nil, or_false] at h1
    rcases h1 with rfl | rfl
    · rw [hroot] at h2; cases h2
    · rw [hev] at h2; cases h2
  · rw [if_neg hq]

theorem pathElementsLoop_element (x : Str) (hx : '/' ∉ x) :
    ∀ acc : Str, pathElementsLoop acc x = [acc.reverse ++ x] := by
  induction x with
  | nil => intro acc; simp [pathElementsLoop]
  | cons c t ih =>
    intro acc
    have hc : c ≠ '/' := fun h => hx (h ▸ List.mem_cons_self _ _)
    have ht : '/' ∉ t := fun h => hx (List.mem_cons_of_mem _ h)
    simp [pathElementsLoop, hc, ih ht]

/-- The elements of a path below the evidence directory. -/
theorem pathElements_evidence (x : Str) (hx : '/' ∉ x) :
    pathElements (".agent/evidence/".toList ++ x)
      = [".agent".toList, "evidence".toList, x] := by
  have h := pathElementsLoop_element x hx []
  simp only [List.reverse_nil, List.nil_append] at h
  simp [pathElements, pathElementsLoop, h]

/-- Joining the evidence directory and one ordinary element needs no cleaning. -/
theorem filepathJoin_evidence (x : Str) (hx : '/' ∉ x) (h0 : x ≠ []) (h1 : x ≠ ['.'])
    (h2 : x ≠ ['.', '.']) :
    filepathJoin [".agent/evidence".toList, x] = ".agent/evidence/".toList ++ x := by
  have hjoin : Join [".agent/evidence".toList, x] ['/'] = ".agent/evidence/".toList ++ x := by
    simp [Join, List.intercalate]
  have hne : ".agent/evidence/".toList ++ x ≠ [] := by simp
  have hstep : cleanStep false [".agent".toList, "evidence".toList] x
      = [".agent".toList, "evidence".toList, x] := by
    simp [cleanStep, h0, h1, h2]
  have hfold : (pathElements (".agent/evidence/".toList ++ x)).foldl (cleanStep false) []
      = [".agent".toList, "evidence".toList, x] := by
    rw [pathElements_evidence x hx]
    have h12 : [".agent".toList, "evidence".toList].foldl (cleanStep false) []
        = [".agent".toList, "evidence".toList] := by decide
    rw [show [".agent".toList, "evidence".toList, x]
        = [".agent".toList, "evidence".toList] ++ [x] from rfl, List.foldl_append, h12]
    simp only [List.foldl_cons, List.foldl_nil, hstep]
    rfl
  have hrooted : decide ((".agent/evidence/".toList ++ x).head? = some '/') = false := by
    simp
  have hdrop : [".agent/evidence".toList, x].dropWhile (fun p => p.isEmpty)
      = [".agent/evidence".toList, x] := by
    simp [List.dropWhile]
  unfold filepathJoin
  rw [hdrop]
  simp only [hjoin]
  unfold filepathClean
  rw [if_neg hne]
  simp only [hrooted, hfold, Bool.false_eq_true, if_false]
  simp [Join, List.intercalate]

theorem utf8Length_append (a b : Str) : utf8Length (a ++ b) = utf8Length a + utf8Length b := by
  simp [utf8Length]

theorem utf8Length_pos (s : Str) (h : s ≠ []) : 0 < utf8Length s := by
  cases s with
  | nil => exact absurd rfl h
  | cons c t =>
    have := Char.utf8Size_pos c
    simp only [utf8Length, List.map_cons, List.sum_cons]
    omega

/-- Linux rejects a path below the evidence directory whose last element has
more than 255 bytes. -/
theorem linuxStore_long_element (tree : FS) (x : Str) (hx : '/' ∉ x)
    (hlen : nameMax < utf8Length x) :
    linuxStore tree (".agent/evidence/".toList ++ x) = some .fault := by
  unfold linuxStore
  rw [pathElements_evidence x hx]
  have h : decide (nameMax < utf8Length x) = true := decide_eq_true hlen
  simp only [List.any_cons, h, Bool.or_true, Bool.true_or, if_true]

/-- Every candidate of `uniquePath` for the file `longName` has a name of more
than 255 bytes, which Linux rejects. -/
theorem longName_candidate (tree : FS) (i : Nat) :
    linuxStore tree
        (filepathJoin [".agent/evidence".toList,
          List.replicate 251 'a' ++ "-".toList ++ formatNat i ++ ".txt".toList])
      = some .fault := by
  obtain ⟨_, hne, hdig⟩ := formatNat_spec i
  have hslash : '/' ∉ List.replicate 251 'a' ++ "-".toList ++ formatNat i ++ ".txt".toList := by
    intro h
    simp only [List.mem_append, List.mem_replicate] at h
    rcases h with ((⟨_, h⟩ | h) | h) | h
    · cases h
    · revert h; decide
    · have := List.all_eq_true.1 hdig _ h
      revert this; decide
    · revert h; decide
  have hlen : 255 < utf8Length
      (List.replicate 251 'a' ++ "-".toList ++ formatNat i ++ ".txt".toList) := by
    have h251 : utf8Length (List.replicate 251 'a') = 251 := by decide
    have h1 : utf8Length "-".toList = 1 := by decide
    have h4 : utf8Length ".txt".toList = 4 := by decide
    have := utf8Length_pos _ hne
    rw [utf8Length_append, utf8Length_append, utf8Length_append, h251, h1, h4]
    omega
  have hlong : 2 < (List.replicate 251 'a' ++ "-".toList ++ formatNat i ++ ".txt".toList).length := by
    simp only [List.length_append, List.length_replicate]
    omega
  rw [filepathJoin_evidence _ hslash
    (by intro h; rw [h] at hlong; simp at hlong)
    (by intro h; rw [h] at hlong; simp at hlong)
    (by intro h; rw [h] at hlong; simp at hlong)]
  exact linuxStore_long_element tree _ hslash hlen

/-- The loop of `uniquePath` for `longName` finds no candidate, whatever the
number of rounds. -/
theorem longName_loop (tree : FS) : ∀ (fuel i : Nat),
    uniquePathLoop (linuxStore tree) ".agent/evidence".toList (List.replicate 251 'a')
      ".txt".toList fuel i = none := by
  intro fuel
  induction fuel with
  | zero => intro i; rfl
  | succ n ih =>
    intro i
    simp only [uniquePathLoop, Stat, longName_candidate tree i, Error.isNotExist,
      Bool.false_eq_true, if_false, ih]

/-- Adding `notes.txt` when `evidence/notes.txt` exists gives
`evidence/notes-1.txt`, and adding it again gives `evidence/notes-2.txt`. -/
theorem CopyEvidence_notes :
    (CopyEvidence 5 "notes.txt".toList fsEvidence).map (·.1)
        = some (.ok "evidence/notes-1.txt".toList)
    ∧ ((CopyEvidence 5 "notes.txt".toList fsEvidence).bind
          (fun r => CopyEvidence 5 "notes.txt".toList r.2)).map (·.1)
        = some (.ok "evidence/notes-2.txt".toList) := by
  decide

/-- C19 (failing input): the evidence directory already holds a file whose name
has 255 bytes, and the same file is added again. The destination exists, so
`uniquePath` runs; each of its candidates has a name of more than 255 bytes, the
stat of which fails with an error that is not a not-exist error, and the loop
goes on: for no number of rounds does `CopyEvidence` return. -/
theorem CopyEvidence_never_returns :
    utf8Length longName = 255
    ∧ Stat (linuxStore fsLongEvidence) (AgentPath [evidenceDir, filepathBase longName])
        = .ok (.file "first".toList)
    ∧ ∀ fuel, CopyEvidence fuel longName (linuxStore fsLongEvidence) = none := by
  have hstat : Stat (linuxStore fsLongEvidence) (AgentPath [evidenceDir, filepathBase longName])
      = .ok (.file "first".toList) := by decide
  refine ⟨by decide, hstat, ?_⟩
  intro fuel
  have hmk := MkdirAll_existing (linuxStore fsLongEvidence) (by decide) (by decide)
  have hdir : filepathDir (AgentPath [evidenceDir, filepathBase longName])
      = ".agent/evidence".toList := by decide
  have hext : filepathExt (AgentPath [evidenceDir, filepathBase longName]) = ".txt".toList := by
    decide
  have hbase : TrimSuffix (filepathBase (AgentPath [evidenceDir, filepathBase longName]))
      ".txt".toList = List.replicate 251 'a' := by decide
  simp only [CopyEvidence, hmk, hstat, uniquePath, hdir, hext, hbase, longName_loop]

end Ctx
